import Mathlib

/-!
# PackageManagerSource: the resolver of `Main.cpp`

A shallow embedding of the recursive package resolver (`AddPackage`,
`CheckDependency`, `Add`, `AddInterface`, `AddFramework`, `UpdatePackage`,
`FetchCodes`, `Start`) together with the small part of the outside world it
acts on: the catalog document, the files below the working directory and the
sequence of effects performed.

Conventions of the embedding.

* The catalog is the parsed JSON document; keys keep their JSON names.
* A directory is named by its path components below the working directory
  of the process, so the folder handle `root` made from `./` is `[]`.
* Every effect the code performs on the file system or through
  `Platform::System` is appended to `World.log` in the order it is performed
  and applied to `World.disk`. External commands are taken to succeed, and
  so are the writes of files: `put` gives the disk after a write that
  succeeded, and `creatable` tells where `IFolder::CreateFile` can succeed.
* The mutual recursion `AddPackage → Add / AddInterface → CheckDependency →
  AddPackage` is cut by a fuel argument on `AddPackage`; the other functions
  receive the recursive call as their first argument. `none` means that the
  fuel ran out, never an error of the program.
-/

namespace PackageManager

/-! ## Catalog document -/

/-- One element of a `Dependency` array: `Name`, `Version` and the optional `LinkType`. -/
structure Dependency where
  Name : String
  Version : String
  LinkType : Option String
deriving DecidableEq, Repr

/-- One element of a `Versions` array. A missing `Dependency` key and an empty
array are both the empty list (neither makes `CheckDependency` iterate). -/
structure VersionRecord where
  Version : String
  URL : String
  Revision : String
  Platform : Option String
  Dependency : List Dependency
deriving DecidableEq, Repr

/-- One element of the `Packages` array. `Type_` is the string under the key
`Type`; a string other than the four dispatched ones selects no emitter. -/
structure Package where
  Name : String
  Type_ : String
  Versions : List VersionRecord
deriving DecidableEq, Repr

/-! ## Files below the working directory -/

/-- Path components below the working directory of the process. -/
abbrev Path := List String

/-- What a file holds, as far as `Map()->ToJson()` of the EasyCpp library tells
it apart: a JSON object with string members (`ToJson` succeeds and
`GetChildByKey` looks a member up), or any other bytes (`ToJson` throws, which
`UpdatePackage` and `AddFramework` catch). A manifest that was written is
read back as the object that was written. -/
inductive Content where
  | json (fields : List (String × String))
  | text (s : String)
deriving DecidableEq, Repr

/-- A directory entry: a folder, a file, or the source tree left by
`git clone url` followed by `git reset --hard rev` (a folder as well). -/
inductive Dirent where
  | folder
  | file (content : Content)
  | checkout (url rev : String)
deriving DecidableEq, Repr

/-- The entries that exist, keyed by path. -/
abbrev Disk := List (Path × Dirent)

/-- Whether `p` is an initial segment of `q` (every path lies below itself). -/
def below : Path → Path → Bool
  | [], _ => true
  | _ :: _, [] => false
  | a :: p, b :: q => a == b && below p q

/-- The entry stored at `p`, as `IFolder::Find` on the parent folder reports it. -/
def Find : Disk → Path → Option Dirent
  | [], _ => none
  | (q, d) :: rest, p => if q = p then some d else Find rest p

/-- Replace whatever is stored at `p` by `d`: the disk after a write to `p`
that succeeded. Whether the write can succeed is not decided here; where a
directory stands at `p`, `creatable` is false and the disk computed here is
not one the program reaches. -/
def put (disk : Disk) (p : Path) (d : Dirent) : Disk :=
  (p, d) :: disk.filter (fun e => decide (e.1 ≠ p))

/-- Whether `IFolder::CreateFile` can create or open a regular file at `p`: no
directory stands at `p`, neither one that is stored (a folder or a fetched
tree) nor one that an entry strictly below `p` implies. -/
def creatable (disk : Disk) (p : Path) : Bool :=
  match Find disk p with
  | some Dirent.folder => false
  | some (Dirent.checkout _ _) => false
  | _ => !(disk.any (fun e => below p e.1 && decide (e.1 ≠ p)))

/-- Remove `p` and everything below it (`IFolder::Delete`). -/
def remove (disk : Disk) (p : Path) : Disk :=
  disk.filter (fun e => !(below p e.1))

/-- The disk after `IFolder::CreateFolder`: a folder that exists already, by an
entry of its own or by something stored below it, is left as it is. -/
def mkFolder (disk : Disk) (p : Path) : Disk :=
  if disk.any (fun e => below p e.1) then disk else (p, Dirent.folder) :: disk

/-- The effects of the program, in the order they are performed. -/
inductive Event where
  | manifest (dir : Path) (name version : String)
  | delete (target : Path)
  | fetch (dir : Path) (folder url rev : String)
  | create (file : Path)
  | write (file : Path) (text : String)
deriving DecidableEq, Repr

/-- The world the resolver acts on. -/
structure World where
  disk : Disk
  log : List Event
deriving DecidableEq, Repr

/-! ## The data of `Main.cpp` -/

/-- The type `CStringList` of the members of `DepInfo`. It is declared in the
EasyCpp headers, which are not part of this repository; it is taken to be a
list of strings on which `+=` appends at the end, a single string
(`dInfo.depList += dName`) as well as a whole list
(`info.dep.depList += dInfo.depList`), and which `Iter()->ForEach` walks from
the front. -/
abbrev CStringList := List String

/-- The constant `EOS` that `Add` and `AddInterface` write after the `.PHONY`
line and after the target line. It is declared in the EasyCpp headers, which
are not part of this repository; it is taken to be the line feed, which the
written makefile needs at both places. -/
def EOS : String := "\n"

/-- The `struct PackFixInfo` of the source. -/
structure PackFixInfo where
  root : Path
  package : Path
  packs : List Package
  forceUpdate : Bool
deriving DecidableEq, Repr

/-- The `struct DepInfo` of the source. -/
structure DepInfo where
  depList : CStringList := []
  sLibList : CStringList := []
  dLibList : CStringList := []
deriving DecidableEq, Repr

/-- The `struct PackInfo` of the source without its reference member `dep`,
which is passed and handed back explicitly. The constructor of the source
leaves `details` and `path` null and `result` false. -/
structure PackInfo where
  fix : PackFixInfo
  name : String
  version : String
  details : VersionRecord := ⟨"", "", "", none, []⟩
  path : Path := []
  result : Bool := false
deriving DecidableEq, Repr

/-- What a call hands back: the caller's `DepInfo` after the call, and the world. -/
abbrev Outcome := Option (DepInfo × World)

/-! ## The functions of `Main.cpp` -/

/-- `FetchCodes`: clone `url` into the folder `name` inside `path` and reset it to `rev`. -/
def FetchCodes (path : Path) (name url rev : String) (w : World) : World :=
  { disk := put w.disk (path ++ [name]) (Dirent.checkout url rev)
    log := w.log ++ [Event.fetch path name url rev] }

/-- The per-dependency step of `CheckDependency` after the recursive call:
the name joins `depList`, and `sLibList` or `dLibList` by its `LinkType`. -/
def classify (dep : Dependency) (dInfo : DepInfo) : DepInfo :=
  let dInfo := { dInfo with depList := dInfo.depList ++ [dep.Name] }
  if dep.LinkType = some "Static" then
    { dInfo with sLibList := dInfo.sLibList ++ [dep.Name] }
  else if dep.LinkType = some "Dynamic" then
    { dInfo with dLibList := dInfo.dLibList ++ [dep.Name] }
  else dInfo

/-- The loop of `CheckDependency` over the elements of `Dependency`. The child
`PackInfo` is built with the caller's own `dInfo` as its `dep` member. -/
def CheckDependencyLoop (AddPackage : PackInfo → DepInfo → World → Outcome)
    (fix : PackFixInfo) : List Dependency → DepInfo → World → Outcome
  | [], dInfo, w => some (dInfo, w)
  | dep :: rest, dInfo, w =>
    match AddPackage { fix := fix, name := dep.Name, version := dep.Version } dInfo w with
    | none => none
    | some (dInfo, w) => CheckDependencyLoop AddPackage fix rest (classify dep dInfo) w

/-- `CheckDependency(info, dInfo)`. -/
def CheckDependency (AddPackage : PackInfo → DepInfo → World → Outcome)
    (info : PackInfo) (dInfo : DepInfo) (w : World) : Outcome :=
  CheckDependencyLoop AddPackage info.fix info.details.Dependency dInfo w

/-- The test `exist` of `UpdatePackage` and `AddFramework`: the entry `jName` of
`path` is found, is a file, parses, and its `Version` equals `version`. -/
def exist (disk : Disk) (path : Path) (jName version : String) : Bool :=
  match Find disk (path ++ [jName]) with
  | some (Dirent.file (Content.json fields)) => fields.lookup "Version" == some version
  | _ => false

/-- The manifest text written by `UpdatePackage` and `AddFramework`. -/
def manifestOf (name version : String) : Content :=
  Content.json [("name", name), ("Version", version)]

/-- `UpdatePackage`: the created `.mk` file when the package is installed,
nothing when it is found installed in the requested version. -/
def UpdatePackage (info : PackInfo) (w : World) : Option Path × World :=
  let jName := info.name ++ ".json"
  if info.fix.forceUpdate = false ∧ exist w.disk info.path jName info.version = true then
    (none, w)
  else
    let w : World :=
      { disk := put w.disk (info.path ++ [jName]) (Dirent.file (manifestOf info.name info.version))
        log := w.log ++ [Event.manifest info.path info.name info.version] }
    let w : World :=
      { disk := remove w.disk (info.path ++ [info.name])
        log := w.log ++ [Event.delete (info.path ++ [info.name])] }
    let w := FetchCodes info.path info.name info.details.URL info.details.Revision w
    let mk := info.path ++ [info.name ++ ".mk"]
    (some mk, { disk := put w.disk mk (Dirent.file (Content.text "")),
                log := w.log ++ [Event.create mk] })

/-- All `Write` calls on a created file, taken together. -/
def writeAll (file : Option Path) (text : String) (w : World) : World :=
  match file with
  | none => w
  | some f =>
    { disk := put w.disk f (Dirent.file (Content.text text))
      log := w.log ++ [Event.write f text] }

/-- `AddFramework`. The clone runs in the working directory of the process. -/
def AddFramework (info : PackInfo) (w : World) : World :=
  let info := { info with path := info.fix.root }
  let jName := info.name ++ ".json"
  if info.fix.forceUpdate = false ∧ exist w.disk info.path jName info.version = true then
    w
  else
    let w : World :=
      { disk := remove w.disk (info.path ++ ["EasyCpp"])
        log := w.log ++ [Event.delete (info.path ++ ["EasyCpp"])] }
    let w : World :=
      { disk := put w.disk (info.path ++ [jName]) (Dirent.file (manifestOf info.name info.version))
        log := w.log ++ [Event.manifest info.path info.name info.version] }
    { disk := put w.disk ["EasyCpp"] (Dirent.checkout info.details.URL info.details.Revision)
      log := w.log ++ [Event.fetch [] "EasyCpp" info.details.URL info.details.Revision] }

/-- The text `AddInterface` writes to the `.mk` file. -/
def InterfaceText (name : String) (dInfo : DepInfo) : String :=
  "export FLAGS += \\\n" ++ "  -I $(PACKAGES)/Interface/" ++ name ++ "\n\n"
    ++ ".PHONY: " ++ name ++ EOS
    ++ name ++ ": "
    ++ String.join (dInfo.depList.map (fun dep => " " ++ dep))

/-- `AddInterface`. Its `dInfo` is never merged into the caller's. -/
def AddInterface (AddPackage : PackInfo → DepInfo → World → Outcome)
    (info : PackInfo) (dep : DepInfo) (w : World) : Outcome :=
  match CheckDependency AddPackage info {} w with
  | none => none
  | some (dInfo, w) =>
    let path := info.fix.package ++ ["Interface"]
    let w : World := { w with disk := mkFolder w.disk path }
    let info := { info with path := path }
    let (file, w) := UpdatePackage info w
    some (dep, writeAll file (InterfaceText info.name dInfo) w)

/-- The text `Add` writes to the `.mk` file. -/
def AddText (name path : String) (dInfo : DepInfo) (isApp : Bool) : String :=
  "export FLAGS += \\\n" ++ "  -I $(PACKAGES)/" ++ name ++ "/Inc\n\n"
    ++ ".PHONY: " ++ name ++ EOS
    ++ name ++ ":"
    ++ String.join (dInfo.depList.map (fun dep => " " ++ dep))
    ++ EOS
    ++ "\t@$(MAKE) -f $(PACKAGES)/" ++ name ++ "/Makefile \\\n"
    ++ "\t\tPKG_PATH=" ++ path ++ name ++ " \\\n"
    ++ "\t\tPKG_NAME=" ++ name ++ " \\\n"
    ++ "\t\tSLIBS=\""
    ++ String.join (dInfo.sLibList.map (fun slib => slib ++ " "))
    ++ "\" \\\n" ++ "\t\tDLIBS=\"EasyCpp "
    ++ String.join (dInfo.dLibList.map (fun dlib => dlib ++ " "))
    ++ "\" \\\n"
    ++ (if isApp then "\t\tI_AM_APP=y \\\n" else "")
    ++ "\t\tall\n"

/-- The folder and the `PKG_PATH` stem `Add` selects from the `Platform` key. -/
def platformPath (info : PackInfo) : Path × String :=
  if info.details.Platform = some "Linux" then
    (info.fix.package ++ ["Platform", "Linux"], "Packages/Platform/Linux/")
  else
    (info.fix.package, "Packages/")

/-- The folders `Add` creates while selecting the install folder. -/
def platformFolders (info : PackInfo) (disk : Disk) : Disk :=
  if info.details.Platform = some "Linux" then
    mkFolder (mkFolder disk (info.fix.package ++ ["Platform"]))
      (info.fix.package ++ ["Platform", "Linux"])
  else
    disk

/-- `Add(info, isApp)`. The last three statements merge `dInfo` into the
caller's `DepInfo` whether or not the package was installed. -/
def Add (AddPackage : PackInfo → DepInfo → World → Outcome)
    (info : PackInfo) (isApp : Bool) (dep : DepInfo) (w : World) : Outcome :=
  match CheckDependency AddPackage info {} w with
  | none => none
  | some (dInfo, w) =>
    let path := (platformPath info).2
    let w : World := { w with disk := platformFolders info w.disk }
    let info := { info with path := (platformPath info).1 }
    let (file, w) := UpdatePackage info w
    let w := writeAll file (AddText info.name path dInfo isApp) w
    some ({ depList := dep.depList ++ dInfo.depList
            sLibList := dep.sLibList ++ dInfo.sLibList
            dLibList := dep.dLibList ++ dInfo.dLibList }, w)

/-- The two `Find` calls of `AddPackage`: the first package of that name, and in
it the first version record of that version. -/
def lookup (packs : List Package) (name version : String) : Option (Package × VersionRecord) :=
  match packs.find? (fun pack => decide (name = pack.Name)) with
  | none => none
  | some pack =>
    match pack.Versions.find? (fun details => decide (version = details.Version)) with
    | none => none
    | some details => some (pack, details)

/-- `AddPackage(info)`, with the caller's `DepInfo` (the member `info.dep`)
passed as `dep`. -/
def AddPackage : Nat → PackInfo → DepInfo → World → Outcome
  | 0, _, _, _ => none
  | fuel + 1, info, dep, w =>
    match lookup info.fix.packs info.name info.version with
    | none => some (dep, w)
    | some (pack, details) =>
      let info := { info with details := details, result := true }
      if pack.Type_ = "Interface" then AddInterface (AddPackage fuel) info dep w
      else if pack.Type_ = "Lib" then Add (AddPackage fuel) info false dep w
      else if pack.Type_ = "Exec" then Add (AddPackage fuel) info true dep w
      else if pack.Type_ = "Framework" then some (dep, AddFramework info w)
      else some (dep, w)

/-- The part of `Start` after the catalog is read: the `Packages` folder is
created under the install root, then every `-a name/version` request is
resolved with a fresh `DepInfo`. -/
def Start (fuel : Nat) (packs : List Package) (root : Path) (force : Bool)
    (reqs : List (String × String)) (w : World) : Option World :=
  let fInfo : PackFixInfo :=
    { root := root, package := root ++ ["Packages"], packs := packs, forceUpdate := force }
  reqs.foldlM
    (fun w req =>
      (AddPackage fuel { fix := fInfo, name := req.1, version := req.2 } {} w).map Prod.snd)
    { w with disk := mkFolder w.disk (root ++ ["Packages"]) }

/-! ## Auxiliary notions used to state the properties -/

/-- The path an event acts on. -/
def Event.target : Event → Path
  | Event.manifest dir name _ => dir ++ [name ++ ".json"]
  | Event.delete target => target
  | Event.fetch dir folder _ _ => dir ++ [folder]
  | Event.create file => file
  | Event.write file _ => file

/-- The `PackFixInfo` that `Start` builds. -/
def fixOf (packs : List Package) (root : Path) (force : Bool) : PackFixInfo :=
  { root := root, package := root ++ ["Packages"], packs := packs, forceUpdate := force }

/-- The effects of `UpdatePackage` when it does not return early, in order. -/
def installEvents (info : PackInfo) : List Event :=
  [ Event.manifest info.path info.name info.version,
    Event.delete (info.path ++ [info.name]),
    Event.fetch info.path info.name info.details.URL info.details.Revision,
    Event.create (info.path ++ [info.name ++ ".mk"]) ]

/-- The three `+=` on lists that end `Add`. -/
def DepInfo.append (a b : DepInfo) : DepInfo :=
  { depList := a.depList ++ b.depList
    sLibList := a.sLibList ++ b.sLibList
    dLibList := a.dLibList ++ b.dLibList }

/-- The loop of `CheckDependency` with the world left out: what the loop makes
of `dInfo`, given what each recursive call merges into it. -/
def collectLoop (collect : String → String → Option DepInfo) :
    List Dependency → DepInfo → Option DepInfo
  | [], dInfo => some dInfo
  | dep :: rest, dInfo =>
    match collect dep.Name dep.Version with
    | none => none
    | some d => collectLoop collect rest (classify dep (dInfo.append d))

/-- `AddPackage` with the world left out: the lists a resolution of
`name`/`version` appends to its caller's `DepInfo`. -/
def collect (packs : List Package) : Nat → String → String → Option DepInfo
  | 0, _, _ => none
  | fuel + 1, name, version =>
    match lookup packs name version with
    | none => some {}
    | some (pack, details) =>
      if pack.Type_ = "Interface" then
        (collectLoop (collect packs fuel) details.Dependency {}).map (fun _ => {})
      else if pack.Type_ = "Lib" ∨ pack.Type_ = "Exec" then
        collectLoop (collect packs fuel) details.Dependency {}
      else some {}

/-- The emitters that walk the `Dependency` array. -/
def recurses (pack : Package) : Prop :=
  pack.Type_ = "Interface" ∨ pack.Type_ = "Lib" ∨ pack.Type_ = "Exec"

instance (pack : Package) : Decidable (recurses pack) := by
  unfold recurses; infer_instance

/-- The catalog is acyclic, with `rank` as the evidence: along every dependency
declaration of a version record that a lookup can return for an emitter that
walks it, the rank of the (name, version) pair strictly decreases. -/
def RankedBy (packs : List Package) (rank : String → String → Nat) : Prop :=
  ∀ name version pack details, lookup packs name version = some (pack, details) →
    recurses pack → ∀ dep ∈ details.Dependency, rank dep.Name dep.Version < rank name version

/-- The assignments `info.details = details; info.result = true` of `AddPackage`. -/
def resolved (info : PackInfo) (details : VersionRecord) : PackInfo :=
  { info with details := details, result := true }

/-- The `PackInfo` as `UpdatePackage` receives it from `Add`. -/
def placed (info : PackInfo) : PackInfo :=
  { info with path := (platformPath info).1 }

/-- The `PackInfo` as `UpdatePackage` receives it from `AddInterface`. -/
def placedInterface (info : PackInfo) : PackInfo :=
  { info with path := info.fix.package ++ ["Interface"] }

/-- The names of the declarations, in declaration order. -/
def declaredNames (deps : List Dependency) : List String :=
  deps.map (fun dep => dep.Name)

/-- The names declared with `LinkType` `Static`, in declaration order. -/
def staticNames (deps : List Dependency) : List String :=
  (deps.filter (fun dep => decide (dep.LinkType = some "Static"))).map (fun dep => dep.Name)

/-- The names declared with `LinkType` `Dynamic`, in declaration order. -/
def dynamicNames (deps : List Dependency) : List String :=
  (deps.filter (fun dep => decide (dep.LinkType = some "Dynamic"))).map (fun dep => dep.Name)

/-- The declaration resolves to nothing that merges names into its caller: it
is not found, or found with a type other than `Lib` and `Exec`, or found as a
`Lib` or `Exec` without dependencies. -/
def handsBackNothing (packs : List Package) (dep : Dependency) : Bool :=
  match lookup packs dep.Name dep.Version with
  | none => true
  | some (pack, details) =>
    if pack.Type_ = "Lib" ∨ pack.Type_ = "Exec" then details.Dependency.isEmpty else true

/-- A catalog for the three link types: `P` declares `d1` (a leaf library)
static, `d2` (an interface with a dependency of its own) dynamic and `d3`
(not in the catalog) without `LinkType`. -/
def threeDeps : List Package :=
  [ { Name := "P", Type_ := "Lib",
      Versions := [⟨"1", "git://p", "r1", none,
        [⟨"d1", "1", some "Static"⟩, ⟨"d2", "1", some "Dynamic"⟩, ⟨"d3", "1", none⟩]⟩] },
    { Name := "d1", Type_ := "Lib", Versions := [⟨"1", "git://d1", "r2", none, []⟩] },
    { Name := "d2", Type_ := "Interface",
      Versions := [⟨"1", "git://d2", "r3", none, [⟨"d1", "1", none⟩]⟩] } ]

/-- The disk after `UpdatePackage` has installed `info` on `disk`. -/
def installDisk (info : PackInfo) (disk : Disk) : Disk :=
  put (put (remove (put disk (info.path ++ [info.name ++ ".json"])
        (Dirent.file (manifestOf info.name info.version))) (info.path ++ [info.name]))
      (info.path ++ [info.name]) (Dirent.checkout info.details.URL info.details.Revision))
    (info.path ++ [info.name ++ ".mk"]) (Dirent.file (Content.text ""))

/-- `UpdatePackage` returns early: the force flag is off and the manifest at the
destination records the requested version. -/
def skips (info : PackInfo) (disk : Disk) : Prop :=
  info.fix.forceUpdate = false ∧ exist disk info.path (info.name ++ ".json") info.version = true

instance (info : PackInfo) (disk : Disk) : Decidable (skips info disk) := by
  unfold skips; infer_instance

/-- The catalog of the end-to-end example: `Foo 1.0` links `Bar 2.0` statically. -/
def fooBar : List Package :=
  [ { Name := "Foo", Type_ := "Lib",
      Versions := [⟨"1.0", "git://foo", "f00", none, [⟨"Bar", "2.0", some "Static"⟩]⟩] },
    { Name := "Bar", Type_ := "Lib",
      Versions := [⟨"2.0", "git://bar", "ba5", none, []⟩] } ]

/-- The empty install root with an empty log. -/
def emptyWorld : World := { disk := [], log := [] }

/-- A chain of libraries: `Foo 1.0` links `Bar 2.0` statically, which links
`Baz 3.0` dynamically. -/
def chain : List Package :=
  [ { Name := "Foo", Type_ := "Lib",
      Versions := [⟨"1.0", "git://foo", "f00", none, [⟨"Bar", "2.0", some "Static"⟩]⟩] },
    { Name := "Bar", Type_ := "Lib",
      Versions := [⟨"2.0", "git://bar", "ba5", none, [⟨"Baz", "3.0", some "Dynamic"⟩]⟩] },
    { Name := "Baz", Type_ := "Lib",
      Versions := [⟨"3.0", "git://baz", "ba2", none, []⟩] } ]

/-- The version record of `Foo 1.0`, in `fooBar` and in `chain`. -/
def detailsFoo : VersionRecord :=
  ⟨"1.0", "git://foo", "f00", none, [⟨"Bar", "2.0", some "Static"⟩]⟩

/-- The request `P/1` on `threeDeps`, force flag off, install root `./`. -/
def requestP : PackInfo :=
  { fix := fixOf threeDeps [] false, name := "P", version := "1" }

/-- The version record of `P 1` in `threeDeps`. -/
def detailsP : VersionRecord :=
  ⟨"1", "git://p", "r1", none,
    [⟨"d1", "1", some "Static"⟩, ⟨"d2", "1", some "Dynamic"⟩, ⟨"d3", "1", none⟩]⟩

/-- The world once the dependencies of `P 1` are resolved on the empty root. -/
def afterDepsP : World :=
  ((CheckDependency (AddPackage 2) (resolved requestP detailsP) {} emptyWorld).map
    Prod.snd).getD emptyWorld

/-- The request `Foo/1.0` on `chain`, force flag off, install root `./`. -/
def requestChain : PackInfo :=
  { fix := fixOf chain [] false, name := "Foo", version := "1.0" }

/-- The effects of `AddFramework` when it does not return early, in order. -/
def frameworkEvents (info : PackInfo) : List Event :=
  [ Event.delete (info.fix.root ++ ["EasyCpp"]),
    Event.manifest info.fix.root info.name info.version,
    Event.fetch [] "EasyCpp" info.details.URL info.details.Revision ]

/-- The `PackInfo` as `AddFramework` uses it. -/
def placedFramework (info : PackInfo) : PackInfo :=
  { info with path := info.fix.root }

/-- The disk after `AddFramework` has installed `info` on `disk`. -/
def frameworkDisk (info : PackInfo) (disk : Disk) : Disk :=
  put (put (remove disk (info.fix.root ++ ["EasyCpp"]))
      (info.fix.root ++ [info.name ++ ".json"])
      (Dirent.file (manifestOf info.name info.version)))
    ["EasyCpp"] (Dirent.checkout info.details.URL info.details.Revision)

/-- The request `Foo/1.0` on `fooBar`, force flag off, install root `./`. -/
def requestFoo : PackInfo :=
  { fix := fixOf fooBar [] false, name := "Foo", version := "1.0" }

/-- The text `Add` writes for `Bar 2.0` of `fooBar`. -/
def barText : String :=
  "export FLAGS += \\\n  -I $(PACKAGES)/Bar/Inc\n\n.PHONY: Bar\nBar:\n\t@$(MAKE) -f $(PACKAGES)/Bar/Makefile \\\n\t\tPKG_PATH=Packages/Bar \\\n\t\tPKG_NAME=Bar \\\n\t\tSLIBS=\"\" \\\n\t\tDLIBS=\"EasyCpp \" \\\n\t\tall\n"

/-- The text `Add` writes for `Foo 1.0` of `fooBar`. -/
def fooText : String :=
  "export FLAGS += \\\n  -I $(PACKAGES)/Foo/Inc\n\n.PHONY: Foo\nFoo: Bar\n\t@$(MAKE) -f $(PACKAGES)/Foo/Makefile \\\n\t\tPKG_PATH=Packages/Foo \\\n\t\tPKG_NAME=Foo \\\n\t\tSLIBS=\"Bar \" \\\n\t\tDLIBS=\"EasyCpp \" \\\n\t\tall\n"

/-- The effects of installing `Bar 2.0` of `fooBar` under `./Packages`. -/
def barEvents : List Event :=
  [ Event.manifest ["Packages"] "Bar" "2.0", Event.delete ["Packages", "Bar"],
    Event.fetch ["Packages"] "Bar" "git://bar" "ba5", Event.create ["Packages", "Bar.mk"],
    Event.write ["Packages", "Bar.mk"] barText ]

/-- The effects of installing `Foo 1.0` of `fooBar` under `./Packages`. -/
def fooEvents : List Event :=
  [ Event.manifest ["Packages"] "Foo" "1.0", Event.delete ["Packages", "Foo"],
    Event.fetch ["Packages"] "Foo" "git://foo" "f00", Event.create ["Packages", "Foo.mk"],
    Event.write ["Packages", "Foo.mk"] fooText ]

/-- The world once the dependencies of `Foo 1.0` are resolved on the empty root
with the catalog `fooBar`. -/
def afterDepsFoo : World :=
  ((CheckDependency (AddPackage 1) (resolved requestFoo detailsFoo) {} emptyWorld).map
    Prod.snd).getD emptyWorld

/-- The world after the request `Foo/1.0` is resolved on the empty root with the
catalog `fooBar`. -/
def afterFoo : World :=
  ((AddPackage 2 requestFoo {} emptyWorld).map Prod.snd).getD emptyWorld

/-- The folder the emitter selected by the type of `pack` installs into. -/
def destination (pack : Package) (info : PackInfo) : Path :=
  if pack.Type_ = "Interface" then info.fix.package ++ ["Interface"]
  else if pack.Type_ = "Framework" then info.fix.root
  else (platformPath info).1

/-- The fetch the emitter selected by the type of `pack` performs. -/
def fetchOf (pack : Package) (info : PackInfo) : Event :=
  if pack.Type_ = "Framework" then
    Event.fetch [] "EasyCpp" info.details.URL info.details.Revision
  else
    Event.fetch (destination pack info) info.name info.details.URL info.details.Revision

/-- A rank for `fooBar`: `Foo` above `Bar`. -/
def rankFooBar (name _version : String) : Nat :=
  if name = "Foo" then 1 else 0

/-- The package `info` with record `details` has just been installed by `Add` in
the folder `rel` below the install root, with `stem` as the stem of
`PKG_PATH`: the effects after `w1` are the manifest write, the deletion of
the payload, the fetch, the creation of the fragment and its write, all in
that folder; manifest, payload and fragment are on the disk there; the
fragment has the line `PKG_PATH=` followed by `stem` and the name; and this
`PKG_PATH` spells the path of the payload folder below the install root. -/
def installedUnder (info : PackInfo) (details : VersionRecord) (rel : Path) (stem : String)
    (dInfo : DepInfo) (isApp : Bool) (w1 w' : World) : Prop :=
  w'.log = w1.log ++
    [ Event.manifest (info.fix.root ++ rel) info.name info.version,
      Event.delete (info.fix.root ++ rel ++ [info.name]),
      Event.fetch (info.fix.root ++ rel) info.name details.URL details.Revision,
      Event.create (info.fix.root ++ rel ++ [info.name ++ ".mk"]),
      Event.write (info.fix.root ++ rel ++ [info.name ++ ".mk"])
        (AddText info.name stem dInfo isApp) ] ∧
  Find w'.disk (info.fix.root ++ rel ++ [info.name ++ ".json"]) =
    some (Dirent.file (manifestOf info.name info.version)) ∧
  Find w'.disk (info.fix.root ++ rel ++ [info.name]) =
    some (Dirent.checkout details.URL details.Revision) ∧
  Find w'.disk (info.fix.root ++ rel ++ [info.name ++ ".mk"]) =
    some (Dirent.file (Content.text (AddText info.name stem dInfo isApp))) ∧
  (∃ pre post, AddText info.name stem dInfo isApp =
    pre ++ ("\t\tPKG_PATH=" ++ (stem ++ info.name) ++ " \\\n" ++ post)) ∧
  String.intercalate "/" (rel ++ [info.name]) = stem ++ info.name

/-- A catalog with one executable for `Linux` and one library for another platform. -/
def platforms : List Package :=
  [ { Name := "Tool", Type_ := "Exec",
      Versions := [⟨"1", "git://tool", "t1", some "Linux", []⟩] },
    { Name := "Gui", Type_ := "Lib",
      Versions := [⟨"1", "git://gui", "g1", some "Windows", []⟩] } ]

/-- The request `Tool/1` on `platforms`, install root `./work`. -/
def requestTool : PackInfo :=
  { fix := fixOf platforms ["work"] false, name := "Tool", version := "1" }

/-- The version record of `Tool 1` in `platforms`. -/
def detailsTool : VersionRecord :=
  ⟨"1", "git://tool", "t1", some "Linux", []⟩

/-- The text `Add` writes for `Tool 1` of `platforms`. -/
def toolText : String :=
  "export FLAGS += \\\n  -I $(PACKAGES)/Tool/Inc\n\n.PHONY: Tool\nTool:\n\t@$(MAKE) -f $(PACKAGES)/Tool/Makefile \\\n\t\tPKG_PATH=Packages/Platform/Linux/Tool \\\n\t\tPKG_NAME=Tool \\\n\t\tSLIBS=\"\" \\\n\t\tDLIBS=\"EasyCpp \" \\\n\t\tI_AM_APP=y \\\n\t\tall\n"

/-- The text `Add` writes for `Gui 1` of `platforms`. -/
def guiText : String :=
  "export FLAGS += \\\n  -I $(PACKAGES)/Gui/Inc\n\n.PHONY: Gui\nGui:\n\t@$(MAKE) -f $(PACKAGES)/Gui/Makefile \\\n\t\tPKG_PATH=Packages/Gui \\\n\t\tPKG_NAME=Gui \\\n\t\tSLIBS=\"\" \\\n\t\tDLIBS=\"EasyCpp \" \\\n\t\tall\n"

/-- A catalog whose framework entry declares a dependency on a library. -/
def withFramework : List Package :=
  [ { Name := "EasyCpp", Type_ := "Framework",
      Versions := [⟨"1.0", "git://easycpp", "e1", none, [⟨"Bar", "2.0", some "Static"⟩]⟩] },
    { Name := "Bar", Type_ := "Lib",
      Versions := [⟨"2.0", "git://bar", "ba5", none, []⟩] } ]

/-- The version record of `EasyCpp 1.0` in `withFramework`. -/
def detailsEasyCpp : VersionRecord :=
  ⟨"1.0", "git://easycpp", "e1", none, [⟨"Bar", "2.0", some "Static"⟩]⟩

/-- The request `EasyCpp/1.0` on `withFramework`, install root `./`. -/
def requestEasyCpp : PackInfo :=
  { fix := fixOf withFramework [] false, name := "EasyCpp", version := "1.0" }

/-- How often the log fetches into a payload folder called `name`. -/
def fetchCount (name : String) (log : List Event) : Nat :=
  (log.filter (fun e =>
    match e with
    | Event.fetch _ folder _ _ => decide (folder = name)
    | _ => false)).length

/-- How often the log writes the text of the file `file`. -/
def writeCount (file : Path) (log : List Event) : Nat :=
  (log.filter (fun e =>
    match e with
    | Event.write f _ => decide (f = file)
    | _ => false)).length

/-- The diamond: `A` depends on `B` and `C`, which both depend on `D 1`. -/
def diamond : List Package :=
  [ { Name := "A", Type_ := "Exec",
      Versions := [⟨"1", "git://a", "a1", none,
        [⟨"B", "1", some "Static"⟩, ⟨"C", "1", some "Static"⟩]⟩] },
    { Name := "B", Type_ := "Lib",
      Versions := [⟨"1", "git://b", "b1", none, [⟨"D", "1", some "Static"⟩]⟩] },
    { Name := "C", Type_ := "Lib",
      Versions := [⟨"1", "git://c", "c1", none, [⟨"D", "1", some "Static"⟩]⟩] },
    { Name := "D", Type_ := "Lib",
      Versions := [⟨"1", "git://d", "d1", none, []⟩] } ]

/-- The request `A/1` on `diamond`, install root `./`. -/
def requestA (force : Bool) : PackInfo :=
  { fix := fixOf diamond [] force, name := "A", version := "1" }

/-- The request `D/1` on `diamond`, install root `./`, force flag off. -/
def requestD : PackInfo :=
  { fix := fixOf diamond [] false, name := "D", version := "1" }

/-- The version record of `D 1` in `diamond`. -/
def detailsD : VersionRecord :=
  ⟨"1", "git://d", "d1", none, []⟩

/-- The world in which `D 1` is reached for the second time when `A/1` is
resolved on the empty root with the force flag off: `B` is resolved, with
its dependency `D`, and `C` has just been entered. -/
def secondVisitD : World :=
  ((AddPackage 2 { fix := fixOf diamond [] false, name := "B", version := "1" } {}
    emptyWorld).map Prod.snd).getD emptyWorld

/-- The text the emitter selected by the type of `pack` writes to the `.mk` file
for the lists `dInfo`. -/
def fragmentText (pack : Package) (info : PackInfo) (dInfo : DepInfo) : String :=
  if pack.Type_ = "Interface" then InterfaceText info.name dInfo
  else AddText info.name (platformPath info).2 dInfo (decide (pack.Type_ = "Exec"))

/-- A disk that holds the manifests of `Foo 1.0` and `Bar 2.0` under `./Packages`
and nothing else: no payload and no fragment. -/
def manifestsOnly : World :=
  { disk := [ (["Packages", "Foo.json"], Dirent.file (manifestOf "Foo" "1.0")),
              (["Packages", "Bar.json"], Dirent.file (manifestOf "Bar" "2.0")) ]
    log := [] }

/-- The request `EasyCpp/1.0` on `withFramework` with the install root `./work`,
as `-p work` makes it. -/
def requestEasyCppWork : PackInfo :=
  { fix := fixOf withFramework ["work"] false, name := "EasyCpp", version := "1.0" }

/-- A disk with an earlier framework install under `./work` and an unrelated
folder `EasyCpp` in the working directory. -/
def oldFramework : World :=
  { disk := [ (["work", "EasyCpp"], Dirent.checkout "git://easycpp" "e0"),
              (["EasyCpp"], Dirent.folder) ]
    log := [] }

/-- A catalog with an interface for `Linux` that declares a static dependency. -/
def interfaces : List Package :=
  [ { Name := "Api", Type_ := "Interface",
      Versions := [⟨"1", "git://api", "a1", some "Linux", [⟨"d1", "1", some "Static"⟩]⟩] },
    { Name := "d1", Type_ := "Lib", Versions := [⟨"1", "git://d1", "r2", none, []⟩] } ]

/-- The version record of `Api 1` in `interfaces`. -/
def detailsApi : VersionRecord :=
  ⟨"1", "git://api", "a1", some "Linux", [⟨"d1", "1", some "Static"⟩]⟩

/-- The request `Api/1` on `interfaces`, install root `./`. -/
def requestApi : PackInfo :=
  { fix := fixOf interfaces [] false, name := "Api", version := "1" }

/-- The world once the dependencies of `Api 1` are resolved on the empty root. -/
def afterDepsApi : World :=
  ((CheckDependency (AddPackage 1) (resolved requestApi detailsApi) {} emptyWorld).map
    Prod.snd).getD emptyWorld

/-- The dependency relation on (name, version) pairs that the recursion follows:
`a` resolves to an entry whose emitter walks the `Dependency` array (type
`Interface`, `Lib` or `Exec`), and `b` is declared there. An unmatched pair
and a `Framework` entry have no successor. -/
def dependsOn (packs : List Package) (a b : String × String) : Prop :=
  ∃ pack details, lookup packs a.1 a.2 = some (pack, details) ∧ recurses pack ∧
    ∃ dep ∈ details.Dependency, (dep.Name, dep.Version) = b

/-- The dependency declarations form an acyclic graph: no pair reaches itself
along one or more declarations. -/
def Acyclic (packs : List Package) : Prop :=
  ∀ a, ¬ Relation.TransGen (dependsOn packs) a a

/-- In the words of the specification: what one declaration contributes under
its own name. The name is always in the direct list, and in the Static or
the Dynamic list according to its `LinkType`. -/
def specNameLists (dep : Dependency) : DepInfo :=
  { depList := [dep.Name]
    sLibList := if dep.LinkType = some "Static" then [dep.Name] else []
    dLibList := if dep.LinkType = some "Dynamic" then [dep.Name] else [] }

/-- In the words of the specification: the concatenation, over the declared
dependencies in declaration order, of the lists collected by that
dependency's own resolution followed by the dependency's name. -/
def specConcat (lists : String → String → DepInfo) : List Dependency → DepInfo
  | [] => {}
  | dep :: rest =>
    ((lists dep.Name dep.Version).append (specNameLists dep)).append (specConcat lists rest)

/-- In the words of the specification: the lists the resolution of
`name`/`version` hands to its caller, to a depth of `fuel` declarations.
They are empty when the request does not resolve or resolves to an entry that
is not a library or an executable (an interface or the framework), and the
concatenation over the declared dependencies otherwise. -/
def specCollected (packs : List Package) : Nat → String → String → DepInfo
  | 0, _, _ => {}
  | fuel + 1, name, version =>
    match lookup packs name version with
    | none => {}
    | some (pack, details) =>
      if pack.Type_ = "Lib" ∨ pack.Type_ = "Exec" then
        specConcat (specCollected packs fuel) details.Dependency
      else {}

/-- The declaration `dep` is a transitive dependency of `name`/`version` through
resolved libraries and executables: it is declared by the record of
`name`/`version`, or by the record of a declaration reached in this way,
every record on the way being that of a `Lib` or `Exec` entry. -/
inductive LibPath (packs : List Package) : String → String → Dependency → Prop where
  | direct (name version : String) (pack : Package) (details : VersionRecord) (dep : Dependency) :
      lookup packs name version = some (pack, details) →
      (pack.Type_ = "Lib" ∨ pack.Type_ = "Exec") →
      dep ∈ details.Dependency → LibPath packs name version dep
  | step (name version : String) (pack : Package) (details : VersionRecord)
      (mid dep : Dependency) :
      lookup packs name version = some (pack, details) →
      (pack.Type_ = "Lib" ∨ pack.Type_ = "Exec") →
      mid ∈ details.Dependency → LibPath packs mid.Name mid.Version dep →
      LibPath packs name version dep

/-- A rank for `chain`: `Foo` above `Bar` above `Baz`. -/
def rankChain (name _version : String) : Nat :=
  if name = "Foo" then 2 else if name = "Bar" then 1 else 0

/-- The static and the dynamic list are subsequences of the direct list. -/
def DepInfo.linksInOrder (d : DepInfo) : Prop :=
  d.sLibList.Sublist d.depList ∧ d.dLibList.Sublist d.depList

/-- The version record of `A 1` in `diamond`. -/
def detailsA : VersionRecord :=
  ⟨"1", "git://a", "a1", none, [⟨"B", "1", some "Static"⟩, ⟨"C", "1", some "Static"⟩]⟩

/-- A catalog that declares the same dependency twice. -/
def twice : List Package :=
  [ { Name := "X", Type_ := "Lib",
      Versions := [⟨"1", "git://x", "x1", none,
        [⟨"Y", "1", some "Static"⟩, ⟨"Y", "1", some "Static"⟩]⟩] },
    { Name := "Y", Type_ := "Lib", Versions := [⟨"1", "git://y", "y1", none, []⟩] } ]

/-- The version record of `X 1` in `twice`. -/
def detailsX : VersionRecord :=
  ⟨"1", "git://x", "x1", none, [⟨"Y", "1", some "Static"⟩, ⟨"Y", "1", some "Static"⟩]⟩

/-- The request `X/1` on `twice`, install root `./`. -/
def requestX : PackInfo :=
  { fix := fixOf twice [] false, name := "X", version := "1" }

/-- The world once the dependencies of `A 1` are resolved on the empty root with
the catalog `diamond`, force flag off. -/
def afterDepsA : World :=
  ((CheckDependency (AddPackage 2) (resolved (requestA false) detailsA) {} emptyWorld).map
    Prod.snd).getD emptyWorld

/-- The request `Bar/2.0` on `fooBar`, force flag off, install root `./`. -/
def requestBar : PackInfo :=
  { fix := fixOf fooBar [] false, name := "Bar", version := "2.0" }

/-- The version record of `Bar 2.0` in `fooBar`. -/
def detailsBar : VersionRecord :=
  ⟨"2.0", "git://bar", "ba5", none, []⟩

/-- A disk on which the manifest of `Bar` records the version `1.9`. -/
def staleBar : World :=
  { disk := [ (["Packages", "Bar.json"], Dirent.file (manifestOf "Bar" "1.9")) ]
    log := [] }

/-- A catalog whose executable declares two dependencies that are not in it. -/
def ghosts : List Package :=
  [ { Name := "App", Type_ := "Exec",
      Versions := [⟨"1", "git://app", "p1", none,
        [⟨"Ghost", "1", some "Static"⟩, ⟨"Phantom", "2", some "Dynamic"⟩]⟩] } ]

/-- The version record of `App 1` in `ghosts`. -/
def detailsApp : VersionRecord :=
  ⟨"1", "git://app", "p1", none,
    [⟨"Ghost", "1", some "Static"⟩, ⟨"Phantom", "2", some "Dynamic"⟩]⟩

/-- The request `App/1` on `ghosts`, install root `./`. -/
def requestApp : PackInfo :=
  { fix := fixOf ghosts [] false, name := "App", version := "1" }

/-- The text `Add` writes for `App 1` of `ghosts`. -/
def appText : String :=
  "export FLAGS += \\\n  -I $(PACKAGES)/App/Inc\n\n.PHONY: App\nApp: Ghost Phantom\n\t@$(MAKE) -f $(PACKAGES)/App/Makefile \\\n\t\tPKG_PATH=Packages/App \\\n\t\tPKG_NAME=App \\\n\t\tSLIBS=\"Ghost \" \\\n\t\tDLIBS=\"EasyCpp Phantom \" \\\n\t\tI_AM_APP=y \\\n\t\tall\n"

/-- The include-path export at the head of the text of `Add`. -/
def includeExport (name : String) : String :=
  "export FLAGS += \\\n" ++ "  -I $(PACKAGES)/" ++ name ++ "/Inc\n\n"

/-- The `.PHONY` line and the target line of the text of `Add`. -/
def targetLines (name : String) (dInfo : DepInfo) : String :=
  ".PHONY: " ++ name ++ EOS ++ name ++ ":"
    ++ String.join (dInfo.depList.map (fun dep => " " ++ dep)) ++ EOS

/-- The first line of the recipe of the text of `Add`: the sub-build makefile. -/
def makeLine (name : String) : String :=
  "\t@$(MAKE) -f $(PACKAGES)/" ++ name ++ "/Makefile \\\n"

/-- The text of `Add` after the value of `PKG_PATH`. -/
def recipeTail (name : String) (dInfo : DepInfo) (isApp : Bool) : String :=
  " \\\n" ++ "\t\tPKG_NAME=" ++ name ++ " \\\n" ++ "\t\tSLIBS=\""
    ++ String.join (dInfo.sLibList.map (fun slib => slib ++ " "))
    ++ "\" \\\n" ++ "\t\tDLIBS=\"EasyCpp "
    ++ String.join (dInfo.dLibList.map (fun dlib => dlib ++ " "))
    ++ "\" \\\n" ++ (if isApp then "\t\tI_AM_APP=y \\\n" else "") ++ "\t\tall\n"

/-- A disk on which the manifest of `Bar` is a file that is not a JSON object. -/
def garbledBar : World :=
  { disk := [ (["Packages", "Bar.json"], Dirent.file (Content.text "Version 2.0")) ]
    log := [] }

/-- A disk on which `Packages/Bar.json` is a folder that holds one file. -/
def folderBar : World :=
  { disk := [ (["Packages", "Bar.json"], Dirent.folder),
              (["Packages", "Bar.json", "inner"], Dirent.file (Content.text "")) ]
    log := [] }

/-! ## Basic facts about the embedding -/

theorem AddPackage_succ (fuel : Nat) (info : PackInfo) (dep : DepInfo) (w : World) :
    AddPackage (fuel + 1) info dep w =
      match lookup info.fix.packs info.name info.version with
      | none => some (dep, w)
      | some (pack, details) =>
        if pack.Type_ = "Interface" then
          AddInterface (AddPackage fuel) (resolved info details) dep w
        else if pack.Type_ = "Lib" then
          Add (AddPackage fuel) (resolved info details) false dep w
        else if pack.Type_ = "Exec" then
          Add (AddPackage fuel) (resolved info details) true dep w
        else if pack.Type_ = "Framework" then
          some (dep, AddFramework (resolved info details) w)
        else some (dep, w) := by
  rfl

theorem lookup_none_of_no_name (packs : List Package) (name version : String)
    (h : ∀ pack ∈ packs, pack.Name ≠ name) : lookup packs name version = none := by
  have hfind : packs.find? (fun pack => decide (name = pack.Name)) = none := by
    rw [List.find?_eq_none]
    intro pack hpack
    have := h pack hpack
    simpa using fun hEq => this hEq.symm
  simp [lookup, hfind]

theorem lookup_none_of_no_version (packs : List Package) (name version : String) (pack : Package)
    (hfind : packs.find? (fun pack => decide (name = pack.Name)) = some pack)
    (h : ∀ details ∈ pack.Versions, details.Version ≠ version) :
    lookup packs name version = none := by
  have hver : pack.Versions.find? (fun details => decide (version = details.Version)) = none := by
    rw [List.find?_eq_none]
    intro details hdetails
    have := h details hdetails
    simpa using fun hEq => this hEq.symm
  simp [lookup, hfind, hver]

theorem DepInfo.append_empty (a : DepInfo) : a.append {} = a := by
  cases a; simp [DepInfo.append]

theorem DepInfo.empty_append (a : DepInfo) : DepInfo.append {} a = a := by
  cases a; simp [DepInfo.append]

theorem UpdatePackage_skip (info : PackInfo) (w : World)
    (hforce : info.fix.forceUpdate = false)
    (hexist : exist w.disk info.path (info.name ++ ".json") info.version = true) :
    UpdatePackage info w = (none, w) := by
  simp [UpdatePackage, hforce, hexist]

theorem UpdatePackage_install (info : PackInfo) (w : World)
    (h : info.fix.forceUpdate = true ∨
      exist w.disk info.path (info.name ++ ".json") info.version = false) :
    UpdatePackage info w =
      (some (info.path ++ [info.name ++ ".mk"]),
        { disk :=
            put (put (remove (put w.disk (info.path ++ [info.name ++ ".json"])
                  (Dirent.file (manifestOf info.name info.version))) (info.path ++ [info.name]))
                (info.path ++ [info.name]) (Dirent.checkout info.details.URL info.details.Revision))
              (info.path ++ [info.name ++ ".mk"]) (Dirent.file (Content.text ""))
          log := w.log ++ installEvents info }) := by
  have hcond : ¬ (info.fix.forceUpdate = false ∧
      exist w.disk info.path (info.name ++ ".json") info.version = true) := by
    rintro ⟨h1, h2⟩
    rcases h with h | h
    · rw [h1] at h; exact Bool.noConfusion h
    · rw [h2] at h; exact Bool.noConfusion h
  simp [UpdatePackage, hcond, FetchCodes, installEvents]

/-- `Add` once its dependencies are resolved. -/
theorem Add_of_deps (rec : PackInfo → DepInfo → World → Outcome) (info : PackInfo)
    (isApp : Bool) (dep : DepInfo) (w : World) (dInfo : DepInfo) (w1 : World)
    (hdeps : CheckDependency rec info {} w = some (dInfo, w1)) :
    Add rec info isApp dep w =
      some (dep.append dInfo,
        writeAll
          (UpdatePackage { info with path := (platformPath info).1 }
            { w1 with disk := platformFolders info w1.disk }).1
          (AddText info.name (platformPath info).2 dInfo isApp)
          (UpdatePackage { info with path := (platformPath info).1 }
            { w1 with disk := platformFolders info w1.disk }).2) := by
  simp [Add, hdeps, DepInfo.append]

/-- `AddInterface` once its dependencies are resolved. -/
theorem AddInterface_of_deps (rec : PackInfo → DepInfo → World → Outcome) (info : PackInfo)
    (dep : DepInfo) (w : World) (dInfo : DepInfo) (w1 : World)
    (hdeps : CheckDependency rec info {} w = some (dInfo, w1)) :
    AddInterface rec info dep w =
      some (dep,
        writeAll
          (UpdatePackage { info with path := info.fix.package ++ ["Interface"] }
            { w1 with disk := mkFolder w1.disk (info.fix.package ++ ["Interface"]) }).1
          (InterfaceText info.name dInfo)
          (UpdatePackage { info with path := info.fix.package ++ ["Interface"] }
            { w1 with disk := mkFolder w1.disk (info.fix.package ++ ["Interface"]) }).2) := by
  simp [AddInterface, hdeps]

theorem Add_none_of_deps (rec : PackInfo → DepInfo → World → Outcome) (info : PackInfo)
    (isApp : Bool) (dep : DepInfo) (w : World)
    (hdeps : CheckDependency rec info {} w = none) : Add rec info isApp dep w = none := by
  simp [Add, hdeps]

theorem AddInterface_none_of_deps (rec : PackInfo → DepInfo → World → Outcome) (info : PackInfo)
    (dep : DepInfo) (w : World)
    (hdeps : CheckDependency rec info {} w = none) : AddInterface rec info dep w = none := by
  simp [AddInterface, hdeps]

/-- The loop of `CheckDependency` follows `collectLoop` when the recursive call
follows `c`. -/
theorem CheckDependencyLoop_collect (packs : List Package)
    (rec : PackInfo → DepInfo → World → Outcome) (c : String → String → Option DepInfo)
    (hrec : ∀ info dep w, info.fix.packs = packs →
      (c info.name info.version = none → rec info dep w = none) ∧
      (∀ d, c info.name info.version = some d → ∃ w', rec info dep w = some (dep.append d, w')))
    (fix : PackFixInfo) (hfix : fix.packs = packs) :
    ∀ deps dInfo w,
      (collectLoop c deps dInfo = none → CheckDependencyLoop rec fix deps dInfo w = none) ∧
      (∀ r, collectLoop c deps dInfo = some r →
        ∃ w', CheckDependencyLoop rec fix deps dInfo w = some (r, w')) := by
  intro deps
  induction deps with
  | nil =>
    intro dInfo w
    constructor
    · intro h; simp [collectLoop] at h
    · intro r h
      simp only [collectLoop, Option.some.injEq] at h
      exact ⟨w, by simp [CheckDependencyLoop, h]⟩
  | cons dep rest ih =>
    intro dInfo w
    have hstep := hrec { fix := fix, name := dep.Name, version := dep.Version } dInfo w hfix
    cases hc : c dep.Name dep.Version with
    | none =>
      have hnone := hstep.1 hc
      constructor
      · intro _; simp [CheckDependencyLoop, hnone]
      · intro r h; simp [collectLoop, hc] at h
    | some d =>
      obtain ⟨w1, hw1⟩ := hstep.2 d hc
      have hih := ih (classify dep (dInfo.append d)) w1
      constructor
      · intro h
        simp only [collectLoop, hc] at h
        simp [CheckDependencyLoop, hw1, hih.1 h]
      · intro r h
        simp only [collectLoop, hc] at h
        obtain ⟨w2, hw2⟩ := hih.2 r h
        exact ⟨w2, by simp [CheckDependencyLoop, hw1, hw2]⟩

theorem AddPackage_interface (fuel : Nat) (info : PackInfo) (dep : DepInfo) (w : World)
    (pack : Package) (details : VersionRecord)
    (hl : lookup info.fix.packs info.name info.version = some (pack, details))
    (ht : pack.Type_ = "Interface") :
    AddPackage (fuel + 1) info dep w =
      AddInterface (AddPackage fuel) (resolved info details) dep w := by
  rw [AddPackage_succ, hl]; simp [ht]

theorem AddPackage_lib (fuel : Nat) (info : PackInfo) (dep : DepInfo) (w : World)
    (pack : Package) (details : VersionRecord)
    (hl : lookup info.fix.packs info.name info.version = some (pack, details))
    (ht : pack.Type_ = "Lib") :
    AddPackage (fuel + 1) info dep w =
      Add (AddPackage fuel) (resolved info details) false dep w := by
  rw [AddPackage_succ, hl]; simp [ht]

theorem AddPackage_exec (fuel : Nat) (info : PackInfo) (dep : DepInfo) (w : World)
    (pack : Package) (details : VersionRecord)
    (hl : lookup info.fix.packs info.name info.version = some (pack, details))
    (ht : pack.Type_ = "Exec") :
    AddPackage (fuel + 1) info dep w =
      Add (AddPackage fuel) (resolved info details) true dep w := by
  rw [AddPackage_succ, hl]; simp [ht]

theorem AddPackage_framework (fuel : Nat) (info : PackInfo) (dep : DepInfo) (w : World)
    (pack : Package) (details : VersionRecord)
    (hl : lookup info.fix.packs info.name info.version = some (pack, details))
    (ht : pack.Type_ = "Framework") :
    AddPackage (fuel + 1) info dep w =
      some (dep, AddFramework (resolved info details) w) := by
  rw [AddPackage_succ, hl]; simp [ht]

/-- `Add` is entered with `isApp` set exactly for the type `Exec`. -/
theorem AddPackage_add (fuel : Nat) (info : PackInfo) (dep : DepInfo) (w : World)
    (pack : Package) (details : VersionRecord)
    (hl : lookup info.fix.packs info.name info.version = some (pack, details))
    (ht : pack.Type_ = "Lib" ∨ pack.Type_ = "Exec") :
    AddPackage (fuel + 1) info dep w =
      Add (AddPackage fuel) (resolved info details)
        (decide (pack.Type_ = "Exec")) dep w := by
  rcases ht with ht | ht
  · rw [AddPackage_lib fuel info dep w pack details hl ht]; simp [ht]
  · rw [AddPackage_exec fuel info dep w pack details hl ht]; simp [ht]

theorem AddPackage_no_emitter (fuel : Nat) (info : PackInfo) (dep : DepInfo) (w : World)
    (pack : Package) (details : VersionRecord)
    (hl : lookup info.fix.packs info.name info.version = some (pack, details))
    (hr : ¬ recurses pack) :
    ∃ w', AddPackage (fuel + 1) info dep w = some (dep, w') := by
  have hI : pack.Type_ ≠ "Interface" := fun h => hr (Or.inl h)
  have hL : pack.Type_ ≠ "Lib" := fun h => hr (Or.inr (Or.inl h))
  have hE : pack.Type_ ≠ "Exec" := fun h => hr (Or.inr (Or.inr h))
  rw [AddPackage_succ, hl]
  by_cases hF : pack.Type_ = "Framework"
  · refine ⟨AddFramework (resolved info details) w, ?_⟩
    simp [hF]
  · refine ⟨w, ?_⟩
    simp [hI, hL, hE, hF]

theorem collect_interface (packs : List Package) (fuel : Nat) (name version : String)
    (pack : Package) (details : VersionRecord)
    (hl : lookup packs name version = some (pack, details)) (ht : pack.Type_ = "Interface") :
    collect packs (fuel + 1) name version =
      (collectLoop (collect packs fuel) details.Dependency {}).map (fun _ => {}) := by
  simp [collect, hl, ht]

theorem collect_add (packs : List Package) (fuel : Nat) (name version : String)
    (pack : Package) (details : VersionRecord)
    (hl : lookup packs name version = some (pack, details))
    (ht : pack.Type_ = "Lib" ∨ pack.Type_ = "Exec") :
    collect packs (fuel + 1) name version =
      collectLoop (collect packs fuel) details.Dependency {} := by
  rcases ht with ht | ht <;> simp [collect, hl, ht]

theorem collect_no_emitter (packs : List Package) (fuel : Nat) (name version : String)
    (pack : Package) (details : VersionRecord)
    (hl : lookup packs name version = some (pack, details)) (hr : ¬ recurses pack) :
    collect packs (fuel + 1) name version = some {} := by
  have hI : pack.Type_ ≠ "Interface" := fun h => hr (Or.inl h)
  have hL : pack.Type_ ≠ "Lib" := fun h => hr (Or.inr (Or.inl h))
  have hE : pack.Type_ ≠ "Exec" := fun h => hr (Or.inr (Or.inr h))
  simp [collect, hl, hI, hL, hE]

theorem collect_miss (packs : List Package) (fuel : Nat) (name version : String)
    (hl : lookup packs name version = none) :
    collect packs (fuel + 1) name version = some {} := by
  simp [collect, hl]

/-- The `DepInfo` that `AddPackage` hands back is the caller's followed by
`collect`, whatever the world and the force flag; and `AddPackage` runs out of
fuel exactly when `collect` does. -/
theorem AddPackage_collect (packs : List Package) :
    ∀ fuel info dep w, info.fix.packs = packs →
      (collect packs fuel info.name info.version = none → AddPackage fuel info dep w = none) ∧
      (∀ d, collect packs fuel info.name info.version = some d →
        ∃ w', AddPackage fuel info dep w = some (dep.append d, w')) := by
  intro fuel
  induction fuel with
  | zero =>
    intro info dep w _
    constructor
    · intro _; rfl
    · intro d h; simp [collect] at h
  | succ fuel ih =>
    intro info dep w hpacks
    cases hl : lookup packs info.name info.version with
    | none =>
      have hl2 : lookup info.fix.packs info.name info.version = none := by rw [hpacks]; exact hl
      rw [collect_miss packs fuel _ _ hl, AddPackage_succ, hl2]
      constructor
      · intro h; simp at h
      · intro d h
        simp only [Option.some.injEq] at h
        exact ⟨w, by rw [← h, DepInfo.append_empty]⟩
    | some found =>
      obtain ⟨pack, details⟩ := found
      have hl2 : lookup info.fix.packs info.name info.version = some (pack, details) := by
        rw [hpacks]; exact hl
      have hloop :=
        CheckDependencyLoop_collect packs (AddPackage fuel) (collect packs fuel) ih
          info.fix hpacks details.Dependency {} w
      by_cases hI : pack.Type_ = "Interface"
      · rw [collect_interface packs fuel _ _ pack details hl hI,
          AddPackage_interface fuel info dep w pack details hl2 hI]
        cases hc : collectLoop (collect packs fuel) details.Dependency {} with
        | none =>
          constructor
          · intro _; exact AddInterface_none_of_deps _ _ _ _ (hloop.1 hc)
          · intro d h; simp at h
        | some r =>
          obtain ⟨w1, hw1⟩ := hloop.2 r hc
          have hdeps : CheckDependency (AddPackage fuel)
              (resolved info details) {} w = some (r, w1) := hw1
          constructor
          · intro h; simp at h
          · intro d h
            simp only [Option.map_some', Option.some.injEq] at h
            rw [AddInterface_of_deps _ _ _ _ _ _ hdeps, ← h, DepInfo.append_empty]
            exact ⟨_, rfl⟩
      · by_cases hA : pack.Type_ = "Lib" ∨ pack.Type_ = "Exec"
        · rw [collect_add packs fuel _ _ pack details hl hA,
            AddPackage_add fuel info dep w pack details hl2 hA]
          cases hc : collectLoop (collect packs fuel) details.Dependency {} with
          | none =>
            constructor
            · intro _; exact Add_none_of_deps _ _ _ _ _ (hloop.1 hc)
            · intro d h; simp at h
          | some r =>
            obtain ⟨w1, hw1⟩ := hloop.2 r hc
            have hdeps : CheckDependency (AddPackage fuel)
                (resolved info details) {} w = some (r, w1) := hw1
            constructor
            · intro h; simp at h
            · intro d h
              simp only [Option.some.injEq] at h
              rw [Add_of_deps _ _ _ _ _ _ _ hdeps, ← h]
              exact ⟨_, rfl⟩
        · have hr : ¬ recurses pack := by
            rintro (h | h | h)
            · exact hI h
            · exact hA (Or.inl h)
            · exact hA (Or.inr h)
          rw [collect_no_emitter packs fuel _ _ pack details hl hr]
          obtain ⟨w1, hw1⟩ := AddPackage_no_emitter fuel info dep w pack details hl2 hr
          constructor
          · intro h; simp at h
          · intro d h
            simp only [Option.some.injEq] at h
            exact ⟨w1, by rw [← h, DepInfo.append_empty]; exact hw1⟩

theorem collectLoop_mono (c1 c2 : String → String → Option DepInfo)
    (h : ∀ name version d, c1 name version = some d → c2 name version = some d) :
    ∀ deps dInfo r, collectLoop c1 deps dInfo = some r → collectLoop c2 deps dInfo = some r := by
  intro deps
  induction deps with
  | nil => intro dInfo r hr; simpa [collectLoop] using hr
  | cons dep rest ih =>
    intro dInfo r hr
    cases hc : c1 dep.Name dep.Version with
    | none => simp [collectLoop, hc] at hr
    | some d =>
      simp only [collectLoop, hc] at hr
      simp only [collectLoop, h _ _ _ hc]
      exact ih _ _ hr

/-- More fuel does not change what `collect` returns. -/
theorem collect_succ (packs : List Package) :
    ∀ fuel name version d, collect packs fuel name version = some d →
      collect packs (fuel + 1) name version = some d := by
  intro fuel
  induction fuel with
  | zero => intro name version d h; simp [collect] at h
  | succ fuel ih =>
    intro name version d h
    cases hl : lookup packs name version with
    | none =>
      rw [collect_miss packs fuel _ _ hl] at h
      rw [collect_miss packs (fuel + 1) _ _ hl]; exact h
    | some found =>
      obtain ⟨pack, details⟩ := found
      by_cases hI : pack.Type_ = "Interface"
      · rw [collect_interface packs fuel _ _ pack details hl hI] at h
        rw [collect_interface packs (fuel + 1) _ _ pack details hl hI]
        cases hc : collectLoop (collect packs fuel) details.Dependency {} with
        | none => simp [hc] at h
        | some r =>
          rw [collectLoop_mono _ _ ih _ _ _ hc]
          simpa [hc] using h
      · by_cases hA : pack.Type_ = "Lib" ∨ pack.Type_ = "Exec"
        · rw [collect_add packs fuel _ _ pack details hl hA] at h
          rw [collect_add packs (fuel + 1) _ _ pack details hl hA]
          exact collectLoop_mono _ _ ih _ _ _ h
        · have hr : ¬ recurses pack := by
            rintro (h | h | h)
            · exact hI h
            · exact hA (Or.inl h)
            · exact hA (Or.inr h)
          rw [collect_no_emitter packs fuel _ _ pack details hl hr] at h
          rw [collect_no_emitter packs (fuel + 1) _ _ pack details hl hr]; exact h

theorem collect_le (packs : List Package) (m n : Nat) (hmn : m ≤ n) (name version : String)
    (d : DepInfo) (h : collect packs m name version = some d) :
    collect packs n name version = some d := by
  induction hmn with
  | refl => exact h
  | step _ ih => exact collect_succ packs _ _ _ _ ih

/-- Two fuels on which `collect` returns give the same lists. -/
theorem collect_unique (packs : List Package) (m n : Nat) (name version : String)
    (d1 d2 : DepInfo) (h1 : collect packs m name version = some d1)
    (h2 : collect packs n name version = some d2) : d1 = d2 := by
  have e1 := collect_le packs m (max m n) (le_max_left m n) name version d1 h1
  have e2 := collect_le packs n (max m n) (le_max_right m n) name version d2 h2
  rw [e1] at e2
  exact Option.some.inj e2

theorem collectLoop_total (c : String → String → Option DepInfo) :
    ∀ deps, (∀ dep ∈ deps, ∃ d, c dep.Name dep.Version = some d) →
      ∀ dInfo, ∃ r, collectLoop c deps dInfo = some r := by
  intro deps
  induction deps with
  | nil => intro _ dInfo; exact ⟨dInfo, rfl⟩
  | cons dep rest ih =>
    intro h dInfo
    obtain ⟨d, hd⟩ := h dep (List.mem_cons_self _ _)
    obtain ⟨r, hr⟩ := ih (fun x hx => h x (List.mem_cons_of_mem _ hx)) (classify dep (dInfo.append d))
    exact ⟨r, by simp [collectLoop, hd, hr]⟩

/-- On an acyclic catalog `collect` returns as soon as the fuel exceeds the
rank of the request. -/
theorem collect_total (packs : List Package) (rank : String → String → Nat)
    (hrank : RankedBy packs rank) :
    ∀ fuel name version, rank name version < fuel → ∃ d, collect packs fuel name version = some d := by
  intro fuel
  induction fuel with
  | zero => intro name version h; exact absurd h (Nat.not_lt_zero _)
  | succ fuel ih =>
    intro name version hlt
    cases hl : lookup packs name version with
    | none => exact ⟨{}, collect_miss packs fuel _ _ hl⟩
    | some found =>
      obtain ⟨pack, details⟩ := found
      by_cases hr : recurses pack
      · have hdeps : ∀ dep ∈ details.Dependency,
            ∃ d, collect packs fuel dep.Name dep.Version = some d := by
          intro dep hdep
          have := hrank name version pack details hl hr dep hdep
          exact ih _ _ (by omega)
        obtain ⟨r, hr2⟩ := collectLoop_total (collect packs fuel) details.Dependency hdeps {}
        rcases hr with hI | hA
        · exact ⟨{}, by rw [collect_interface packs fuel _ _ pack details hl hI, hr2]; rfl⟩
        · exact ⟨r, by rw [collect_add packs fuel _ _ pack details hl hA, hr2]⟩
      · exact ⟨{}, collect_no_emitter packs fuel _ _ pack details hl hr⟩

/-- On an acyclic catalog the dependencies of a resolved record are resolved
with the fuel left once the fuel exceeds the rank of the request. -/
theorem CheckDependency_total (rank : String → String → Nat) (info : PackInfo)
    (pack : Package) (details : VersionRecord) (hrank : RankedBy info.fix.packs rank)
    (hl : lookup info.fix.packs info.name info.version = some (pack, details))
    (hr : recurses pack) (fuel : Nat) (hfuel : rank info.name info.version < fuel + 1)
    (dInfo : DepInfo) (w : World) :
    ∃ r w1, collectLoop (collect info.fix.packs fuel) details.Dependency dInfo = some r ∧
      CheckDependency (AddPackage fuel) (resolved info details) dInfo w =
        some (r, w1) := by
  have hdeps : ∀ dep ∈ details.Dependency,
      ∃ d, collect info.fix.packs fuel dep.Name dep.Version = some d := by
    intro dep hdep
    have := hrank _ _ pack details hl hr dep hdep
    exact collect_total info.fix.packs rank hrank fuel _ _ (by omega)
  obtain ⟨r, hr2⟩ := collectLoop_total (collect info.fix.packs fuel) details.Dependency hdeps dInfo
  obtain ⟨w1, hw1⟩ :=
    (CheckDependencyLoop_collect info.fix.packs (AddPackage fuel) (collect info.fix.packs fuel)
      (AddPackage_collect info.fix.packs fuel) info.fix rfl details.Dependency dInfo w).2 r hr2
  exact ⟨r, w1, hr2, hw1⟩

/-! ## Files -/

theorem Find_put_self (disk : Disk) (p : Path) (d : Dirent) : Find (put disk p d) p = some d := by
  simp [put, Find]

/-! ## What the loop collects -/

/-- A returned run of the loop of `CheckDependency` hands back what
`collectLoop` computes from the catalog. -/
theorem CheckDependency_collect (fuel : Nat) (info : PackInfo) (dInfo0 dInfo : DepInfo)
    (w w1 : World)
    (hdeps : CheckDependency (AddPackage fuel) info dInfo0 w = some (dInfo, w1)) :
    collectLoop (collect info.fix.packs fuel) info.details.Dependency dInfo0 = some dInfo := by
  have h := CheckDependencyLoop_collect info.fix.packs (AddPackage fuel)
    (collect info.fix.packs fuel) (AddPackage_collect info.fix.packs fuel) info.fix rfl
    info.details.Dependency dInfo0 w
  cases hc : collectLoop (collect info.fix.packs fuel) info.details.Dependency dInfo0 with
  | none =>
    have := h.1 hc
    rw [CheckDependency] at hdeps
    rw [this] at hdeps
    exact Option.noConfusion hdeps
  | some r =>
    obtain ⟨w2, hw2⟩ := h.2 r hc
    rw [CheckDependency] at hdeps
    rw [hw2] at hdeps
    simp only [Option.some.injEq, Prod.mk.injEq] at hdeps
    rw [hdeps.1]

theorem collect_of_handsBackNothing (packs : List Package) (dep : Dependency)
    (h : handsBackNothing packs dep = true) (fuel : Nat) (d : DepInfo)
    (hc : collect packs fuel dep.Name dep.Version = some d) : d = {} := by
  cases fuel with
  | zero => simp [collect] at hc
  | succ fuel =>
    cases hl : lookup packs dep.Name dep.Version with
    | none =>
      rw [collect_miss packs fuel _ _ hl] at hc
      exact (Option.some.inj hc).symm
    | some found =>
      obtain ⟨pack, details⟩ := found
      by_cases hI : pack.Type_ = "Interface"
      · rw [collect_interface packs fuel _ _ pack details hl hI] at hc
        cases hloop : collectLoop (collect packs fuel) details.Dependency {} with
        | none => simp [hloop] at hc
        | some r => simp [hloop] at hc; exact hc.symm
      · by_cases hA : pack.Type_ = "Lib" ∨ pack.Type_ = "Exec"
        · rw [collect_add packs fuel _ _ pack details hl hA] at hc
          have hnil : details.Dependency = [] := by
            simp only [handsBackNothing, hl, hA, if_true] at h
            exact List.isEmpty_iff.mp h
          rw [hnil] at hc
          simp only [collectLoop, Option.some.injEq] at hc
          exact hc.symm
        · have hr : ¬ recurses pack := by
            rintro (h | h | h)
            · exact hI h
            · exact hA (Or.inl h)
            · exact hA (Or.inr h)
          rw [collect_no_emitter packs fuel _ _ pack details hl hr] at hc
          exact (Option.some.inj hc).symm

/-- When every recursive call hands back nothing, the loop appends the declared
names, and the static and the dynamic ones, in declaration order. -/
theorem collectLoop_of_leaves (c : String → String → Option DepInfo) :
    ∀ deps, (∀ dep ∈ deps, ∀ d, c dep.Name dep.Version = some d → d = {}) →
      ∀ dInfo r, collectLoop c deps dInfo = some r →
        r = { depList := dInfo.depList ++ declaredNames deps
              sLibList := dInfo.sLibList ++ staticNames deps
              dLibList := dInfo.dLibList ++ dynamicNames deps } := by
  intro deps
  induction deps with
  | nil =>
    intro _ dInfo r hr
    simp only [collectLoop, Option.some.injEq] at hr
    simp [← hr, declaredNames, staticNames, dynamicNames]
  | cons dep rest ih =>
    intro h dInfo r hr
    cases hc : c dep.Name dep.Version with
    | none => simp [collectLoop, hc] at hr
    | some d =>
      have hd := h dep (List.mem_cons_self _ _) d hc
      subst hd
      simp only [collectLoop, hc, DepInfo.append_empty] at hr
      have := ih (fun x hx => h x (List.mem_cons_of_mem _ hx)) _ _ hr
      rw [this]
      by_cases hS : dep.LinkType = some "Static"
      · simp [classify, hS, declaredNames, staticNames, dynamicNames]
      · by_cases hD : dep.LinkType = some "Dynamic"
        · simp [classify, hD, declaredNames, staticNames, dynamicNames]
        · simp [classify, hS, hD, declaredNames, staticNames, dynamicNames]

theorem UpdatePackage_of_skips (info : PackInfo) (w : World) (h : skips info w.disk) :
    UpdatePackage info w = (none, w) :=
  UpdatePackage_skip info w h.1 h.2

theorem UpdatePackage_of_not_skips (info : PackInfo) (w : World) (h : ¬ skips info w.disk) :
    UpdatePackage info w =
      (some (info.path ++ [info.name ++ ".mk"]),
        { disk := installDisk info w.disk, log := w.log ++ installEvents info }) := by
  have h2 : info.fix.forceUpdate = true ∨
      exist w.disk info.path (info.name ++ ".json") info.version = false := by
    by_cases hf : info.fix.forceUpdate = true
    · exact Or.inl hf
    · right
      by_cases he : exist w.disk info.path (info.name ++ ".json") info.version = true
      · exact absurd ⟨by simpa using hf, he⟩ h
      · simpa using he
  rw [UpdatePackage_install info w h2]; rfl

/-- `Add` on a package that is installed: the world it leaves. -/
theorem Add_install (rec : PackInfo → DepInfo → World → Outcome) (info : PackInfo)
    (isApp : Bool) (dep : DepInfo) (w : World) (dInfo : DepInfo) (w1 : World)
    (hdeps : CheckDependency rec info {} w = some (dInfo, w1))
    (hinst : ¬ skips (placed info) (platformFolders info w1.disk)) :
    Add rec info isApp dep w =
      some (dep.append dInfo,
        { disk := put (installDisk (placed info) (platformFolders info w1.disk))
            ((platformPath info).1 ++ [info.name ++ ".mk"])
            (Dirent.file (Content.text (AddText info.name (platformPath info).2 dInfo isApp)))
          log := w1.log ++ installEvents (placed info) ++
            [Event.write ((platformPath info).1 ++ [info.name ++ ".mk"])
              (AddText info.name (platformPath info).2 dInfo isApp)] }) := by
  rw [Add_of_deps rec info isApp dep w dInfo w1 hdeps]
  have h := UpdatePackage_of_not_skips (placed info)
    { w1 with disk := platformFolders info w1.disk } hinst
  have h' : UpdatePackage { info with path := (platformPath info).1 }
      { w1 with disk := platformFolders info w1.disk } = _ := h
  rw [h']
  rfl

/-- `Add` on a package that is found installed: only the folders are made sure of. -/
theorem Add_skip (rec : PackInfo → DepInfo → World → Outcome) (info : PackInfo)
    (isApp : Bool) (dep : DepInfo) (w : World) (dInfo : DepInfo) (w1 : World)
    (hdeps : CheckDependency rec info {} w = some (dInfo, w1))
    (hskip : skips (placed info) (platformFolders info w1.disk)) :
    Add rec info isApp dep w =
      some (dep.append dInfo, { w1 with disk := platformFolders info w1.disk }) := by
  rw [Add_of_deps rec info isApp dep w dInfo w1 hdeps]
  have h := UpdatePackage_of_skips (placed info)
    { w1 with disk := platformFolders info w1.disk } hskip
  have h' : UpdatePackage { info with path := (platformPath info).1 }
      { w1 with disk := platformFolders info w1.disk } = _ := h
  rw [h']
  rfl

/-! ## C1 -/

/-- C1: for a `Lib` or `Exec` version record that is installed (its dependencies
are resolved and `UpdatePackage` does not return early) and whose declared
dependencies each hand back nothing, `AddPackage` returns and the `.mk` file
it writes holds the text of `Add` with, as prerequisites, the declared names
in declaration order, in `SLIBS` the names declared `Static` in order, and in
`DLIBS` after the fixed `EasyCpp` the names declared `Dynamic` in order; the
write is the last effect. With no declaration all three lists are empty. -/
theorem C1_fragment_of_leaf_dependencies (fuel : Nat) (info : PackInfo) (dep : DepInfo)
    (w : World) (pack : Package) (details : VersionRecord) (dInfo : DepInfo) (w1 : World)
    (hl : lookup info.fix.packs info.name info.version = some (pack, details))
    (ht : pack.Type_ = "Lib" ∨ pack.Type_ = "Exec")
    (hleaf : ∀ d ∈ details.Dependency, handsBackNothing info.fix.packs d = true)
    (hdeps : CheckDependency (AddPackage fuel) (resolved info details) {} w = some (dInfo, w1))
    (hinst : ¬ skips (placed (resolved info details))
      (platformFolders (resolved info details) w1.disk)) :
    ∃ w', AddPackage (fuel + 1) info dep w = some (dep.append dInfo, w') ∧
      dInfo = { depList := declaredNames details.Dependency
                sLibList := staticNames details.Dependency
                dLibList := dynamicNames details.Dependency } ∧
      w'.log = w1.log ++ installEvents (placed (resolved info details)) ++
        [Event.write ((platformPath (resolved info details)).1 ++ [info.name ++ ".mk"])
          (AddText info.name (platformPath (resolved info details)).2
            { depList := declaredNames details.Dependency
              sLibList := staticNames details.Dependency
              dLibList := dynamicNames details.Dependency }
            (decide (pack.Type_ = "Exec")))] ∧
      Find w'.disk ((platformPath (resolved info details)).1 ++ [info.name ++ ".mk"]) =
        some (Dirent.file (Content.text
          (AddText info.name (platformPath (resolved info details)).2
            { depList := declaredNames details.Dependency
              sLibList := staticNames details.Dependency
              dLibList := dynamicNames details.Dependency }
            (decide (pack.Type_ = "Exec"))))) := by
  have hcol := CheckDependency_collect fuel (resolved info details) {} dInfo w w1 hdeps
  have hd : dInfo = { depList := declaredNames details.Dependency
                      sLibList := staticNames details.Dependency
                      dLibList := dynamicNames details.Dependency } := by
    have := collectLoop_of_leaves (collect info.fix.packs fuel) details.Dependency
      (fun d hdmem r hr => collect_of_handsBackNothing info.fix.packs d (hleaf d hdmem) fuel r hr)
      {} dInfo hcol
    simpa using this
  have hadd := Add_install (AddPackage fuel) (resolved info details) (decide (pack.Type_ = "Exec"))
    dep w dInfo w1 hdeps hinst
  rw [← AddPackage_add fuel info dep w pack details hl ht] at hadd
  exact ⟨_, hadd, hd, by rw [← hd]; rfl, by rw [← hd]; exact Find_put_self _ _ _⟩

set_option maxRecDepth 100000 in
/-- Witness of C1: `P` declares `d1` static, `d2` dynamic and `d3` without
link type; on the empty root its fragment reads `P: d1 d2 d3`, `SLIBS="d1 "`
and `DLIBS="EasyCpp d2 "`. -/
theorem C1_fragment_of_leaf_dependencies_witness :
    (∀ d ∈ detailsP.Dependency, handsBackNothing requestP.fix.packs d = true) ∧
    CheckDependency (AddPackage 2) (resolved requestP detailsP) {} emptyWorld =
      some ({ depList := ["d1", "d2", "d3"], sLibList := ["d1"], dLibList := ["d2"] },
        afterDepsP) ∧
    ¬ skips (placed (resolved requestP detailsP))
      (platformFolders (resolved requestP detailsP) afterDepsP.disk) ∧
    ∃ w', AddPackage 3 requestP {} emptyWorld =
        some ({ depList := ["d1", "d2", "d3"], sLibList := ["d1"], dLibList := ["d2"] }, w') ∧
      ({ depList := ["d1", "d2", "d3"], sLibList := ["d1"], dLibList := ["d2"] } : DepInfo) =
        { depList := declaredNames detailsP.Dependency
          sLibList := staticNames detailsP.Dependency
          dLibList := dynamicNames detailsP.Dependency } ∧
      w'.log = afterDepsP.log ++
        [ Event.manifest ["Packages"] "P" "1", Event.delete ["Packages", "P"],
          Event.fetch ["Packages"] "P" "git://p" "r1", Event.create ["Packages", "P.mk"] ] ++
        [ Event.write ["Packages", "P.mk"]
            "export FLAGS += \\\n  -I $(PACKAGES)/P/Inc\n\n.PHONY: P\nP: d1 d2 d3\n\t@$(MAKE) -f $(PACKAGES)/P/Makefile \\\n\t\tPKG_PATH=Packages/P \\\n\t\tPKG_NAME=P \\\n\t\tSLIBS=\"d1 \" \\\n\t\tDLIBS=\"EasyCpp d2 \" \\\n\t\tall\n" ] ∧
      Find w'.disk ["Packages", "P.mk"] =
        some (Dirent.file (Content.text
          "export FLAGS += \\\n  -I $(PACKAGES)/P/Inc\n\n.PHONY: P\nP: d1 d2 d3\n\t@$(MAKE) -f $(PACKAGES)/P/Makefile \\\n\t\tPKG_PATH=Packages/P \\\n\t\tPKG_NAME=P \\\n\t\tSLIBS=\"d1 \" \\\n\t\tDLIBS=\"EasyCpp d2 \" \\\n\t\tall\n")) :=
  have hleaf : ∀ d ∈ detailsP.Dependency, handsBackNothing requestP.fix.packs d = true := by
    decide
  have hdeps : CheckDependency (AddPackage 2) (resolved requestP detailsP) {} emptyWorld =
      some ({ depList := ["d1", "d2", "d3"], sLibList := ["d1"], dLibList := ["d2"] },
        afterDepsP) := by
    rfl
  have hinst : ¬ skips (placed (resolved requestP detailsP))
      (platformFolders (resolved requestP detailsP) afterDepsP.disk) := by
    decide
  ⟨hleaf, hdeps, hinst,
    C1_fragment_of_leaf_dependencies 2 requestP {} emptyWorld
      { Name := "P", Type_ := "Lib", Versions := [detailsP] } detailsP _ afterDepsP
      rfl (Or.inl rfl) hleaf hdeps hinst⟩

/-! ## C2 -/

theorem classify_depList (dep : Dependency) (d : DepInfo) :
    (classify dep d).depList = d.depList ++ [dep.Name] := by
  unfold classify
  split
  · rfl
  · split <;> rfl

theorem classify_sLibList (dep : Dependency) (d : DepInfo) :
    (classify dep d).sLibList =
      d.sLibList ++ staticNames [dep] := by
  by_cases hS : dep.LinkType = some "Static"
  · simp [classify, hS, staticNames]
  · by_cases hD : dep.LinkType = some "Dynamic"
    · simp [classify, hS, hD, staticNames]
    · simp [classify, hS, hD, staticNames]

theorem classify_dLibList (dep : Dependency) (d : DepInfo) :
    (classify dep d).dLibList =
      d.dLibList ++ dynamicNames [dep] := by
  by_cases hS : dep.LinkType = some "Static"
  · have hD : dep.LinkType ≠ some "Dynamic" := by rw [hS]; decide
    simp [classify, hS, dynamicNames]
  · by_cases hD : dep.LinkType = some "Dynamic"
    · simp [classify, hS, hD, dynamicNames]
    · simp [classify, hS, hD, dynamicNames]

/-- The declared names, and the static and dynamic ones, appear in what the loop
collects, in declaration order, after what was collected before. -/
theorem collectLoop_sublist (c : String → String → Option DepInfo) :
    ∀ deps dInfo r, collectLoop c deps dInfo = some r →
      (dInfo.depList ++ declaredNames deps).Sublist r.depList ∧
      (dInfo.sLibList ++ staticNames deps).Sublist r.sLibList ∧
      (dInfo.dLibList ++ dynamicNames deps).Sublist r.dLibList := by
  intro deps
  induction deps with
  | nil =>
    intro dInfo r hr
    simp only [collectLoop, Option.some.injEq] at hr
    simp [← hr, declaredNames, staticNames, dynamicNames]
  | cons dep rest ih =>
    intro dInfo r hr
    cases hd : c dep.Name dep.Version with
    | none => simp [collectLoop, hd] at hr
    | some d =>
      simp only [collectLoop, hd] at hr
      obtain ⟨h1, h2, h3⟩ := ih _ _ hr
      rw [classify_depList] at h1
      rw [classify_sLibList] at h2
      rw [classify_dLibList] at h3
      have e1 : declaredNames (dep :: rest) = [dep.Name] ++ declaredNames rest := rfl
      have e2 : staticNames (dep :: rest) = staticNames [dep] ++ staticNames rest := by
        simp only [staticNames, ← List.map_append, ← List.filter_append]; rfl
      have e3 : dynamicNames (dep :: rest) = dynamicNames [dep] ++ dynamicNames rest := by
        simp only [dynamicNames, ← List.map_append, ← List.filter_append]; rfl
      refine ⟨?_, ?_, ?_⟩
      · refine List.Sublist.trans ?_ h1
        rw [e1, ← List.append_assoc]
        exact List.Sublist.append
          (List.Sublist.append (List.sublist_append_left _ _) (List.Sublist.refl _))
          (List.Sublist.refl _)
      · refine List.Sublist.trans ?_ h2
        rw [e2, ← List.append_assoc]
        exact List.Sublist.append
          (List.Sublist.append (List.sublist_append_left _ _) (List.Sublist.refl _))
          (List.Sublist.refl _)
      · refine List.Sublist.trans ?_ h3
        rw [e3, ← List.append_assoc]
        exact List.Sublist.append
          (List.Sublist.append (List.sublist_append_left _ _) (List.Sublist.refl _))
          (List.Sublist.refl _)

theorem AddFramework_of_skips (info : PackInfo) (w : World)
    (h : skips (placedFramework info) w.disk) : AddFramework info w = w := by
  have h1 : info.fix.forceUpdate = false := h.1
  have h2 : exist w.disk info.fix.root (info.name ++ ".json") info.version = true := h.2
  simp [AddFramework, h1, h2]

theorem AddFramework_of_not_skips (info : PackInfo) (w : World)
    (h : ¬ skips (placedFramework info) w.disk) :
    AddFramework info w =
      { disk := frameworkDisk info w.disk, log := w.log ++ frameworkEvents info } := by
  have hcond : ¬ (info.fix.forceUpdate = false ∧
      exist w.disk info.fix.root (info.name ++ ".json") info.version = true) := h
  simp [AddFramework, hcond, frameworkDisk, frameworkEvents]

/-- `AddInterface` on a package that is installed: the world it leaves. -/
theorem AddInterface_install (rec : PackInfo → DepInfo → World → Outcome) (info : PackInfo)
    (dep : DepInfo) (w : World) (dInfo : DepInfo) (w1 : World)
    (hdeps : CheckDependency rec info {} w = some (dInfo, w1))
    (hinst : ¬ skips (placedInterface info) (mkFolder w1.disk (info.fix.package ++ ["Interface"]))) :
    AddInterface rec info dep w =
      some (dep,
        { disk := put (installDisk (placedInterface info)
              (mkFolder w1.disk (info.fix.package ++ ["Interface"])))
            (info.fix.package ++ ["Interface"] ++ [info.name ++ ".mk"])
            (Dirent.file (Content.text (InterfaceText info.name dInfo)))
          log := w1.log ++ installEvents (placedInterface info) ++
            [Event.write (info.fix.package ++ ["Interface"] ++ [info.name ++ ".mk"])
              (InterfaceText info.name dInfo)] }) := by
  rw [AddInterface_of_deps rec info dep w dInfo w1 hdeps]
  have h := UpdatePackage_of_not_skips (placedInterface info)
    { w1 with disk := mkFolder w1.disk (info.fix.package ++ ["Interface"]) } hinst
  have h' : UpdatePackage { info with path := info.fix.package ++ ["Interface"] }
      { w1 with disk := mkFolder w1.disk (info.fix.package ++ ["Interface"]) } = _ := h
  rw [h']
  rfl

/-- `AddInterface` on a package that is found installed. -/
theorem AddInterface_skip (rec : PackInfo → DepInfo → World → Outcome) (info : PackInfo)
    (dep : DepInfo) (w : World) (dInfo : DepInfo) (w1 : World)
    (hdeps : CheckDependency rec info {} w = some (dInfo, w1))
    (hskip : skips (placedInterface info) (mkFolder w1.disk (info.fix.package ++ ["Interface"]))) :
    AddInterface rec info dep w =
      some (dep, { w1 with disk := mkFolder w1.disk (info.fix.package ++ ["Interface"]) }) := by
  rw [AddInterface_of_deps rec info dep w dInfo w1 hdeps]
  have h := UpdatePackage_of_skips (placedInterface info)
    { w1 with disk := mkFolder w1.disk (info.fix.package ++ ["Interface"]) } hskip
  have h' : UpdatePackage { info with path := info.fix.package ++ ["Interface"] }
      { w1 with disk := mkFolder w1.disk (info.fix.package ++ ["Interface"]) } = _ := h
  rw [h']
  rfl

/-- The loop of `CheckDependency` only appends to the log when the recursive
call only appends. -/
theorem CheckDependencyLoop_log (rec : PackInfo → DepInfo → World → Outcome)
    (hrec : ∀ info dep w r, rec info dep w = some r → ∃ evs, r.2.log = w.log ++ evs)
    (fix : PackFixInfo) :
    ∀ deps dInfo w r, CheckDependencyLoop rec fix deps dInfo w = some r →
      ∃ evs, r.2.log = w.log ++ evs := by
  intro deps
  induction deps with
  | nil =>
    intro dInfo w r hr
    simp only [CheckDependencyLoop, Option.some.injEq] at hr
    exact ⟨[], by simp [← hr]⟩
  | cons dep rest ih =>
    intro dInfo w r hr
    cases h1 : rec { fix := fix, name := dep.Name, version := dep.Version } dInfo w with
    | none => simp [CheckDependencyLoop, h1] at hr
    | some r1 =>
      obtain ⟨d1, w1⟩ := r1
      simp only [CheckDependencyLoop, h1] at hr
      obtain ⟨evs1, he1⟩ := hrec _ _ _ _ h1
      obtain ⟨evs2, he2⟩ := ih _ _ _ hr
      exact ⟨evs1 ++ evs2, by rw [he2, he1, List.append_assoc]⟩

/-- `AddPackage` only appends to the log. -/
theorem AddPackage_log :
    ∀ fuel info dep w r, AddPackage fuel info dep w = some r → ∃ evs, r.2.log = w.log ++ evs := by
  intro fuel
  induction fuel with
  | zero => intro info dep w r h; simp [AddPackage] at h
  | succ fuel ih =>
    intro info dep w r h
    cases hl : lookup info.fix.packs info.name info.version with
    | none =>
      rw [AddPackage_succ, hl] at h
      simp only [Option.some.injEq] at h
      exact ⟨[], by simp [← h]⟩
    | some found =>
      obtain ⟨pack, details⟩ := found
      by_cases hr : recurses pack
      · cases hdeps : CheckDependency (AddPackage fuel) (resolved info details) {} w with
        | none =>
          rcases hr with hI | hA
          · rw [AddPackage_interface fuel info dep w pack details hl hI,
              AddInterface_none_of_deps _ _ _ _ hdeps] at h
            exact Option.noConfusion h
          · rw [AddPackage_add fuel info dep w pack details hl hA,
              Add_none_of_deps _ _ _ _ _ hdeps] at h
            exact Option.noConfusion h
        | some r1 =>
          obtain ⟨dInfo, w1⟩ := r1
          obtain ⟨evs, hevs⟩ := CheckDependencyLoop_log (AddPackage fuel) ih _ _ _ _ _ hdeps
          have hevs : w1.log = w.log ++ evs := hevs
          rcases hr with hI | hA
          · rw [AddPackage_interface fuel info dep w pack details hl hI] at h
            by_cases hs : skips (placedInterface (resolved info details))
                (mkFolder w1.disk ((resolved info details).fix.package ++ ["Interface"]))
            · rw [AddInterface_skip _ _ _ _ _ _ hdeps hs] at h
              simp only [Option.some.injEq] at h
              exact ⟨evs, by rw [← h]; exact hevs⟩
            · rw [AddInterface_install _ _ _ _ _ _ hdeps hs] at h
              simp only [Option.some.injEq] at h
              rw [← h]
              simp only [hevs, List.append_assoc]
              exact ⟨_, rfl⟩
          · rw [AddPackage_add fuel info dep w pack details hl hA] at h
            by_cases hs : skips (placed (resolved info details))
                (platformFolders (resolved info details) w1.disk)
            · rw [Add_skip _ _ _ _ _ _ _ hdeps hs] at h
              simp only [Option.some.injEq] at h
              exact ⟨evs, by rw [← h]; exact hevs⟩
            · rw [Add_install _ _ _ _ _ _ _ hdeps hs] at h
              simp only [Option.some.injEq] at h
              rw [← h]
              simp only [hevs, List.append_assoc]
              exact ⟨_, rfl⟩
      · by_cases hF : pack.Type_ = "Framework"
        · rw [AddPackage_framework fuel info dep w pack details hl hF] at h
          simp only [Option.some.injEq] at h
          by_cases hs : skips (placedFramework (resolved info details)) w.disk
          · rw [AddFramework_of_skips _ _ hs] at h
            exact ⟨[], by simp [← h]⟩
          · rw [AddFramework_of_not_skips _ _ hs] at h
            exact ⟨frameworkEvents (resolved info details), by rw [← h]⟩
        · have hI : pack.Type_ ≠ "Interface" := fun h => hr (Or.inl h)
          have hL : pack.Type_ ≠ "Lib" := fun h => hr (Or.inr (Or.inl h))
          have hE : pack.Type_ ≠ "Exec" := fun h => hr (Or.inr (Or.inr h))
          rw [AddPackage_succ, hl] at h
          simp only [hI, hL, hE, hF, if_false, Option.some.injEq] at h
          exact ⟨[], by simp [← h]⟩

/-- C3: resolution is depth first, dependencies first. For a resolved package of
type `Lib`, `Exec` or `Interface` whose dependencies are resolved, `AddPackage`
returns and the log it leaves is the log before, then all effects `evs` of
resolving the declared dependencies, then the effects `own` of the package
itself: none when it is found installed, else its manifest write, payload
deletion, fetch, fragment creation and fragment write, in this order. -/
theorem C3_dependencies_first (fuel : Nat) (info : PackInfo) (dep : DepInfo) (w : World)
    (pack : Package) (details : VersionRecord) (dInfo : DepInfo) (w1 : World)
    (hl : lookup info.fix.packs info.name info.version = some (pack, details))
    (hr : recurses pack)
    (hdeps : CheckDependency (AddPackage fuel) (resolved info details) {} w = some (dInfo, w1)) :
    ∃ dep' w' evs own, AddPackage (fuel + 1) info dep w = some (dep', w') ∧
      w1.log = w.log ++ evs ∧
      w'.log = w.log ++ evs ++ own ∧
      (own = [] ∨
        ∃ (dest : PackInfo) (text : String), dest.name = info.name ∧ dest.version = info.version ∧
          dest.details = details ∧
          own = [ Event.manifest dest.path dest.name dest.version,
                  Event.delete (dest.path ++ [dest.name]),
                  Event.fetch dest.path dest.name dest.details.URL dest.details.Revision,
                  Event.create (dest.path ++ [dest.name ++ ".mk"]),
                  Event.write (dest.path ++ [dest.name ++ ".mk"]) text ]) := by
  obtain ⟨evs, hevs⟩ :=
    CheckDependencyLoop_log (AddPackage fuel) (AddPackage_log fuel) _ _ _ _ _ hdeps
  have hevs : w1.log = w.log ++ evs := hevs
  rcases hr with hI | hA
  · by_cases hs : skips (placedInterface (resolved info details))
        (mkFolder w1.disk ((resolved info details).fix.package ++ ["Interface"]))
    · have hrun := AddInterface_skip (AddPackage fuel) _ dep _ _ _ hdeps hs
      rw [← AddPackage_interface fuel info dep w pack details hl hI] at hrun
      exact ⟨_, _, evs, [], hrun, hevs, by simp [hevs], Or.inl rfl⟩
    · have hrun := AddInterface_install (AddPackage fuel) _ dep _ _ _ hdeps hs
      rw [← AddPackage_interface fuel info dep w pack details hl hI] at hrun
      exact ⟨_, _, evs,
        installEvents (placedInterface (resolved info details)) ++
          [Event.write (info.fix.package ++ ["Interface"] ++ [info.name ++ ".mk"])
            (InterfaceText info.name dInfo)],
        hrun, hevs, by simp [hevs, resolved],
        Or.inr ⟨placedInterface (resolved info details), InterfaceText info.name dInfo,
          rfl, rfl, rfl, rfl⟩⟩
  · by_cases hs : skips (placed (resolved info details))
        (platformFolders (resolved info details) w1.disk)
    · have hrun := Add_skip (AddPackage fuel) _ (decide (pack.Type_ = "Exec")) dep _ _ _ hdeps hs
      rw [← AddPackage_add fuel info dep w pack details hl hA] at hrun
      exact ⟨_, _, evs, [], hrun, hevs, by simp [hevs], Or.inl rfl⟩
    · have hrun := Add_install (AddPackage fuel) _ (decide (pack.Type_ = "Exec")) dep _ _ _ hdeps hs
      rw [← AddPackage_add fuel info dep w pack details hl hA] at hrun
      exact ⟨_, _, evs,
        installEvents (placed (resolved info details)) ++
          [Event.write ((platformPath (resolved info details)).1 ++ [info.name ++ ".mk"])
            (AddText info.name (platformPath (resolved info details)).2 dInfo
              (decide (pack.Type_ = "Exec")))],
        hrun, hevs, by simp [hevs, resolved],
        Or.inr ⟨placed (resolved info details),
          AddText info.name (platformPath (resolved info details)).2 dInfo
            (decide (pack.Type_ = "Exec")),
          rfl, rfl, rfl, rfl⟩⟩

set_option maxRecDepth 100000 in
/-- Witness of C3: the end-to-end example. On the empty root the request
`Foo/1.0` installs `Bar` first (target `Bar:`, empty `SLIBS`, `DLIBS` with
`EasyCpp` only) and then `Foo` (target `Foo: Bar`, `SLIBS="Bar "`). -/
theorem C3_dependencies_first_witness :
    CheckDependency (AddPackage 1) (resolved requestFoo detailsFoo) {} emptyWorld =
      some ({ depList := ["Bar"], sLibList := ["Bar"], dLibList := [] }, afterDepsFoo) ∧
    afterDepsFoo.log = barEvents ∧
    (AddPackage 2 requestFoo {} emptyWorld).map (fun r => r.2.log) =
      some (barEvents ++ fooEvents) ∧
    (Start 2 fooBar [] false [("Foo", "1.0")] emptyWorld).map (fun w => w.log) =
      some (barEvents ++ fooEvents) ∧
    ∃ dep' w' evs own, AddPackage 2 requestFoo {} emptyWorld = some (dep', w') ∧
      afterDepsFoo.log = emptyWorld.log ++ evs ∧
      w'.log = emptyWorld.log ++ evs ++ own ∧
      (own = [] ∨
        ∃ (dest : PackInfo) (text : String), dest.name = "Foo" ∧ dest.version = "1.0" ∧
          dest.details = detailsFoo ∧
          own = [ Event.manifest dest.path dest.name dest.version,
                  Event.delete (dest.path ++ [dest.name]),
                  Event.fetch dest.path dest.name dest.details.URL dest.details.Revision,
                  Event.create (dest.path ++ [dest.name ++ ".mk"]),
                  Event.write (dest.path ++ [dest.name ++ ".mk"]) text ]) :=
  have hdeps : CheckDependency (AddPackage 1) (resolved requestFoo detailsFoo) {} emptyWorld =
      some ({ depList := ["Bar"], sLibList := ["Bar"], dLibList := [] }, afterDepsFoo) := by
    rfl
  ⟨hdeps, by rfl, by rfl, by rfl,
    C3_dependencies_first 1 requestFoo {} emptyWorld
      { Name := "Foo", Type_ := "Lib", Versions := [detailsFoo] } detailsFoo _ afterDepsFoo
      rfl (Or.inr (Or.inl rfl)) hdeps⟩

/-! ## C4 -/

/-- C4: when no catalog entry has the requested name, or the entry found for the
name has no version record of exactly the requested version, `AddPackage`
returns (already with fuel for a single call, so no dependency is resolved)
and hands back the caller's `DepInfo` and the world, disk and log, unchanged:
no manifest, deletion, fetch or fragment, for either value of the force flag. -/
theorem C4_lookup_miss_is_noop (fuel : Nat) (info : PackInfo) (dep : DepInfo) (w : World)
    (hmiss : (∀ pack ∈ info.fix.packs, pack.Name ≠ info.name) ∨
      (∃ pack, info.fix.packs.find? (fun pack => decide (info.name = pack.Name)) = some pack ∧
        ∀ details ∈ pack.Versions, details.Version ≠ info.version)) :
    AddPackage (fuel + 1) info dep w = some (dep, w) := by
  have hnone : lookup info.fix.packs info.name info.version = none := by
    rcases hmiss with h | ⟨pack, hfind, h⟩
    · exact lookup_none_of_no_name _ _ _ h
    · exact lookup_none_of_no_version _ _ _ pack hfind h
  rw [AddPackage_succ, hnone]

/-- Witness of C4: `Foo 3.0` (known name, unknown version) on the example catalog,
with the force flag set and a manifest already on disk. -/
theorem C4_lookup_miss_is_noop_witness :
    (∃ pack, (fixOf fooBar [] true).packs.find? (fun pack => decide ("Foo" = pack.Name)) = some pack ∧
        ∀ details ∈ pack.Versions, details.Version ≠ "3.0") ∧
    AddPackage 1 { fix := fixOf fooBar [] true, name := "Foo", version := "3.0" }
        { depList := ["x"] }
        { disk := [(["Packages", "Foo.json"], Dirent.file (manifestOf "Foo" "1.0"))], log := [] } =
      some ({ depList := ["x"] },
        { disk := [(["Packages", "Foo.json"], Dirent.file (manifestOf "Foo" "1.0"))], log := [] }) :=
  have h : ∃ pack, (fixOf fooBar [] true).packs.find? (fun pack => decide ("Foo" = pack.Name)) = some pack ∧
      ∀ details ∈ pack.Versions, details.Version ≠ "3.0" :=
    ⟨_, rfl, by decide⟩
  ⟨h, C4_lookup_miss_is_noop 0 { fix := fixOf fooBar [] true, name := "Foo", version := "3.0" }
    _ _ (Or.inr h)⟩

/-! ## C5 -/

theorem below_append (p q : Path) : below p (p ++ q) = true := by
  induction p with
  | nil => rfl
  | cons a p ih => simp [below, ih]

theorem mem_of_Find (disk : Disk) (p : Path) (d : Dirent) (h : Find disk p = some d) :
    (p, d) ∈ disk := by
  induction disk with
  | nil => simp [Find] at h
  | cons e rest ih =>
    obtain ⟨q, x⟩ := e
    by_cases hq : q = p
    · simp only [Find, hq, if_true, Option.some.injEq] at h
      rw [hq, h]; exact List.mem_cons_self _ _
    · simp only [Find, hq, if_false] at h
      exact List.mem_cons_of_mem _ (ih h)

/-- `CreateFolder` changes nothing when something is stored in or below the folder. -/
theorem mkFolder_of_Find (disk : Disk) (p q : Path) (d : Dirent)
    (h : Find disk (p ++ q) = some d) : mkFolder disk p = disk := by
  have hmem := mem_of_Find disk _ d h
  have hany : disk.any (fun e => below p e.1) = true :=
    List.any_eq_true.mpr ⟨_, hmem, below_append p q⟩
  simp [mkFolder, hany]

theorem Find_of_exist (disk : Disk) (path : Path) (jName version : String)
    (h : exist disk path jName version = true) : ∃ d, Find disk (path ++ [jName]) = some d := by
  unfold exist at h
  cases hf : Find disk (path ++ [jName]) with
  | none => simp [hf] at h
  | some d => exact ⟨d, rfl⟩

/-- The folders `Add` makes sure of exist already when the manifest is found. -/
theorem platformFolders_of_exist (info : PackInfo) (disk : Disk)
    (h : exist disk (platformPath info).1 (info.name ++ ".json") info.version = true) :
    platformFolders info disk = disk := by
  obtain ⟨d, hd⟩ := Find_of_exist _ _ _ _ h
  unfold platformFolders
  by_cases hp : info.details.Platform = some "Linux"
  · simp only [platformPath, hp, if_true] at hd
    simp only [hp, if_true]
    have h1 : mkFolder disk (info.fix.package ++ ["Platform"]) = disk := by
      refine mkFolder_of_Find disk _ (["Linux"] ++ [info.name ++ ".json"]) d ?_
      simpa [List.append_assoc] using hd
    rw [h1]
    exact mkFolder_of_Find disk _ [info.name ++ ".json"] d hd
  · simp only [hp, if_false]

/-- C5: with the force flag off, a visited node whose destination manifest
records the requested version when `UpdatePackage` (or `AddFramework`) tests
it, that is once its dependencies are resolved, adds nothing of its own: the
world after the node is the world after its dependencies, log and disk, so
no fetch, no payload deletion, no manifest rewrite and no fragment write.
This holds in every world, in particular in every world of a second run. -/
theorem C5_installed_node_is_left_alone (fuel : Nat) (info : PackInfo) (dep : DepInfo)
    (w : World) (pack : Package) (details : VersionRecord)
    (hl : lookup info.fix.packs info.name info.version = some (pack, details))
    (hforce : info.fix.forceUpdate = false) :
    (∀ dInfo w1, (pack.Type_ = "Lib" ∨ pack.Type_ = "Exec") →
      CheckDependency (AddPackage fuel) (resolved info details) {} w = some (dInfo, w1) →
      exist w1.disk (platformPath (resolved info details)).1 (info.name ++ ".json")
        info.version = true →
      AddPackage (fuel + 1) info dep w = some (dep.append dInfo, w1)) ∧
    (∀ dInfo w1, pack.Type_ = "Interface" →
      CheckDependency (AddPackage fuel) (resolved info details) {} w = some (dInfo, w1) →
      exist w1.disk (info.fix.package ++ ["Interface"]) (info.name ++ ".json")
        info.version = true →
      AddPackage (fuel + 1) info dep w = some (dep, w1)) ∧
    (pack.Type_ = "Framework" →
      exist w.disk info.fix.root (info.name ++ ".json") info.version = true →
      AddPackage (fuel + 1) info dep w = some (dep, w)) := by
  refine ⟨?_, ?_, ?_⟩
  · intro dInfo w1 hA hdeps hex
    have hfold := platformFolders_of_exist (resolved info details) w1.disk hex
    have hs : skips (placed (resolved info details))
        (platformFolders (resolved info details) w1.disk) := by
      rw [hfold]; exact ⟨hforce, hex⟩
    rw [AddPackage_add fuel info dep w pack details hl hA,
      Add_skip _ _ _ _ _ _ _ hdeps hs, hfold]
  · intro dInfo w1 hI hdeps hex
    obtain ⟨d, hd⟩ := Find_of_exist _ _ _ _ hex
    have hfold : mkFolder w1.disk ((resolved info details).fix.package ++ ["Interface"]) =
        w1.disk := mkFolder_of_Find w1.disk _ [info.name ++ ".json"] d hd
    have hs : skips (placedInterface (resolved info details))
        (mkFolder w1.disk ((resolved info details).fix.package ++ ["Interface"])) := by
      rw [hfold]; exact ⟨hforce, hex⟩
    rw [AddPackage_interface fuel info dep w pack details hl hI,
      AddInterface_skip _ _ _ _ _ _ hdeps hs, hfold]
  · intro hF hex
    have hs : skips (placedFramework (resolved info details)) w.disk := ⟨hforce, hex⟩
    rw [AddPackage_framework fuel info dep w pack details hl hF, AddFramework_of_skips _ _ hs]

set_option maxRecDepth 100000 in
/-- Witness of C5: the request `Foo/1.0` resolved a second time on the world
the first run left. `Bar` is left alone, then `Foo`: the world is unchanged. -/
theorem C5_installed_node_is_left_alone_witness :
    AddPackage 2 requestFoo {} emptyWorld =
      some ({ depList := ["Bar"], sLibList := ["Bar"], dLibList := [] }, afterFoo) ∧
    CheckDependency (AddPackage 1) (resolved requestFoo detailsFoo) {} afterFoo =
      some ({ depList := ["Bar"], sLibList := ["Bar"], dLibList := [] }, afterFoo) ∧
    exist afterFoo.disk (platformPath (resolved requestFoo detailsFoo)).1 ("Foo" ++ ".json")
      "1.0" = true ∧
    AddPackage 2 requestFoo {} afterFoo =
      some ({ depList := ["Bar"], sLibList := ["Bar"], dLibList := [] }, afterFoo) :=
  have hdeps : CheckDependency (AddPackage 1) (resolved requestFoo detailsFoo) {} afterFoo =
      some ({ depList := ["Bar"], sLibList := ["Bar"], dLibList := [] }, afterFoo) := by
    rfl
  have hex : exist afterFoo.disk (platformPath (resolved requestFoo detailsFoo)).1
      ("Foo" ++ ".json") "1.0" = true := by
    rfl
  ⟨by rfl, hdeps, hex,
    (C5_installed_node_is_left_alone 1 requestFoo {} afterFoo
      { Name := "Foo", Type_ := "Lib", Versions := [detailsFoo] } detailsFoo rfl rfl).1
      _ afterFoo (Or.inl rfl) hdeps hex⟩

/-! ## C6 -/

theorem Find_filter (f : Path × Dirent → Bool) (q : Path) (hf : ∀ d, f (q, d) = true) :
    ∀ disk : Disk, Find (disk.filter f) q = Find disk q := by
  intro disk
  induction disk with
  | nil => rfl
  | cons e rest ih =>
    obtain ⟨r, x⟩ := e
    by_cases hrq : r = q
    · subst hrq
      rw [List.filter_cons_of_pos (hf x)]
      simp [Find]
    · cases hk : f (r, x) with
      | true =>
        rw [List.filter_cons_of_pos hk]
        simp only [Find, hrq, if_false]
        exact ih
      | false =>
        rw [List.filter_cons_of_neg (by simp [hk])]
        simp only [Find, hrq, if_false]
        exact ih

theorem Find_put_ne (disk : Disk) (p q : Path) (d : Dirent) (h : q ≠ p) :
    Find (put disk p d) q = Find disk q := by
  have hpq : ¬ p = q := fun e => h e.symm
  simp only [put, Find, hpq, if_false]
  exact Find_filter _ q (fun _ => by simpa using h) disk

theorem Find_remove (disk : Disk) (p q : Path) (h : below p q = false) :
    Find (remove disk p) q = Find disk q := by
  unfold remove
  exact Find_filter _ q (fun _ => by simp [h]) disk

theorem below_sibling (p : Path) (a b : String) (h : a ≠ b) :
    below (p ++ [a]) (p ++ [b]) = false := by
  induction p with
  | nil => simp [below, h]
  | cons c p ih => simp [below, ih]

theorem sibling_ne (p : Path) (a b : String) (h : a ≠ b) : p ++ [a] ≠ p ++ [b] := by
  intro e
  exact h (by simpa using e)

theorem json_ne_self (name : String) : name ++ ".json" ≠ name := by
  intro e
  have := congrArg String.length e
  simp only [String.length_append] at this
  revert this
  have h5 : ".json".length = 5 := by decide
  have h3 : ".mk".length = 3 := by decide
  try rw [h5]
  try rw [h3]
  omega

theorem mk_ne_self (name : String) : name ++ ".mk" ≠ name := by
  intro e
  have := congrArg String.length e
  simp only [String.length_append] at this
  revert this
  have h5 : ".json".length = 5 := by decide
  have h3 : ".mk".length = 3 := by decide
  try rw [h5]
  try rw [h3]
  omega

theorem mk_ne_json (name : String) : name ++ ".mk" ≠ name ++ ".json" := by
  intro e
  have := congrArg String.length e
  simp only [String.length_append] at this
  revert this
  have h5 : ".json".length = 5 := by decide
  have h3 : ".mk".length = 3 := by decide
  try rw [h5]
  try rw [h3]
  omega

/-- A name followed by `.json` ends in the letter n. -/
theorem json_getLast (name : String) : (name ++ ".json").data.getLast? = some 'n' := by
  simp

theorem json_ne_Packages (name : String) : name ++ ".json" ≠ "Packages" := by
  intro e
  have h := json_getLast name
  rw [e] at h
  revert h
  decide

/-- After `UpdatePackage` has installed a package, its manifest, its payload and
its empty `.mk` file are on the disk. -/
theorem Find_installDisk (info : PackInfo) (disk : Disk) :
    Find (installDisk info disk) (info.path ++ [info.name ++ ".json"]) =
        some (Dirent.file (manifestOf info.name info.version)) ∧
    Find (installDisk info disk) (info.path ++ [info.name]) =
        some (Dirent.checkout info.details.URL info.details.Revision) ∧
    Find (installDisk info disk) (info.path ++ [info.name ++ ".mk"]) =
        some (Dirent.file (Content.text "")) := by
  unfold installDisk
  refine ⟨?_, ?_, Find_put_self _ _ _⟩
  · rw [Find_put_ne _ _ _ _ (sibling_ne _ _ _ (mk_ne_json info.name).symm),
      Find_put_ne _ _ _ _ (sibling_ne _ _ _ (json_ne_self info.name)),
      Find_remove _ _ _ (below_sibling _ _ _ (json_ne_self info.name).symm),
      Find_put_self]
  · rw [Find_put_ne _ _ _ _ (sibling_ne _ _ _ (mk_ne_self info.name).symm), Find_put_self]

theorem lookup_some (packs : List Package) (name version : String) (pack : Package)
    (details : VersionRecord) (h : lookup packs name version = some (pack, details)) :
    pack ∈ packs ∧ details ∈ pack.Versions ∧ pack.Name = name ∧ details.Version = version := by
  unfold lookup at h
  cases hp : packs.find? (fun pack => decide (name = pack.Name)) with
  | none => simp [hp] at h
  | some p =>
    cases hv : p.Versions.find? (fun details => decide (version = details.Version)) with
    | none => simp [hp, hv] at h
    | some v =>
      simp only [hp, hv, Option.some.injEq, Prod.mk.injEq] at h
      obtain ⟨h1, h2⟩ := h
      subst h1; subst h2
      have hp1 := List.find?_some hp
      have hv1 := List.find?_some hv
      exact ⟨List.mem_of_find?_eq_some hp, List.mem_of_find?_eq_some hv,
        (by simpa using hp1 : name = p.Name).symm, (by simpa using hv1 : version = v.Version).symm⟩

/-- A rank that decreases along every declaration of the catalog is a rank in
the sense of `RankedBy`. -/
theorem rankedBy_of_all (packs : List Package) (rank : String → String → Nat)
    (h : ∀ pack ∈ packs, ∀ details ∈ pack.Versions, ∀ dep ∈ details.Dependency,
      rank dep.Name dep.Version < rank pack.Name details.Version) :
    RankedBy packs rank := by
  intro name version pack details hl _ dep hdep
  obtain ⟨h1, h2, h3, h4⟩ := lookup_some packs name version pack details hl
  have := h pack h1 details h2 dep hdep
  rw [h3, h4] at this
  exact this

/-- A returned call on a node that walks its dependencies has resolved them. -/
theorem deps_of_AddPackage (fuel : Nat) (info : PackInfo) (dep : DepInfo) (w : World)
    (pack : Package) (details : VersionRecord) (r : DepInfo × World)
    (hl : lookup info.fix.packs info.name info.version = some (pack, details))
    (hr : recurses pack) (h : AddPackage (fuel + 1) info dep w = some r) :
    ∃ dInfo w1, CheckDependency (AddPackage fuel) (resolved info details) {} w =
      some (dInfo, w1) := by
  cases hdeps : CheckDependency (AddPackage fuel) (resolved info details) {} w with
  | some r1 => exact ⟨r1.1, r1.2, rfl⟩
  | none =>
    rcases hr with hI | hA
    · rw [AddPackage_interface fuel info dep w pack details hl hI,
        AddInterface_none_of_deps _ _ _ _ hdeps] at h
      exact Option.noConfusion h
    · rw [AddPackage_add fuel info dep w pack details hl hA,
        Add_none_of_deps _ _ _ _ _ hdeps] at h
      exact Option.noConfusion h

/-- The world `Add` leaves after an installation, read at the three paths. -/
theorem Add_install_disk (info : PackInfo) (disk : Disk) (text : String) :
    Find (put (installDisk (placed info) disk) ((platformPath info).1 ++ [info.name ++ ".mk"])
        (Dirent.file (Content.text text))) ((platformPath info).1 ++ [info.name ++ ".json"]) =
      some (Dirent.file (manifestOf info.name info.version)) ∧
    Find (put (installDisk (placed info) disk) ((platformPath info).1 ++ [info.name ++ ".mk"])
        (Dirent.file (Content.text text))) ((platformPath info).1 ++ [info.name]) =
      some (Dirent.checkout info.details.URL info.details.Revision) ∧
    Find (put (installDisk (placed info) disk) ((platformPath info).1 ++ [info.name ++ ".mk"])
        (Dirent.file (Content.text text))) ((platformPath info).1 ++ [info.name ++ ".mk"]) =
      some (Dirent.file (Content.text text)) := by
  refine ⟨?_, ?_, Find_put_self _ _ _⟩
  · exact (Find_put_ne _ _ _ _ (sibling_ne _ _ _ (mk_ne_json info.name).symm)).trans
      (Find_installDisk (placed info) disk).1
  · exact (Find_put_ne _ _ _ _ (sibling_ne _ _ _ (mk_ne_self info.name).symm)).trans
      (Find_installDisk (placed info) disk).2.1

theorem AddText_PKG_PATH (name stem : String) (dInfo : DepInfo) (isApp : Bool) :
    ∃ pre post, AddText name stem dInfo isApp =
      pre ++ ("\t\tPKG_PATH=" ++ (stem ++ name) ++ " \\\n" ++ post) := by
  refine ⟨"export FLAGS += \\\n" ++ "  -I $(PACKAGES)/" ++ name ++ "/Inc\n\n"
      ++ ".PHONY: " ++ name ++ EOS ++ name ++ ":"
      ++ String.join (dInfo.depList.map (fun dep => " " ++ dep)) ++ EOS
      ++ "\t@$(MAKE) -f $(PACKAGES)/" ++ name ++ "/Makefile \\\n",
    "\t\tPKG_NAME=" ++ name ++ " \\\n" ++ "\t\tSLIBS=\""
      ++ String.join (dInfo.sLibList.map (fun slib => slib ++ " "))
      ++ "\" \\\n" ++ "\t\tDLIBS=\"EasyCpp "
      ++ String.join (dInfo.dLibList.map (fun dlib => dlib ++ " "))
      ++ "\" \\\n" ++ (if isApp then "\t\tI_AM_APP=y \\\n" else "") ++ "\t\tall\n", ?_⟩
  simp only [AddText, String.append_assoc]

theorem intercalate_linux (name : String) :
    String.intercalate "/" (["Packages", "Platform", "Linux"] ++ [name]) =
      "Packages/Platform/Linux/" ++ name := by
  apply String.ext
  simp [String.intercalate, String.intercalate.go]

theorem intercalate_packages (name : String) :
    String.intercalate "/" (["Packages"] ++ [name]) = "Packages/" ++ name := by
  apply String.ext
  simp [String.intercalate, String.intercalate.go]

/-- C7: a `Lib` or `Exec` version record that is installed, the `Packages`
folder being the one `Start` creates under the install root. If its
`Platform` is `Linux`, manifest, payload and fragment are placed in
`Packages/Platform/Linux` under the root and `PKG_PATH` is
`Packages/Platform/Linux/` followed by the name; for any other or no
`Platform` they are placed in `Packages` and `PKG_PATH` is `Packages/`
followed by the name. In both cases `PKG_PATH` spells the path, below the
install root, of the folder the package was fetched into. -/
theorem C7_platform_folder (fuel : Nat) (info : PackInfo) (dep : DepInfo)
    (w : World) (pack : Package) (details : VersionRecord) (dInfo : DepInfo) (w1 : World)
    (hl : lookup info.fix.packs info.name info.version = some (pack, details))
    (ht : pack.Type_ = "Lib" ∨ pack.Type_ = "Exec")
    (hpackage : info.fix.package = info.fix.root ++ ["Packages"])
    (hdeps : CheckDependency (AddPackage fuel) (resolved info details) {} w = some (dInfo, w1))
    (hinst : ¬ skips (placed (resolved info details))
      (platformFolders (resolved info details) w1.disk)) :
    ∃ w', AddPackage (fuel + 1) info dep w = some (dep.append dInfo, w') ∧
      (details.Platform = some "Linux" →
        installedUnder info details ["Packages", "Platform", "Linux"] "Packages/Platform/Linux/"
          dInfo (decide (pack.Type_ = "Exec")) w1 w') ∧
      (details.Platform ≠ some "Linux" →
        installedUnder info details ["Packages"] "Packages/"
          dInfo (decide (pack.Type_ = "Exec")) w1 w') := by
  have hadd := Add_install (AddPackage fuel) (resolved info details) (decide (pack.Type_ = "Exec"))
    dep w dInfo w1 hdeps hinst
  rw [← AddPackage_add fuel info dep w pack details hl ht] at hadd
  have hdisk := Add_install_disk (resolved info details)
    (platformFolders (resolved info details) w1.disk)
    (AddText info.name (platformPath (resolved info details)).2 dInfo
      (decide (pack.Type_ = "Exec")))
  refine ⟨_, hadd, ?_, ?_⟩
  · intro hp
    have h1 : info.fix.root ++ ["Packages", "Platform", "Linux"] =
        (platformPath (resolved info details)).1 := by
      simp [platformPath, resolved, hp, hpackage]
    have h2 : "Packages/Platform/Linux/" = (platformPath (resolved info details)).2 := by
      simp [platformPath, resolved, hp]
    refine ⟨?_, ?_, ?_, ?_, AddText_PKG_PATH _ _ _ _, intercalate_linux _⟩
    · rw [h1, h2]; simp [installEvents, placed, resolved]
    · rw [h1]; exact hdisk.1
    · rw [h1]; exact hdisk.2.1
    · rw [h1, h2]; exact hdisk.2.2
  · intro hp
    have h1 : info.fix.root ++ ["Packages"] = (platformPath (resolved info details)).1 := by
      simp [platformPath, resolved, hp, hpackage]
    have h2 : "Packages/" = (platformPath (resolved info details)).2 := by
      simp [platformPath, resolved, hp]
    refine ⟨?_, ?_, ?_, ?_, AddText_PKG_PATH _ _ _ _, intercalate_packages _⟩
    · rw [h1, h2]; simp [installEvents, placed, resolved]
    · rw [h1]; exact hdisk.1
    · rw [h1]; exact hdisk.2.1
    · rw [h1, h2]; exact hdisk.2.2

set_option maxRecDepth 100000 in
/-- Witness of C7: `Tool 1` (`Platform` `Linux`) under the install root `./work`
goes to `work/Packages/Platform/Linux` with
`PKG_PATH=Packages/Platform/Linux/Tool`; `Gui 1` (`Platform` `Windows`) goes
to `work/Packages` with `PKG_PATH=Packages/Gui`. -/
theorem C7_platform_folder_witness :
    requestTool.fix.package = requestTool.fix.root ++ ["Packages"] ∧
    CheckDependency (AddPackage 0) (resolved requestTool detailsTool) {} emptyWorld =
      some ({}, emptyWorld) ∧
    ¬ skips (placed (resolved requestTool detailsTool))
      (platformFolders (resolved requestTool detailsTool) emptyWorld.disk) ∧
    (AddPackage 1 requestTool {} emptyWorld).map (fun r => r.2.log) =
      some [ Event.manifest ["work", "Packages", "Platform", "Linux"] "Tool" "1",
             Event.delete ["work", "Packages", "Platform", "Linux", "Tool"],
             Event.fetch ["work", "Packages", "Platform", "Linux"] "Tool" "git://tool" "t1",
             Event.create ["work", "Packages", "Platform", "Linux", "Tool.mk"],
             Event.write ["work", "Packages", "Platform", "Linux", "Tool.mk"] toolText ] ∧
    (AddPackage 1 { requestTool with name := "Gui" } {} emptyWorld).map (fun r => r.2.log) =
      some [ Event.manifest ["work", "Packages"] "Gui" "1",
             Event.delete ["work", "Packages", "Gui"],
             Event.fetch ["work", "Packages"] "Gui" "git://gui" "g1",
             Event.create ["work", "Packages", "Gui.mk"],
             Event.write ["work", "Packages", "Gui.mk"] guiText ] ∧
    ∃ w', AddPackage 1 requestTool {} emptyWorld = some ({}, w') ∧
      (detailsTool.Platform = some "Linux" →
        installedUnder requestTool detailsTool ["Packages", "Platform", "Linux"]
          "Packages/Platform/Linux/" {} true emptyWorld w') ∧
      (detailsTool.Platform ≠ some "Linux" →
        installedUnder requestTool detailsTool ["Packages"] "Packages/" {} true emptyWorld w') :=
  have hdeps : CheckDependency (AddPackage 0) (resolved requestTool detailsTool) {} emptyWorld =
      some ({}, emptyWorld) := by
    rfl
  have hinst : ¬ skips (placed (resolved requestTool detailsTool))
      (platformFolders (resolved requestTool detailsTool) emptyWorld.disk) := by
    decide
  ⟨rfl, hdeps, hinst, by rfl, by rfl,
    C7_platform_folder 0 requestTool {} emptyWorld
      { Name := "Tool", Type_ := "Exec", Versions := [detailsTool] } detailsTool {} emptyWorld
      rfl (Or.inr rfl) rfl hdeps hinst⟩

/-! ## C8 -/

theorem below_iff (a p : Path) : below a p = true ↔ ∃ rest, p = a ++ rest := by
  induction a generalizing p with
  | nil => simp [below]
  | cons x a ih =>
    cases p with
    | nil => simp [below]
    | cons y p =>
      simp only [below, Bool.and_eq_true, beq_iff_eq, ih, List.cons_append, List.cons.injEq]
      constructor
      · rintro ⟨hxy, rest, hrest⟩
        exact ⟨rest, hxy.symm, hrest⟩
      · rintro ⟨rest, hxy, hrest⟩
        exact ⟨hxy.symm, rest, hrest⟩

theorem below_other_child (root : Path) (a b : String) (rest : Path) (h : a ≠ b) :
    below (root ++ [a]) (root ++ b :: rest) = false := by
  induction root with
  | nil => simp [below, h]
  | cons c root ih => simp [below, ih]

/-- `AddFramework` leaves every path alone except the folder `EasyCpp` of the
install root, the manifest in the install root and the folder `EasyCpp` of
the working directory. -/
theorem Find_frameworkDisk_other (info : PackInfo) (disk : Disk) (p : Path)
    (h1 : below (info.fix.root ++ ["EasyCpp"]) p = false)
    (h2 : p ≠ info.fix.root ++ [info.name ++ ".json"]) (h3 : p ≠ ["EasyCpp"]) :
    Find (frameworkDisk info disk) p = Find disk p := by
  unfold frameworkDisk
  rw [Find_put_ne _ _ _ _ h3, Find_put_ne _ _ _ _ h2, Find_remove _ _ _ h1]

/-- C8: a request that resolves to an entry of type `Framework`, whatever its
`Dependency` list, the disk and the force flag. `AddPackage` returns with
fuel for a single call, so no dependency is resolved; the caller's `DepInfo`
is handed back unchanged; the effects are none or the deletion of `EasyCpp`
under the root, the manifest write in the root and the fetch: no effect acts
on a path in `Packages` under the root, none creates or writes a `.mk` file,
and every entry in `Packages` under the root is as before. -/
theorem C8_framework_is_self_contained (fuel : Nat) (info : PackInfo) (dep : DepInfo)
    (w : World) (pack : Package) (details : VersionRecord)
    (hl : lookup info.fix.packs info.name info.version = some (pack, details))
    (hF : pack.Type_ = "Framework") :
    ∃ w' evs, AddPackage (fuel + 1) info dep w = some (dep, w') ∧
      AddPackage 1 info dep w = some (dep, w') ∧
      w'.log = w.log ++ evs ∧
      (evs = [] ∨ evs = [ Event.delete (info.fix.root ++ ["EasyCpp"]),
                          Event.manifest info.fix.root info.name info.version,
                          Event.fetch [] "EasyCpp" details.URL details.Revision ]) ∧
      (∀ e ∈ evs, below (info.fix.root ++ ["Packages"]) e.target = false) ∧
      (∀ e ∈ evs, ∀ file text, e ≠ Event.create file ∧ e ≠ Event.write file text) ∧
      (∀ p, below (info.fix.root ++ ["Packages"]) p = true → Find w'.disk p = Find w.disk p) := by
  have hrun := AddPackage_framework fuel info dep w pack details hl hF
  have hrun1 := AddPackage_framework 0 info dep w pack details hl hF
  by_cases hs : skips (placedFramework (resolved info details)) w.disk
  · rw [AddFramework_of_skips _ _ hs] at hrun hrun1
    refine ⟨w, [], hrun, hrun1, by simp, Or.inl rfl, ?_, ?_, fun _ _ => rfl⟩
    · intro e he; simp at he
    · intro e he; simp at he
  · rw [AddFramework_of_not_skips _ _ hs] at hrun hrun1
    have htarget : ∀ q : Path, below (info.fix.root ++ ["Packages"]) q = true →
        below (info.fix.root ++ ["EasyCpp"]) q = false ∧
        q ≠ info.fix.root ++ [info.name ++ ".json"] ∧ q ≠ ["EasyCpp"] := by
      intro q hq
      obtain ⟨rest, hrest⟩ := (below_iff _ _).mp hq
      rw [List.append_assoc] at hrest
      subst hrest
      refine ⟨below_other_child _ _ _ _ (by decide), ?_, ?_⟩
      · intro e
        have := List.append_cancel_left e
        simp only [List.singleton_append, List.cons.injEq] at this
        exact json_ne_Packages info.name this.1.symm
      · intro e
        cases hroot : info.fix.root with
        | nil =>
          rw [hroot] at e
          simp only [List.nil_append, List.singleton_append, List.cons.injEq] at e
          exact absurd e.1 (by decide)
        | cons c r =>
          rw [hroot] at e
          simp at e
    have hnot : ∀ q : Path, (below (info.fix.root ++ ["EasyCpp"]) q = true ∨
        q = info.fix.root ++ [info.name ++ ".json"] ∨ q = ["EasyCpp"]) →
        below (info.fix.root ++ ["Packages"]) q = false := by
      intro q hq
      cases hb : below (info.fix.root ++ ["Packages"]) q with
      | false => rfl
      | true =>
        obtain ⟨h1, h2, h3⟩ := htarget q hb
        rcases hq with hq | hq | hq
        · rw [h1] at hq; exact Bool.noConfusion hq
        · exact absurd hq h2
        · exact absurd hq h3
    refine ⟨_, frameworkEvents (resolved info details), hrun, hrun1, rfl, Or.inr rfl, ?_, ?_, ?_⟩
    · intro e he
      simp only [frameworkEvents, List.mem_cons, List.mem_singleton, List.not_mem_nil,
        or_false] at he
      rcases he with he | he | he
      · rw [he]; exact hnot _ (Or.inl (below_append _ []  |> fun h => by simpa using h))
      · rw [he]; exact hnot _ (Or.inr (Or.inl rfl))
      · rw [he]; exact hnot _ (Or.inr (Or.inr rfl))
    · intro e he file text
      simp only [frameworkEvents, List.mem_cons, List.mem_singleton, List.not_mem_nil,
        or_false] at he
      rcases he with he | he | he <;> rw [he] <;> exact ⟨by simp, by simp⟩
    · intro p hp
      obtain ⟨h1, h2, h3⟩ := htarget p hp
      exact Find_frameworkDisk_other (resolved info details) w.disk p h1 h2 h3

set_option maxRecDepth 100000 in
/-- Witness of C8: `EasyCpp 1.0` of `withFramework` declares the library `Bar`,
which is neither resolved nor recorded. -/
theorem C8_framework_is_self_contained_witness :
    (AddPackage 1 requestEasyCpp { depList := ["x"] } emptyWorld).map (fun r => (r.1, r.2.log)) =
      some ({ depList := ["x"] },
        [ Event.delete ["EasyCpp"], Event.manifest [] "EasyCpp" "1.0",
          Event.fetch [] "EasyCpp" "git://easycpp" "e1" ]) ∧
    ∃ w' evs, AddPackage 3 requestEasyCpp { depList := ["x"] } emptyWorld =
        some ({ depList := ["x"] }, w') ∧
      AddPackage 1 requestEasyCpp { depList := ["x"] } emptyWorld =
        some ({ depList := ["x"] }, w') ∧
      w'.log = emptyWorld.log ++ evs ∧
      (evs = [] ∨ evs = [ Event.delete (requestEasyCpp.fix.root ++ ["EasyCpp"]),
                          Event.manifest requestEasyCpp.fix.root "EasyCpp" "1.0",
                          Event.fetch [] "EasyCpp" detailsEasyCpp.URL detailsEasyCpp.Revision ]) ∧
      (∀ e ∈ evs, below (requestEasyCpp.fix.root ++ ["Packages"]) e.target = false) ∧
      (∀ e ∈ evs, ∀ file text, e ≠ Event.create file ∧ e ≠ Event.write file text) ∧
      (∀ p, below (requestEasyCpp.fix.root ++ ["Packages"]) p = true →
        Find w'.disk p = Find emptyWorld.disk p) :=
  ⟨by rfl,
    C8_framework_is_self_contained 2 requestEasyCpp { depList := ["x"] } emptyWorld
      { Name := "EasyCpp", Type_ := "Framework", Versions := [detailsEasyCpp] } detailsEasyCpp
      rfl rfl⟩

/-! ## C9 -/

theorem Find_mkFolder (disk : Disk) (p q : Path) (h : q ≠ p) :
    Find (mkFolder disk p) q = Find disk q := by
  unfold mkFolder
  split
  · rfl
  · have hpq : ¬ p = q := fun e => h e.symm
    simp [Find, hpq]

theorem exist_congr (disk1 disk2 : Disk) (path : Path) (jName version : String)
    (h : Find disk1 (path ++ [jName]) = Find disk2 (path ++ [jName])) :
    exist disk1 path jName version = exist disk2 path jName version := by
  unfold exist
  rw [h]

theorem exist_mkFolder_interface (disk : Disk) (p : Path) (jName version : String) :
    exist (mkFolder disk p) p jName version = exist disk p jName version := by
  apply exist_congr
  apply Find_mkFolder
  simp

theorem exist_platformFolders (info : PackInfo) (disk : Disk) :
    exist (platformFolders info disk) (platformPath info).1 (info.name ++ ".json") info.version =
      exist disk (platformPath info).1 (info.name ++ ".json") info.version := by
  apply exist_congr
  unfold platformFolders platformPath
  by_cases hp : info.details.Platform = some "Linux"
  · simp only [hp, if_true]
    rw [Find_mkFolder, Find_mkFolder]
    · simp
    · simp
  · simp only [hp, if_false]

theorem exist_of_Find_manifest (disk : Disk) (path : Path) (name version : String)
    (h : Find disk (path ++ [name ++ ".json"]) =
      some (Dirent.file (manifestOf name version))) :
    exist disk path (name ++ ".json") version = true := by
  unfold exist
  rw [h]
  simp [manifestOf, List.lookup]

/-- One visit of a node of type `Lib`, `Exec` or `Interface` whose dependencies
are resolved: what `AddPackage` appends to the log after them, and that the
manifest records the requested version afterwards. -/
theorem visit_effects (fuel : Nat) (info : PackInfo) (dep : DepInfo) (w : World)
    (pack : Package) (details : VersionRecord) (dInfo : DepInfo) (w1 : World)
    (hl : lookup info.fix.packs info.name info.version = some (pack, details))
    (hr : recurses pack)
    (hdeps : CheckDependency (AddPackage fuel) (resolved info details) {} w = some (dInfo, w1)) :
    ∃ dep' w', AddPackage (fuel + 1) info dep w = some (dep', w') ∧
      ((info.fix.forceUpdate = false ∧
          exist w1.disk (destination pack (resolved info details)) (info.name ++ ".json")
            info.version = true) →
        w'.log = w1.log) ∧
      (¬ (info.fix.forceUpdate = false ∧
          exist w1.disk (destination pack (resolved info details)) (info.name ++ ".json")
            info.version = true) →
        w'.log = w1.log ++
          [ Event.manifest (destination pack (resolved info details)) info.name info.version,
            Event.delete (destination pack (resolved info details) ++ [info.name]),
            fetchOf pack (resolved info details),
            Event.create (destination pack (resolved info details) ++ [info.name ++ ".mk"]),
            Event.write (destination pack (resolved info details) ++ [info.name ++ ".mk"])
              (fragmentText pack (resolved info details) dInfo) ]) ∧
      exist w'.disk (destination pack (resolved info details)) (info.name ++ ".json")
        info.version = true := by
  rcases hr with hI | hA
  · have hdest : destination pack (resolved info details) = info.fix.package ++ ["Interface"] := by
      simp [destination, hI, resolved]
    have hfetch : fetchOf pack (resolved info details) =
        Event.fetch (info.fix.package ++ ["Interface"]) info.name details.URL details.Revision := by
      simp [fetchOf, destination, hI, resolved]
    have hex : exist (mkFolder w1.disk (info.fix.package ++ ["Interface"]))
        (info.fix.package ++ ["Interface"]) (info.name ++ ".json") info.version =
        exist w1.disk (info.fix.package ++ ["Interface"]) (info.name ++ ".json") info.version :=
      exist_mkFolder_interface _ _ _ _
    have htext : fragmentText pack (resolved info details) dInfo =
        InterfaceText info.name dInfo := by
      simp [fragmentText, hI, resolved]
    rw [hdest, hfetch, htext]
    by_cases hs : skips (placedInterface (resolved info details))
        (mkFolder w1.disk ((resolved info details).fix.package ++ ["Interface"]))
    · have hrun := AddInterface_skip (AddPackage fuel) _ dep _ _ _ hdeps hs
      rw [← AddPackage_interface fuel info dep w pack details hl hI] at hrun
      have hs2 : info.fix.forceUpdate = false ∧
          exist w1.disk (info.fix.package ++ ["Interface"]) (info.name ++ ".json")
            info.version = true := ⟨hs.1, hex ▸ hs.2⟩
      exact ⟨_, _, hrun, fun _ => rfl, fun h => absurd hs2 h, hs.2⟩
    · have hrun := AddInterface_install (AddPackage fuel) _ dep _ _ _ hdeps hs
      rw [← AddPackage_interface fuel info dep w pack details hl hI] at hrun
      have hs2 : ¬ (info.fix.forceUpdate = false ∧
          exist w1.disk (info.fix.package ++ ["Interface"]) (info.name ++ ".json")
            info.version = true) := fun h => hs ⟨h.1, hex.symm ▸ h.2⟩
      refine ⟨_, _, hrun, fun h => absurd h hs2, fun _ => ?_, ?_⟩
      · simp [installEvents, placedInterface, resolved]
      · apply exist_of_Find_manifest
        have hne : info.fix.package ++ ["Interface"] ++ [info.name ++ ".json"] ≠
            info.fix.package ++ ["Interface"] ++ [info.name ++ ".mk"] :=
          sibling_ne _ _ _ (mk_ne_json info.name).symm
        exact (Find_put_ne _ _ _ _ hne).trans
          (Find_installDisk (placedInterface (resolved info details)) _).1
  · have hnI : pack.Type_ ≠ "Interface" := by
      rcases hA with h | h <;> rw [h] <;> decide
    have hnF : pack.Type_ ≠ "Framework" := by
      rcases hA with h | h <;> rw [h] <;> decide
    have hdest : destination pack (resolved info details) =
        (platformPath (resolved info details)).1 := by
      simp [destination, hnI, hnF]
    have hfetch : fetchOf pack (resolved info details) =
        Event.fetch (platformPath (resolved info details)).1 info.name
          details.URL details.Revision := by
      simp [fetchOf, destination, hnI, hnF, resolved]
    have hex : exist (platformFolders (resolved info details) w1.disk)
        (platformPath (resolved info details)).1 (info.name ++ ".json") info.version =
        exist w1.disk (platformPath (resolved info details)).1 (info.name ++ ".json")
          info.version :=
      exist_platformFolders (resolved info details) w1.disk
    have htext : fragmentText pack (resolved info details) dInfo =
        AddText info.name (platformPath (resolved info details)).2 dInfo
          (decide (pack.Type_ = "Exec")) := by
      simp [fragmentText, hnI, resolved]
    rw [hdest, hfetch, htext]
    by_cases hs : skips (placed (resolved info details))
        (platformFolders (resolved info details) w1.disk)
    · have hrun := Add_skip (AddPackage fuel) _ (decide (pack.Type_ = "Exec")) dep _ _ _ hdeps hs
      rw [← AddPackage_add fuel info dep w pack details hl hA] at hrun
      have hs2 : info.fix.forceUpdate = false ∧
          exist w1.disk (platformPath (resolved info details)).1 (info.name ++ ".json")
            info.version = true := ⟨hs.1, hex ▸ hs.2⟩
      exact ⟨_, _, hrun, fun _ => rfl, fun h => absurd hs2 h, hs.2⟩
    · have hrun := Add_install (AddPackage fuel) _ (decide (pack.Type_ = "Exec")) dep _ _ _ hdeps hs
      rw [← AddPackage_add fuel info dep w pack details hl hA] at hrun
      have hs2 : ¬ (info.fix.forceUpdate = false ∧
          exist w1.disk (platformPath (resolved info details)).1 (info.name ++ ".json")
            info.version = true) := fun h => hs ⟨h.1, hex.symm ▸ h.2⟩
      refine ⟨_, _, hrun, fun h => absurd h hs2, fun _ => ?_, ?_⟩
      · simp [installEvents, placed, resolved]
      · apply exist_of_Find_manifest
        exact (Add_install_disk (resolved info details) _ _).1

set_option maxRecDepth 100000 in
/-- C9, counterexample: on the empty root with the force flag off, resolving
`A/1` of `diamond` reaches `D 1` twice (its name is collected twice, once
through `B` and once through `C`), but `D` is fetched once and its fragment
is written once: the second occurrence finds the manifest of the first. -/
theorem C9_counterexample :
    (AddPackage 3 (requestA false) {} emptyWorld).map (fun r => r.1.depList) =
      some ["D", "B", "D", "C"] ∧
    (AddPackage 3 (requestA false) {} emptyWorld).map (fun r => fetchCount "D" r.2.log) =
      some 1 ∧
    (AddPackage 3 (requestA false) {} emptyWorld).map
        (fun r => writeCount ["Packages", "D.mk"] r.2.log) =
      some 1 := by
  refine ⟨?_, ?_, ?_⟩ <;> rfl

/-- C9, amended: the resolver itself keeps no record of what it has resolved, so
every occurrence of a package of type `Lib`, `Exec` or `Interface` walks the
dependencies again and then runs `UpdatePackage`. With the force flag set
the occurrence appends its manifest write, deletion, fetch, fragment
creation and fragment write, whatever the disk holds. With the force flag
off it appends them only when the manifest at the destination does not
record the requested version, and nothing when it does. After either, the
manifest records the requested version, so the next occurrence with the
force flag off is skipped unless the manifest was changed in between. -/
theorem C9_each_occurrence_checks_the_manifest (fuel : Nat) (info : PackInfo) (dep : DepInfo)
    (w : World) (pack : Package) (details : VersionRecord) (dInfo : DepInfo) (w1 : World)
    (hl : lookup info.fix.packs info.name info.version = some (pack, details))
    (hr : recurses pack)
    (hdeps : CheckDependency (AddPackage fuel) (resolved info details) {} w = some (dInfo, w1)) :
    ∃ dep' w' text, AddPackage (fuel + 1) info dep w = some (dep', w') ∧
      (info.fix.forceUpdate = true ∨
          exist w1.disk (destination pack (resolved info details)) (info.name ++ ".json")
            info.version = false →
        w'.log = w1.log ++
          [ Event.manifest (destination pack (resolved info details)) info.name info.version,
            Event.delete (destination pack (resolved info details) ++ [info.name]),
            fetchOf pack (resolved info details),
            Event.create (destination pack (resolved info details) ++ [info.name ++ ".mk"]),
            Event.write (destination pack (resolved info details) ++ [info.name ++ ".mk"])
              text ]) ∧
      (info.fix.forceUpdate = false →
        exist w1.disk (destination pack (resolved info details)) (info.name ++ ".json")
          info.version = true →
        w'.log = w1.log) ∧
      exist w'.disk (destination pack (resolved info details)) (info.name ++ ".json")
        info.version = true := by
  obtain ⟨dep', w', hrun, hskip, hinst, hafter⟩ :=
    visit_effects fuel info dep w pack details dInfo w1 hl hr hdeps
  refine ⟨dep', w', fragmentText pack (resolved info details) dInfo, hrun, ?_,
    fun h1 h2 => hskip ⟨h1, h2⟩, hafter⟩
  intro h
  apply hinst
  rintro ⟨h1, h2⟩
  rcases h with h | h
  · rw [h1] at h; exact Bool.noConfusion h
  · rw [h2] at h; exact Bool.noConfusion h

set_option maxRecDepth 100000 in
/-- Witness of C9 (amended): the second occurrence of `D 1` while `A/1` of
`diamond` is resolved on the empty root with the force flag off appends
nothing. Over the whole run `D` is fetched and its fragment written once
with the force flag off, and twice with the force flag set. -/
theorem C9_each_occurrence_checks_the_manifest_witness :
    CheckDependency (AddPackage 0) (resolved requestD detailsD) {} secondVisitD =
      some ({}, secondVisitD) ∧
    exist secondVisitD.disk ["Packages"] "D.json" "1" = true ∧
    (AddPackage 3 (requestA false) {} emptyWorld).map
        (fun r => (fetchCount "D" r.2.log, writeCount ["Packages", "D.mk"] r.2.log)) =
      some (1, 1) ∧
    (AddPackage 3 (requestA true) {} emptyWorld).map
        (fun r => (fetchCount "D" r.2.log, writeCount ["Packages", "D.mk"] r.2.log)) =
      some (2, 2) ∧
    ∃ dep' w' text, AddPackage 1 requestD {} secondVisitD = some (dep', w') ∧
      (requestD.fix.forceUpdate = true ∨
          exist secondVisitD.disk ["Packages"] "D.json" "1" = false →
        w'.log = secondVisitD.log ++
          [ Event.manifest ["Packages"] "D" "1", Event.delete ["Packages", "D"],
            Event.fetch ["Packages"] "D" "git://d" "d1", Event.create ["Packages", "D.mk"],
            Event.write ["Packages", "D.mk"] text ]) ∧
      (requestD.fix.forceUpdate = false →
        exist secondVisitD.disk ["Packages"] "D.json" "1" = true →
        w'.log = secondVisitD.log) ∧
      exist w'.disk ["Packages"] "D.json" "1" = true :=
  have hdeps : CheckDependency (AddPackage 0) (resolved requestD detailsD) {} secondVisitD =
      some ({}, secondVisitD) := by
    rfl
  ⟨hdeps, by rfl, by rfl, by rfl,
    C9_each_occurrence_checks_the_manifest 0 requestD {} secondVisitD
      { Name := "D", Type_ := "Lib", Versions := [detailsD] } detailsD {} secondVisitD
      rfl (Or.inr (Or.inl rfl)) hdeps⟩

/-! ## C10 -/

theorem collectLoop_unique (packs : List Package) (m n : Nat) (deps : List Dependency)
    (dInfo r1 r2 : DepInfo)
    (h1 : collectLoop (collect packs m) deps dInfo = some r1)
    (h2 : collectLoop (collect packs n) deps dInfo = some r2) : r1 = r2 := by
  have e1 := collectLoop_mono (collect packs m) (collect packs (max m n))
    (fun name version d h => collect_le packs m _ (le_max_left m n) name version d h) _ _ _ h1
  have e2 := collectLoop_mono (collect packs n) (collect packs (max m n))
    (fun name version d h => collect_le packs n _ (le_max_right m n) name version d h) _ _ _ h2
  rw [e1] at e2
  exact Option.some.inj e2

/-- What a returned call hands back is the caller's `DepInfo` followed by lists
that `collect` reads off the catalog. -/
theorem collect_of_AddPackage (fuel : Nat) (info : PackInfo) (dep : DepInfo) (w : World)
    (r : DepInfo × World) (h : AddPackage fuel info dep w = some r) :
    ∃ d, collect info.fix.packs fuel info.name info.version = some d ∧ r.1 = dep.append d := by
  have hc := AddPackage_collect info.fix.packs fuel info dep w rfl
  cases hcol : collect info.fix.packs fuel info.name info.version with
  | none =>
    rw [hc.1 hcol] at h
    exact Option.noConfusion h
  | some d =>
    obtain ⟨w', hw'⟩ := hc.2 d hcol
    rw [hw'] at h
    exact ⟨d, rfl, by rw [← Option.some.inj h]⟩

set_option maxRecDepth 100000 in
/-- C10, counterexample: two runs of the request `Foo/1.0` on the catalog
`fooBar`, both with the force flag off. On the empty root the fragment
`Foo.mk` is written, with the text `fooText`. On a disk that holds the two
manifests and nothing else, no fragment is written and none is on the disk
afterwards. The lists handed back are the same in both runs. -/
theorem C10_counterexample :
    (AddPackage 2 requestFoo {} emptyWorld).map
        (fun r => (r.1, writeCount ["Packages", "Foo.mk"] r.2.log,
          Find r.2.disk ["Packages", "Foo.mk"])) =
      some ({ depList := ["Bar"], sLibList := ["Bar"], dLibList := [] }, 1,
        some (Dirent.file (Content.text fooText))) ∧
    (AddPackage 2 requestFoo {} manifestsOnly).map
        (fun r => (r.1, writeCount ["Packages", "Foo.mk"] r.2.log,
          Find r.2.disk ["Packages", "Foo.mk"])) =
      some ({ depList := ["Bar"], sLibList := ["Bar"], dLibList := [] }, 0, none) := by
  constructor <;> rfl

/-- C10, amended: two runs of the same request on the same catalog, whatever
the fuel, the disk, the force flag and the install root of each. Both hand
back the caller's `DepInfo` followed by the same lists `d`. For a package of
type `Lib`, `Exec` or `Interface`, both collect the same lists `dInfo` from
the dependencies, and each run either appends nothing after its dependencies
(force flag off and manifest of the requested version found) or appends its
manifest write, deletion, fetch, fragment creation and the write of one and
the same text: whether the fragment is emitted depends on the disk and the
force flag, its text does not. -/
theorem C10_same_lists_same_text (fuel1 fuel2 : Nat) (info1 info2 : PackInfo)
    (dep1 dep2 : DepInfo) (w1 w2 : World) (r1 r2 : DepInfo × World)
    (hpacks : info2.fix.packs = info1.fix.packs) (hname : info2.name = info1.name)
    (hversion : info2.version = info1.version)
    (h1 : AddPackage (fuel1 + 1) info1 dep1 w1 = some r1)
    (h2 : AddPackage (fuel2 + 1) info2 dep2 w2 = some r2) :
    (∃ d, r1.1 = dep1.append d ∧ r2.1 = dep2.append d) ∧
    (∀ pack details, lookup info1.fix.packs info1.name info1.version = some (pack, details) →
      recurses pack →
      ∃ dInfo wa wb,
        CheckDependency (AddPackage fuel1) (resolved info1 details) {} w1 = some (dInfo, wa) ∧
        CheckDependency (AddPackage fuel2) (resolved info2 details) {} w2 = some (dInfo, wb) ∧
        ((info1.fix.forceUpdate = false ∧
            exist wa.disk (destination pack (resolved info1 details)) (info1.name ++ ".json")
              info1.version = true) →
          r1.2.log = wa.log) ∧
        (¬ (info1.fix.forceUpdate = false ∧
            exist wa.disk (destination pack (resolved info1 details)) (info1.name ++ ".json")
              info1.version = true) →
          r1.2.log = wa.log ++
            [ Event.manifest (destination pack (resolved info1 details)) info1.name info1.version,
              Event.delete (destination pack (resolved info1 details) ++ [info1.name]),
              fetchOf pack (resolved info1 details),
              Event.create (destination pack (resolved info1 details) ++ [info1.name ++ ".mk"]),
              Event.write (destination pack (resolved info1 details) ++ [info1.name ++ ".mk"])
                (fragmentText pack (resolved info1 details) dInfo) ]) ∧
        ((info2.fix.forceUpdate = false ∧
            exist wb.disk (destination pack (resolved info2 details)) (info1.name ++ ".json")
              info1.version = true) →
          r2.2.log = wb.log) ∧
        (¬ (info2.fix.forceUpdate = false ∧
            exist wb.disk (destination pack (resolved info2 details)) (info1.name ++ ".json")
              info1.version = true) →
          r2.2.log = wb.log ++
            [ Event.manifest (destination pack (resolved info2 details)) info1.name info1.version,
              Event.delete (destination pack (resolved info2 details) ++ [info1.name]),
              fetchOf pack (resolved info2 details),
              Event.create (destination pack (resolved info2 details) ++ [info1.name ++ ".mk"]),
              Event.write (destination pack (resolved info2 details) ++ [info1.name ++ ".mk"])
                (fragmentText pack (resolved info1 details) dInfo) ])) := by
  constructor
  · obtain ⟨d1, hc1, hr1⟩ := collect_of_AddPackage _ _ _ _ _ h1
    obtain ⟨d2, hc2, hr2⟩ := collect_of_AddPackage _ _ _ _ _ h2
    rw [hpacks, hname, hversion] at hc2
    have hd := collect_unique _ _ _ _ _ _ _ hc1 hc2
    exact ⟨d1, hr1, by rw [hr2, hd]⟩
  · intro pack details hl hr
    have hl2 : lookup info2.fix.packs info2.name info2.version = some (pack, details) := by
      rw [hpacks, hname, hversion]; exact hl
    obtain ⟨dA, wa, hdA⟩ := deps_of_AddPackage fuel1 info1 dep1 w1 pack details r1 hl hr h1
    obtain ⟨dB, wb, hdB⟩ := deps_of_AddPackage fuel2 info2 dep2 w2 pack details r2 hl2 hr h2
    have hcA := CheckDependency_collect fuel1 (resolved info1 details) {} dA w1 wa hdA
    have hcB := CheckDependency_collect fuel2 (resolved info2 details) {} dB w2 wb hdB
    have hcB' : collectLoop (collect info1.fix.packs fuel2) details.Dependency {} = some dB := by
      have : (resolved info2 details).fix.packs = info1.fix.packs := hpacks
      rw [this] at hcB; exact hcB
    have hAB : dB = dA := collectLoop_unique _ _ _ _ _ _ _ hcB' hcA
    subst hAB
    obtain ⟨da, wa', hrunA, hskipA, hinstA, _⟩ :=
      visit_effects fuel1 info1 dep1 w1 pack details dB wa hl hr hdA
    obtain ⟨db, wb', hrunB, hskipB, hinstB, _⟩ :=
      visit_effects fuel2 info2 dep2 w2 pack details dB wb hl2 hr hdB
    rw [h1] at hrunA
    rw [h2] at hrunB
    have eA : r1.2 = wa' := by rw [Option.some.inj hrunA]
    have eB : r2.2 = wb' := by rw [Option.some.inj hrunB]
    have htext : fragmentText pack (resolved info2 details) dB =
        fragmentText pack (resolved info1 details) dB := by
      by_cases hp : details.Platform = some "Linux" <;>
        simp [fragmentText, platformPath, resolved, hname, hp]
    rw [hname, hversion] at hskipB
    rw [hname, hversion, htext] at hinstB
    rw [eA, eB]
    exact ⟨dB, wa, wb, hdA, hdB, hskipA, hinstA, hskipB, hinstB⟩

set_option maxRecDepth 100000 in
/-- Witness of C10 (amended): the request `Foo/1.0` of `fooBar` run on the empty
root with fuel 2 and on the disk `manifestsOnly` with fuel 5. -/
theorem C10_same_lists_same_text_witness :
    AddPackage (1 + 1) requestFoo {} emptyWorld =
      some ({ depList := ["Bar"], sLibList := ["Bar"], dLibList := [] }, afterFoo) ∧
    AddPackage (4 + 1) requestFoo { depList := ["x"] } manifestsOnly =
      some ({ depList := ["x", "Bar"], sLibList := ["Bar"], dLibList := [] }, manifestsOnly) ∧
    ((∃ d, ({ depList := ["Bar"], sLibList := ["Bar"], dLibList := [] } : DepInfo) =
          DepInfo.append {} d ∧
        ({ depList := ["x", "Bar"], sLibList := ["Bar"], dLibList := [] } : DepInfo) =
          DepInfo.append { depList := ["x"] } d) ∧
    (∀ pack details, lookup fooBar "Foo" "1.0" = some (pack, details) →
      recurses pack →
      ∃ dInfo wa wb,
        CheckDependency (AddPackage 1) (resolved requestFoo details) {} emptyWorld =
          some (dInfo, wa) ∧
        CheckDependency (AddPackage 4) (resolved requestFoo details) {} manifestsOnly =
          some (dInfo, wb) ∧
        ((false = false ∧
            exist wa.disk (destination pack (resolved requestFoo details)) ("Foo" ++ ".json")
              "1.0" = true) →
          afterFoo.log = wa.log) ∧
        (¬ (false = false ∧
            exist wa.disk (destination pack (resolved requestFoo details)) ("Foo" ++ ".json")
              "1.0" = true) →
          afterFoo.log = wa.log ++
            [ Event.manifest (destination pack (resolved requestFoo details)) "Foo" "1.0",
              Event.delete (destination pack (resolved requestFoo details) ++ ["Foo"]),
              fetchOf pack (resolved requestFoo details),
              Event.create (destination pack (resolved requestFoo details) ++ ["Foo" ++ ".mk"]),
              Event.write (destination pack (resolved requestFoo details) ++ ["Foo" ++ ".mk"])
                (fragmentText pack (resolved requestFoo details) dInfo) ]) ∧
        ((false = false ∧
            exist wb.disk (destination pack (resolved requestFoo details)) ("Foo" ++ ".json")
              "1.0" = true) →
          manifestsOnly.log = wb.log) ∧
        (¬ (false = false ∧
            exist wb.disk (destination pack (resolved requestFoo details)) ("Foo" ++ ".json")
              "1.0" = true) →
          manifestsOnly.log = wb.log ++
            [ Event.manifest (destination pack (resolved requestFoo details)) "Foo" "1.0",
              Event.delete (destination pack (resolved requestFoo details) ++ ["Foo"]),
              fetchOf pack (resolved requestFoo details),
              Event.create (destination pack (resolved requestFoo details) ++ ["Foo" ++ ".mk"]),
              Event.write (destination pack (resolved requestFoo details) ++ ["Foo" ++ ".mk"])
                (fragmentText pack (resolved requestFoo details) dInfo) ]))) :=
  have h1 : AddPackage (1 + 1) requestFoo {} emptyWorld =
      some ({ depList := ["Bar"], sLibList := ["Bar"], dLibList := [] }, afterFoo) := by
    rfl
  have h2 : AddPackage (4 + 1) requestFoo { depList := ["x"] } manifestsOnly =
      some ({ depList := ["x", "Bar"], sLibList := ["Bar"], dLibList := [] }, manifestsOnly) := by
    rfl
  ⟨h1, h2,
    C10_same_lists_same_text 1 4 requestFoo requestFoo {} { depList := ["x"] }
      emptyWorld manifestsOnly _ _ rfl rfl rfl h1 h2⟩

/-! ## C11 -/

set_option maxRecDepth 100000 in
/-- C11: the framework entry of `withFramework` resolved with the install root
`./work`. `AddFramework` deletes `work/EasyCpp` and writes the manifest into
`work`, but the clone runs in the working directory: the source arrives in
`./EasyCpp`, and `work/EasyCpp` holds nothing afterwards. The fetched path
is the deleted one only when the install root is the working directory. -/
theorem C11_framework_is_cloned_into_the_working_directory :
    (AddPackage 1 requestEasyCppWork {} oldFramework).map
        (fun r => (r.2.log, Find r.2.disk ["work", "EasyCpp"], Find r.2.disk ["EasyCpp"])) =
      some ([ Event.delete ["work", "EasyCpp"],
              Event.manifest ["work"] "EasyCpp" "1.0",
              Event.fetch [] "EasyCpp" "git://easycpp" "e1" ],
            none, some (Dirent.checkout "git://easycpp" "e1")) ∧
    (Event.fetch [] "EasyCpp" "git://easycpp" "e1").target ≠
      (Event.delete ["work", "EasyCpp"]).target ∧
    (AddPackage 1 requestEasyCpp {} emptyWorld).map (fun r => r.2.log) =
      some [ Event.delete ["EasyCpp"],
             Event.manifest [] "EasyCpp" "1.0",
             Event.fetch [] "EasyCpp" "git://easycpp" "e1" ] := by
  refine ⟨by rfl, by decide, by rfl⟩

/-! ## C12 -/

/-- C12: an `Interface` version record that is installed, whatever its
`Platform`, the `Packages` folder being the one `Start` creates under the
install root. Manifest, payload and fragment are placed in
`Packages/Interface` under the root, and the text of the fragment is the
include-path export for `$(PACKAGES)/Interface/` followed by the name, the
`.PHONY` line and the target line with the collected dependency names in
order, and nothing else: no `SLIBS`, no `DLIBS`, no recipe. -/
theorem C12_interface_fragment (fuel : Nat) (info : PackInfo) (dep : DepInfo)
    (w : World) (pack : Package) (details : VersionRecord) (dInfo : DepInfo) (w1 : World)
    (hl : lookup info.fix.packs info.name info.version = some (pack, details))
    (hI : pack.Type_ = "Interface")
    (hpackage : info.fix.package = info.fix.root ++ ["Packages"])
    (hdeps : CheckDependency (AddPackage fuel) (resolved info details) {} w = some (dInfo, w1))
    (hinst : ¬ skips (placedInterface (resolved info details))
      (mkFolder w1.disk ((resolved info details).fix.package ++ ["Interface"]))) :
    ∃ w' text, AddPackage (fuel + 1) info dep w = some (dep, w') ∧
      text = "export FLAGS += \\\n" ++ "  -I $(PACKAGES)/Interface/" ++ info.name ++ "\n\n"
        ++ ".PHONY: " ++ info.name ++ "\n"
        ++ info.name ++ ": "
        ++ String.join (dInfo.depList.map (fun d => " " ++ d)) ∧
      w'.log = w1.log ++
        [ Event.manifest (info.fix.root ++ ["Packages", "Interface"]) info.name info.version,
          Event.delete (info.fix.root ++ ["Packages", "Interface"] ++ [info.name]),
          Event.fetch (info.fix.root ++ ["Packages", "Interface"]) info.name
            details.URL details.Revision,
          Event.create (info.fix.root ++ ["Packages", "Interface"] ++ [info.name ++ ".mk"]),
          Event.write (info.fix.root ++ ["Packages", "Interface"] ++ [info.name ++ ".mk"])
            text ] ∧
      Find w'.disk (info.fix.root ++ ["Packages", "Interface"] ++ [info.name ++ ".json"]) =
        some (Dirent.file (manifestOf info.name info.version)) ∧
      Find w'.disk (info.fix.root ++ ["Packages", "Interface"] ++ [info.name]) =
        some (Dirent.checkout details.URL details.Revision) ∧
      Find w'.disk (info.fix.root ++ ["Packages", "Interface"] ++ [info.name ++ ".mk"]) =
        some (Dirent.file (Content.text text)) := by
  have hrun := AddInterface_install (AddPackage fuel) _ dep _ _ _ hdeps hinst
  rw [← AddPackage_interface fuel info dep w pack details hl hI] at hrun
  have hdir : info.fix.root ++ ["Packages", "Interface"] = info.fix.package ++ ["Interface"] := by
    rw [hpackage]; simp
  have hdisk := Find_installDisk (placedInterface (resolved info details))
    (mkFolder w1.disk ((resolved info details).fix.package ++ ["Interface"]))
  refine ⟨_, InterfaceText info.name dInfo, hrun, rfl, ?_, ?_, ?_, ?_⟩
  · rw [hdir]; simp [installEvents, placedInterface, resolved]
  · rw [hdir]
    exact (Find_put_ne _ _ _ _ (sibling_ne _ _ _ (mk_ne_json info.name).symm)).trans hdisk.1
  · rw [hdir]
    exact (Find_put_ne _ _ _ _ (sibling_ne _ _ _ (mk_ne_self info.name).symm)).trans hdisk.2.1
  · rw [hdir]
    exact Find_put_self _ _ _

set_option maxRecDepth 100000 in
/-- Witness of C12: `Api 1` of `interfaces` has `Platform` `Linux` and declares
`d1` static; it goes to `Packages/Interface` and its fragment ends with the
target line `Api:  d1`. -/
theorem C12_interface_fragment_witness :
    requestApi.fix.package = requestApi.fix.root ++ ["Packages"] ∧
    CheckDependency (AddPackage 1) (resolved requestApi detailsApi) {} emptyWorld =
      some ({ depList := ["d1"], sLibList := ["d1"], dLibList := [] }, afterDepsApi) ∧
    ¬ skips (placedInterface (resolved requestApi detailsApi))
      (mkFolder afterDepsApi.disk ((resolved requestApi detailsApi).fix.package ++ ["Interface"])) ∧
    ∃ w' text, AddPackage 2 requestApi {} emptyWorld = some ({}, w') ∧
      text = "export FLAGS += \\\n  -I $(PACKAGES)/Interface/Api\n\n.PHONY: Api\nApi:  d1" ∧
      w'.log = afterDepsApi.log ++
        [ Event.manifest ["Packages", "Interface"] "Api" "1",
          Event.delete ["Packages", "Interface", "Api"],
          Event.fetch ["Packages", "Interface"] "Api" "git://api" "a1",
          Event.create ["Packages", "Interface", "Api.mk"],
          Event.write ["Packages", "Interface", "Api.mk"] text ] ∧
      Find w'.disk ["Packages", "Interface", "Api.json"] =
        some (Dirent.file (manifestOf "Api" "1")) ∧
      Find w'.disk ["Packages", "Interface", "Api"] =
        some (Dirent.checkout "git://api" "a1") ∧
      Find w'.disk ["Packages", "Interface", "Api.mk"] =
        some (Dirent.file (Content.text text)) :=
  have hdeps : CheckDependency (AddPackage 1) (resolved requestApi detailsApi) {} emptyWorld =
      some ({ depList := ["d1"], sLibList := ["d1"], dLibList := [] }, afterDepsApi) := by
    rfl
  have hinst : ¬ skips (placedInterface (resolved requestApi detailsApi))
      (mkFolder afterDepsApi.disk
        ((resolved requestApi detailsApi).fix.package ++ ["Interface"])) := by
    decide
  ⟨rfl, hdeps, hinst,
    C12_interface_fragment 1 requestApi {} emptyWorld
      { Name := "Api", Type_ := "Interface", Versions := [detailsApi] } detailsApi _ afterDepsApi
      rfl rfl rfl hdeps hinst⟩

/-! ## Termination -/

/-- Only pairs made of the name of a catalog entry and one of its versions have
a successor in the dependency relation; they are finitely many. -/
theorem dependsOn_source_finite (packs : List Package) :
    Set.Finite { a : String × String | ∃ b, dependsOn packs a b } := by
  apply Set.Finite.subset
    (List.finite_toSet
      (packs.flatMap (fun p => p.Versions.map (fun d => (p.Name, d.Version)))))
  rintro ⟨n, v⟩ ⟨b, pack, details, hl, _, _⟩
  obtain ⟨h1, h2, h3, h4⟩ := lookup_some packs n v pack details hl
  simp only [Set.mem_setOf_eq, List.mem_flatMap, List.mem_map, Prod.mk.injEq]
  exact ⟨pack, h1, details, h2, h3, h4⟩

/-- On an acyclic catalog the dependency relation is well-founded. -/
theorem dependsOn_wellFounded (packs : List Package) (h : Acyclic packs) :
    WellFounded (fun b a => dependsOn packs a b) := by
  have hsub : Subrelation (fun b a => dependsOn packs a b)
      (Relation.TransGen (fun b a => dependsOn packs a b)) :=
    fun hab => Relation.TransGen.single hab
  refine Subrelation.wf hsub ?_
  have hflip : ∀ a b, Relation.TransGen (fun b a => dependsOn packs a b) a b →
      Relation.TransGen (dependsOn packs) b a := fun a b hab =>
    Relation.transGen_swap.mp hab
  haveI : IsStrictOrder (String × String)
      (Relation.TransGen (fun b a => dependsOn packs a b)) :=
    { irrefl := fun a haa => h a (hflip a a haa)
      trans := fun _ _ _ hab hbc => Relation.TransGen.trans hab hbc }
  refine RelEmbedding.wellFounded_iff_no_descending_seq.2 ⟨fun f => ?_⟩
  have hrange : Set.range f ⊆ { a : String × String | ∃ b, dependsOn packs a b } := by
    rintro _ ⟨n, rfl⟩
    have hstep : Relation.TransGen (fun b a => dependsOn packs a b) (f (n + 1)) (f n) :=
      f.map_rel_iff.mpr (Nat.lt_succ_self n)
    have hfwd := hflip _ _ hstep
    rcases Relation.TransGen.head'_iff.mp hfwd with ⟨c, hc, _⟩
    exact ⟨c, hc⟩
  exact Set.infinite_range_of_injective f.injective
    ((dependsOn_source_finite packs).subset hrange)

theorem uniform_fuel (P : Dependency → Nat → Prop) :
    ∀ deps : List Dependency, (∀ dep ∈ deps, ∃ N, ∀ fuel, N ≤ fuel → P dep fuel) →
      ∃ N, ∀ dep ∈ deps, ∀ fuel, N ≤ fuel → P dep fuel := by
  intro deps
  induction deps with
  | nil => intro _; exact ⟨0, fun dep hdep => absurd hdep (List.not_mem_nil dep)⟩
  | cons d rest ih =>
    intro h
    obtain ⟨N1, h1⟩ := h d (List.mem_cons_self _ _)
    obtain ⟨N2, h2⟩ := ih (fun x hx => h x (List.mem_cons_of_mem _ hx))
    refine ⟨max N1 N2, fun dep hdep fuel hfuel => ?_⟩
    rcases List.mem_cons.mp hdep with rfl | hmem
    · exact h1 fuel (le_trans (le_max_left _ _) hfuel)
    · exact h2 dep hmem fuel (le_trans (le_max_right _ _) hfuel)

/-- On an acyclic catalog `collect` returns for every request once the fuel is
large enough. -/
theorem collect_total_of_acyclic (packs : List Package) (h : Acyclic packs) :
    ∀ a : String × String, ∃ N, ∀ fuel, N ≤ fuel → ∃ d, collect packs fuel a.1 a.2 = some d := by
  intro a
  induction a using (dependsOn_wellFounded packs h).induction with
  | _ a ih =>
    cases hl : lookup packs a.1 a.2 with
    | none =>
      refine ⟨1, fun fuel hfuel => ?_⟩
      obtain ⟨f, rfl⟩ : ∃ f, fuel = f + 1 := ⟨fuel - 1, by omega⟩
      exact ⟨{}, collect_miss packs f _ _ hl⟩
    | some found =>
      obtain ⟨pack, details⟩ := found
      by_cases hr : recurses pack
      · have hdeps : ∀ dep ∈ details.Dependency,
            ∃ N, ∀ fuel, N ≤ fuel → ∃ d, collect packs fuel dep.Name dep.Version = some d :=
          fun dep hdep => ih (dep.Name, dep.Version) ⟨pack, details, hl, hr, dep, hdep, rfl⟩
        obtain ⟨N, hN⟩ := uniform_fuel
          (fun dep fuel => ∃ d, collect packs fuel dep.Name dep.Version = some d)
          details.Dependency hdeps
        refine ⟨N + 1, fun fuel hfuel => ?_⟩
        obtain ⟨f, rfl⟩ : ∃ f, fuel = f + 1 := ⟨fuel - 1, by omega⟩
        obtain ⟨r, hr2⟩ := collectLoop_total (collect packs f) details.Dependency
          (fun dep hdep => hN dep hdep f (by omega)) {}
        rcases hr with hI | hA
        · exact ⟨{}, by rw [collect_interface packs f _ _ pack details hl hI, hr2]; rfl⟩
        · exact ⟨r, by rw [collect_add packs f _ _ pack details hl hA, hr2]⟩
      · refine ⟨1, fun fuel hfuel => ?_⟩
        obtain ⟨f, rfl⟩ : ∃ f, fuel = f + 1 := ⟨fuel - 1, by omega⟩
        exact ⟨{}, collect_no_emitter packs f _ _ pack details hl hr⟩

/-- A catalog with a rank that decreases along the declarations is acyclic. -/
theorem acyclic_of_rankedBy (packs : List Package) (rank : String → String → Nat)
    (h : RankedBy packs rank) : Acyclic packs := by
  have hlt : ∀ a b, Relation.TransGen (dependsOn packs) a b → rank b.1 b.2 < rank a.1 a.2 := by
    intro a b hab
    induction hab with
    | single hstep =>
      obtain ⟨pack, details, hl, hr, dep, hdep, rfl⟩ := hstep
      exact h _ _ pack details hl hr dep hdep
    | tail _ hstep ih =>
      obtain ⟨pack, details, hl, hr, dep, hdep, rfl⟩ := hstep
      exact lt_trans (h _ _ pack details hl hr dep hdep) ih
  intro a haa
  exact lt_irrefl _ (hlt a a haa)

/-! ## C18 -/

/-- C18: termination without a visited set. On a catalog whose dependency
declarations form an acyclic graph over (name, version) pairs, the
dependency relation the recursion follows is well-founded, and for every
request there is an amount of fuel from which on `AddPackage` returns,
whatever the caller's lists, the disk, the log, the force flag and the
install root. The recursion does not pass through an unmatched pair or a
`Framework` entry: there `AddPackage` returns with fuel for a single call,
on every catalog. -/
theorem C18_resolution_terminates (packs : List Package) (h : Acyclic packs) :
    WellFounded (fun b a => dependsOn packs a b) ∧
    (∀ name version, ∃ N, ∀ fuel, N ≤ fuel →
      ∀ info : PackInfo, info.fix.packs = packs → info.name = name → info.version = version →
        ∀ dep w, ∃ r, AddPackage fuel info dep w = some r) ∧
    (∀ info : PackInfo, info.fix.packs = packs →
      (lookup packs info.name info.version = none ∨
        ∃ pack details, lookup packs info.name info.version = some (pack, details) ∧
          pack.Type_ = "Framework") →
      ∀ dep w, ∃ r, AddPackage 1 info dep w = some r) := by
  refine ⟨dependsOn_wellFounded packs h, ?_, ?_⟩
  · intro name version
    obtain ⟨N, hN⟩ := collect_total_of_acyclic packs h (name, version)
    refine ⟨N, fun fuel hfuel info hpacks hname hversion dep w => ?_⟩
    obtain ⟨d, hd⟩ := hN fuel hfuel
    have hd' : collect packs fuel info.name info.version = some d := by
      rw [hname, hversion]; exact hd
    obtain ⟨w', hw'⟩ := (AddPackage_collect packs fuel info dep w hpacks).2 d hd'
    exact ⟨_, hw'⟩
  · intro info hpacks hcase dep w
    rcases hcase with hnone | ⟨pack, details, hl, hF⟩
    · refine ⟨(dep, w), ?_⟩
      rw [AddPackage_succ, hpacks, hnone]
    · rw [← hpacks] at hl
      exact ⟨_, AddPackage_framework 0 info dep w pack details hl hF⟩

/-- Witness of C18: the catalog `fooBar` is acyclic; the request `Foo/1.0` is
resolved from some amount of fuel on, and the unmatched request `Foo/3.0`
with fuel for a single call. -/
theorem C18_resolution_terminates_witness :
    Acyclic fooBar ∧
    WellFounded (fun b a => dependsOn fooBar a b) ∧
    (∀ name version, ∃ N, ∀ fuel, N ≤ fuel →
      ∀ info : PackInfo, info.fix.packs = fooBar → info.name = name → info.version = version →
        ∀ dep w, ∃ r, AddPackage fuel info dep w = some r) ∧
    (∀ info : PackInfo, info.fix.packs = fooBar →
      (lookup fooBar info.name info.version = none ∨
        ∃ pack details, lookup fooBar info.name info.version = some (pack, details) ∧
          pack.Type_ = "Framework") →
      ∀ dep w, ∃ r, AddPackage 1 info dep w = some r) :=
  have hacyclic : Acyclic fooBar :=
    acyclic_of_rankedBy fooBar rankFooBar (rankedBy_of_all _ _ (by decide))
  ⟨hacyclic, C18_resolution_terminates fooBar hacyclic⟩

/-! ## C13 -/

theorem DepInfo.append_assoc (a b c : DepInfo) :
    (a.append b).append c = a.append (b.append c) := by
  simp [DepInfo.append, List.append_assoc]

theorem classify_eq_append (dep : Dependency) (d : DepInfo) :
    classify dep d = d.append (specNameLists dep) := by
  by_cases hS : dep.LinkType = some "Static"
  · have hD : dep.LinkType ≠ some "Dynamic" := by rw [hS]; decide
    simp [classify, specNameLists, DepInfo.append, hS]
  · by_cases hD : dep.LinkType = some "Dynamic"
    · simp [classify, specNameLists, DepInfo.append, hD]
    · simp [classify, specNameLists, DepInfo.append, hS, hD]

/-- The loop of `CheckDependency` computes the concatenation of the
specification, after what was collected before. -/
theorem collectLoop_eq_specConcat (c : String → String → Option DepInfo)
    (lists : String → String → DepInfo) :
    ∀ deps, (∀ dep ∈ deps, ∀ d, c dep.Name dep.Version = some d → lists dep.Name dep.Version = d) →
      ∀ dInfo r, collectLoop c deps dInfo = some r → r = dInfo.append (specConcat lists deps) := by
  intro deps
  induction deps with
  | nil =>
    intro _ dInfo r hr
    simp only [collectLoop, Option.some.injEq] at hr
    rw [← hr, specConcat, DepInfo.append_empty]
  | cons dep rest ih =>
    intro h dInfo r hr
    cases hc : c dep.Name dep.Version with
    | none => simp [collectLoop, hc] at hr
    | some d =>
      simp only [collectLoop, hc] at hr
      have hrest := ih (fun x hx => h x (List.mem_cons_of_mem _ hx)) _ _ hr
      rw [hrest, classify_eq_append, specConcat, h dep (List.mem_cons_self _ _) d hc,
        DepInfo.append_assoc, DepInfo.append_assoc, DepInfo.append_assoc]

/-- What `collect` returns is what the specification describes. -/
theorem collect_eq_specCollected (packs : List Package) :
    ∀ fuel name version d, collect packs fuel name version = some d →
      specCollected packs fuel name version = d := by
  intro fuel
  induction fuel with
  | zero => intro name version d h; simp [collect] at h
  | succ fuel ih =>
    intro name version d h
    cases hl : lookup packs name version with
    | none =>
      rw [collect_miss packs fuel _ _ hl] at h
      simp [specCollected, hl, ← Option.some.inj h]
    | some found =>
      obtain ⟨pack, details⟩ := found
      by_cases hA : pack.Type_ = "Lib" ∨ pack.Type_ = "Exec"
      · rw [collect_add packs fuel _ _ pack details hl hA] at h
        have := collectLoop_eq_specConcat (collect packs fuel) (specCollected packs fuel)
          details.Dependency (fun dep _ d hd => ih _ _ d hd) {} d h
        rw [DepInfo.empty_append] at this
        simp only [specCollected, hl, hA, if_true]
        exact this.symm
      · have hspec : specCollected packs (fuel + 1) name version = {} := by
          simp only [specCollected, hl, hA, if_false]
        rw [hspec]
        by_cases hI : pack.Type_ = "Interface"
        · rw [collect_interface packs fuel _ _ pack details hl hI] at h
          cases hloop : collectLoop (collect packs fuel) details.Dependency {} with
          | none => simp [hloop] at h
          | some r =>
            simp only [hloop, Option.map_some', Option.some.injEq] at h
            exact h
        · have hr : ¬ recurses pack := by
            rintro (h | h | h)
            · exact hI h
            · exact hA (Or.inl h)
            · exact hA (Or.inr h)
          rw [collect_no_emitter packs fuel _ _ pack details hl hr] at h
          exact Option.some.inj h

theorem specConcat_position (lists : String → String → DepInfo) :
    ∀ deps : List Dependency, ∀ dep ∈ deps, ∃ pre post,
      (specConcat lists deps).depList =
        pre ++ (lists dep.Name dep.Version).depList ++ [dep.Name] ++ post := by
  intro deps
  induction deps with
  | nil => intro dep hdep; exact absurd hdep (List.not_mem_nil dep)
  | cons x rest ih =>
    intro dep hdep
    rcases List.mem_cons.mp hdep with rfl | hmem
    · exact ⟨[], (specConcat lists rest).depList, by
        simp [specConcat, DepInfo.append, specNameLists]⟩
    · obtain ⟨pre, post, h⟩ := ih dep hmem
      exact ⟨(lists x.Name x.Version).depList ++ [x.Name] ++ pre, post, by
        simp [specConcat, DepInfo.append, specNameLists, h, List.append_assoc]⟩

theorem collectLoop_some_mem (c : String → String → Option DepInfo) :
    ∀ deps dInfo r, collectLoop c deps dInfo = some r →
      ∀ dep ∈ deps, ∃ d, c dep.Name dep.Version = some d := by
  intro deps
  induction deps with
  | nil => intro _ _ _ dep hdep; exact absurd hdep (List.not_mem_nil dep)
  | cons x rest ih =>
    intro dInfo r hr dep hdep
    cases hc : c x.Name x.Version with
    | none => simp [collectLoop, hc] at hr
    | some d =>
      simp only [collectLoop, hc] at hr
      rcases List.mem_cons.mp hdep with rfl | hmem
      · exact ⟨d, hc⟩
      · exact ih _ _ hr dep hmem

/-- A transitive dependency through libraries is resolved whenever the package
is, and in the direct list of the package its name comes right after the
direct list of its own resolution. -/
theorem libPath_position (packs : List Package) (name version : String) (dep : Dependency)
    (hpath : LibPath packs name version dep) :
    ∀ fuel d, collect packs fuel name version = some d →
      (∃ d', collect packs fuel dep.Name dep.Version = some d') ∧
      ∃ pre post, d.depList =
        pre ++ (specCollected packs fuel dep.Name dep.Version).depList ++ [dep.Name] ++ post := by
  induction hpath with
  | direct name version pack details dep hl hA hmem =>
    intro fuel d hd
    cases fuel with
    | zero => simp [collect] at hd
    | succ f =>
      rw [collect_add packs f _ _ pack details hl hA] at hd
      obtain ⟨d', hd'⟩ := collectLoop_some_mem _ _ _ _ hd dep hmem
      have hd'' := collect_succ packs f _ _ d' hd'
      have hspec := collectLoop_eq_specConcat (collect packs f) (specCollected packs f)
        details.Dependency (fun x _ dx hx => collect_eq_specCollected packs f _ _ dx hx) {} d hd
      rw [DepInfo.empty_append] at hspec
      obtain ⟨pre, post, hpos⟩ := specConcat_position (specCollected packs f)
        details.Dependency dep hmem
      refine ⟨⟨d', hd''⟩, pre, post, ?_⟩
      rw [collect_eq_specCollected packs (f + 1) _ _ d' hd'',
        ← collect_eq_specCollected packs f _ _ d' hd', hspec]
      exact hpos
  | step name version pack details mid dep hl hA hmem _ ih =>
    intro fuel d hd
    cases fuel with
    | zero => simp [collect] at hd
    | succ f =>
      rw [collect_add packs f _ _ pack details hl hA] at hd
      obtain ⟨dm, hdm⟩ := collectLoop_some_mem _ _ _ _ hd mid hmem
      obtain ⟨⟨d', hd'⟩, pre', post', hpos'⟩ := ih f dm hdm
      have hd'' := collect_succ packs f _ _ d' hd'
      have hspec := collectLoop_eq_specConcat (collect packs f) (specCollected packs f)
        details.Dependency (fun x _ dx hx => collect_eq_specCollected packs f _ _ dx hx) {} d hd
      rw [DepInfo.empty_append] at hspec
      obtain ⟨pre, post, hpos⟩ := specConcat_position (specCollected packs f)
        details.Dependency mid hmem
      refine ⟨⟨d', hd''⟩, pre ++ pre', post' ++ [mid.Name] ++ post, ?_⟩
      rw [collect_eq_specCollected packs (f + 1) _ _ d' hd'',
        ← collect_eq_specCollected packs f _ _ d' hd', hspec, hpos,
        collect_eq_specCollected packs f _ _ dm hdm, hpos']
      simp [List.append_assoc]

/-- C13: aggregation is transitive. On an acyclic catalog, for a `Lib` or
`Exec` record and every sufficient fuel: `AddPackage` returns and hands back
the caller's `DepInfo` followed by the package's own lists `dInfo`; these are
the concatenation, over the declared dependencies in declaration order, of
the lists the resolution of that dependency hands back (empty when it does
not resolve or is an interface or the framework) followed by the
dependency's name, in the direct list always and in the static or dynamic
list by its `LinkType`; when the package is installed these are the lists of
its fragment. Consequently every transitive dependency through resolved
libraries is in the direct list, right after the direct list of its own
resolution. -/
theorem C13_aggregation_is_transitive (packs : List Package) (hacyclic : Acyclic packs)
    (name version : String) (pack : Package) (details : VersionRecord)
    (hl : lookup packs name version = some (pack, details))
    (ht : pack.Type_ = "Lib" ∨ pack.Type_ = "Exec") :
    ∃ N, ∀ fuel, N ≤ fuel →
      ∀ info : PackInfo, info.fix.packs = packs → info.name = name → info.version = version →
      ∀ dep w, ∃ dInfo w1 w',
        CheckDependency (AddPackage fuel) (resolved info details) {} w = some (dInfo, w1) ∧
        AddPackage (fuel + 1) info dep w = some (dep.append dInfo, w') ∧
        dInfo = specConcat (specCollected packs fuel) details.Dependency ∧
        (∀ d ∈ details.Dependency, ∀ dd wd, ∃ wd',
          AddPackage fuel { fix := info.fix, name := d.Name, version := d.Version } dd wd =
            some (dd.append (specCollected packs fuel d.Name d.Version), wd')) ∧
        (¬ skips (placed (resolved info details))
            (platformFolders (resolved info details) w1.disk) →
          Find w'.disk ((platformPath (resolved info details)).1 ++ [info.name ++ ".mk"]) =
            some (Dirent.file (Content.text
              (AddText info.name (platformPath (resolved info details)).2 dInfo
                (decide (pack.Type_ = "Exec")))))) ∧
        (∀ x, LibPath packs name version x →
          ∃ pre post, dInfo.depList =
            pre ++ (specCollected packs (fuel + 1) x.Name x.Version).depList
              ++ [x.Name] ++ post) := by
  obtain ⟨N, hN⟩ := collect_total_of_acyclic packs hacyclic (name, version)
  refine ⟨N, fun fuel hfuel info hpacks hname hversion dep w => ?_⟩
  obtain ⟨d, hd⟩ := hN (fuel + 1) (by omega)
  have hd0 : collect packs (fuel + 1) name version = some d := hd
  have hloop : collectLoop (collect packs fuel) details.Dependency {} = some d := by
    rw [← collect_add packs fuel _ _ pack details hl ht]; exact hd0
  obtain ⟨w1, hw1⟩ :=
    (CheckDependencyLoop_collect packs (AddPackage fuel) (collect packs fuel)
      (AddPackage_collect packs fuel) info.fix hpacks details.Dependency {} w).2 d hloop
  have hdeps : CheckDependency (AddPackage fuel) (resolved info details) {} w = some (d, w1) :=
    hw1
  have hl' : lookup info.fix.packs info.name info.version = some (pack, details) := by
    rw [hpacks, hname, hversion]; exact hl
  have hspec := collectLoop_eq_specConcat (collect packs fuel) (specCollected packs fuel)
    details.Dependency (fun x _ dx hx => collect_eq_specCollected packs fuel _ _ dx hx) {} d hloop
  rw [DepInfo.empty_append] at hspec
  have hchild : ∀ x ∈ details.Dependency, ∀ dd wd, ∃ wd',
      AddPackage fuel { fix := info.fix, name := x.Name, version := x.Version } dd wd =
        some (dd.append (specCollected packs fuel x.Name x.Version), wd') := by
    intro x hx dd wd
    obtain ⟨dx, hdx⟩ := collectLoop_some_mem _ _ _ _ hloop x hx
    obtain ⟨wd', hwd'⟩ := (AddPackage_collect packs fuel
      { fix := info.fix, name := x.Name, version := x.Version } dd wd hpacks).2 dx hdx
    exact ⟨wd', by rw [collect_eq_specCollected packs fuel _ _ dx hdx]; exact hwd'⟩
  have hpos : ∀ x, LibPath packs name version x →
      ∃ pre post, d.depList =
        pre ++ (specCollected packs (fuel + 1) x.Name x.Version).depList ++ [x.Name] ++ post :=
    fun x hx => (libPath_position packs name version x hx (fuel + 1) d hd0).2
  by_cases hs : skips (placed (resolved info details))
      (platformFolders (resolved info details) w1.disk)
  · have hrun := Add_skip (AddPackage fuel) _ (decide (pack.Type_ = "Exec")) dep _ _ _ hdeps hs
    rw [← AddPackage_add fuel info dep w pack details hl' ht] at hrun
    exact ⟨d, w1, _, hdeps, hrun, hspec, hchild, fun h => absurd hs h, hpos⟩
  · have hrun := Add_install (AddPackage fuel) _ (decide (pack.Type_ = "Exec")) dep _ _ _ hdeps hs
    rw [← AddPackage_add fuel info dep w pack details hl' ht] at hrun
    exact ⟨d, w1, _, hdeps, hrun, hspec, hchild, fun _ => Find_put_self _ _ _, hpos⟩

set_option maxRecDepth 100000 in
/-- Witness of C13: `Foo 1.0` of the acyclic catalog `chain`. `Baz` is reached
through `Bar`; the direct list of `Foo` is `Baz`, `Bar`. -/
theorem C13_aggregation_is_transitive_witness :
    Acyclic chain ∧
    LibPath chain "Foo" "1.0" ⟨"Baz", "3.0", some "Dynamic"⟩ ∧
    (AddPackage 3 requestChain {} emptyWorld).map (fun r => r.1) =
      some { depList := ["Baz", "Bar"], sLibList := ["Bar"], dLibList := ["Baz"] } ∧
    specConcat (specCollected chain 2) detailsFoo.Dependency =
      { depList := ["Baz", "Bar"], sLibList := ["Bar"], dLibList := ["Baz"] } ∧
    ∃ N, ∀ fuel, N ≤ fuel →
      ∀ info : PackInfo, info.fix.packs = chain → info.name = "Foo" → info.version = "1.0" →
      ∀ dep w, ∃ dInfo w1 w',
        CheckDependency (AddPackage fuel) (resolved info detailsFoo) {} w = some (dInfo, w1) ∧
        AddPackage (fuel + 1) info dep w = some (dep.append dInfo, w') ∧
        dInfo = specConcat (specCollected chain fuel) detailsFoo.Dependency ∧
        (∀ d ∈ detailsFoo.Dependency, ∀ dd wd, ∃ wd',
          AddPackage fuel { fix := info.fix, name := d.Name, version := d.Version } dd wd =
            some (dd.append (specCollected chain fuel d.Name d.Version), wd')) ∧
        (¬ skips (placed (resolved info detailsFoo))
            (platformFolders (resolved info detailsFoo) w1.disk) →
          Find w'.disk ((platformPath (resolved info detailsFoo)).1 ++ [info.name ++ ".mk"]) =
            some (Dirent.file (Content.text
              (AddText info.name (platformPath (resolved info detailsFoo)).2 dInfo
                (decide ("Lib" = "Exec")))))) ∧
        (∀ x, LibPath chain "Foo" "1.0" x →
          ∃ pre post, dInfo.depList =
            pre ++ (specCollected chain (fuel + 1) x.Name x.Version).depList
              ++ [x.Name] ++ post) :=
  ⟨acyclic_of_rankedBy chain rankChain (rankedBy_of_all _ _ (by decide)),
    LibPath.step "Foo" "1.0" { Name := "Foo", Type_ := "Lib", Versions := [detailsFoo] }
      detailsFoo ⟨"Bar", "2.0", some "Static"⟩ ⟨"Baz", "3.0", some "Dynamic"⟩ rfl (Or.inl rfl)
      (by decide)
      (LibPath.direct "Bar" "2.0"
        { Name := "Bar", Type_ := "Lib",
          Versions := [⟨"2.0", "git://bar", "ba5", none, [⟨"Baz", "3.0", some "Dynamic"⟩]⟩] }
        ⟨"2.0", "git://bar", "ba5", none, [⟨"Baz", "3.0", some "Dynamic"⟩]⟩
        ⟨"Baz", "3.0", some "Dynamic"⟩ rfl (Or.inl rfl) (by decide)),
    by rfl, by rfl,
    C13_aggregation_is_transitive chain
      (acyclic_of_rankedBy chain rankChain (rankedBy_of_all _ _ (by decide)))
      "Foo" "1.0" { Name := "Foo", Type_ := "Lib", Versions := [detailsFoo] } detailsFoo
      rfl (Or.inl rfl)⟩

/-! ## C14 -/

theorem empty_linksInOrder : DepInfo.linksInOrder {} :=
  ⟨List.Sublist.refl _, List.Sublist.refl _⟩

theorem append_linksInOrder (a b : DepInfo) (ha : a.linksInOrder) (hb : b.linksInOrder) :
    (a.append b).linksInOrder :=
  ⟨List.Sublist.append ha.1 hb.1, List.Sublist.append ha.2 hb.2⟩

theorem specNameLists_linksInOrder (dep : Dependency) : (specNameLists dep).linksInOrder := by
  constructor
  · by_cases hS : dep.LinkType = some "Static" <;> simp [specNameLists, hS]
  · by_cases hD : dep.LinkType = some "Dynamic" <;> simp [specNameLists, hD]

theorem collectLoop_linksInOrder (c : String → String → Option DepInfo)
    (hc : ∀ name version d, c name version = some d → d.linksInOrder) :
    ∀ deps dInfo r, dInfo.linksInOrder → collectLoop c deps dInfo = some r → r.linksInOrder := by
  intro deps
  induction deps with
  | nil =>
    intro dInfo r h hr
    simp only [collectLoop, Option.some.injEq] at hr
    rw [← hr]; exact h
  | cons dep rest ih =>
    intro dInfo r h hr
    cases hd : c dep.Name dep.Version with
    | none => simp [collectLoop, hd] at hr
    | some d =>
      simp only [collectLoop, hd] at hr
      refine ih _ _ ?_ hr
      rw [classify_eq_append]
      exact append_linksInOrder _ _ (append_linksInOrder _ _ h (hc _ _ _ hd))
        (specNameLists_linksInOrder dep)

theorem collect_linksInOrder (packs : List Package) :
    ∀ fuel name version d, collect packs fuel name version = some d → d.linksInOrder := by
  intro fuel
  induction fuel with
  | zero => intro name version d h; simp [collect] at h
  | succ fuel ih =>
    intro name version d h
    cases hl : lookup packs name version with
    | none =>
      rw [collect_miss packs fuel _ _ hl] at h
      rw [← Option.some.inj h]; exact empty_linksInOrder
    | some found =>
      obtain ⟨pack, details⟩ := found
      by_cases hI : pack.Type_ = "Interface"
      · rw [collect_interface packs fuel _ _ pack details hl hI] at h
        cases hloop : collectLoop (collect packs fuel) details.Dependency {} with
        | none => simp [hloop] at h
        | some r =>
          simp only [hloop, Option.map_some', Option.some.injEq] at h
          rw [← h]; exact empty_linksInOrder
      · by_cases hA : pack.Type_ = "Lib" ∨ pack.Type_ = "Exec"
        · rw [collect_add packs fuel _ _ pack details hl hA] at h
          exact collectLoop_linksInOrder _ ih _ _ _ empty_linksInOrder h
        · have hr : ¬ recurses pack := by
            rintro (h | h | h)
            · exact hI h
            · exact hA (Or.inl h)
            · exact hA (Or.inr h)
          rw [collect_no_emitter packs fuel _ _ pack details hl hr] at h
          rw [← Option.some.inj h]; exact empty_linksInOrder

set_option maxRecDepth 100000 in
/-- C14, counterexample: the direct list that the call for `A 1` of `diamond`
builds is `D`, `B`, `D`, `C`, where `D` is reached through `B` and through
`C`; the call for `X 1` of `twice`, which declares `Y` twice, builds the
direct list and the static list `Y`, `Y`. Neither is free of duplicates. -/
theorem C14_counterexample :
    (CheckDependency (AddPackage 2) (resolved (requestA false) detailsA) {} emptyWorld).map
        (fun r => r.1) =
      some { depList := ["D", "B", "D", "C"], sLibList := ["D", "B", "D", "C"], dLibList := [] } ∧
    ¬ (["D", "B", "D", "C"] : List String).Nodup ∧
    (CheckDependency (AddPackage 1) (resolved requestX detailsX) {} emptyWorld).map
        (fun r => r.1) =
      some { depList := ["Y", "Y"], sLibList := ["Y", "Y"], dLibList := [] } ∧
    ¬ (["Y", "Y"] : List String).Nodup := by
  refine ⟨by rfl, by decide, by rfl, by decide⟩

/-- C14, amended: the lists a resolution call builds keep every occurrence, in
the order of resolution. The declared names are among the direct list in
declaration order, and the static and the dynamic list are subsequences of
the direct list, so every name in them is in the direct list. -/
theorem C14_lists_are_ordered_sublists (fuel : Nat) (info : PackInfo) (w : World)
    (dInfo : DepInfo) (w1 : World)
    (hdeps : CheckDependency (AddPackage fuel) info {} w = some (dInfo, w1)) :
    (declaredNames info.details.Dependency).Sublist dInfo.depList ∧
    dInfo.sLibList.Sublist dInfo.depList ∧
    dInfo.dLibList.Sublist dInfo.depList ∧
    (∀ n ∈ dInfo.sLibList, n ∈ dInfo.depList) ∧
    (∀ n ∈ dInfo.dLibList, n ∈ dInfo.depList) := by
  have hcol := CheckDependency_collect fuel info {} dInfo w w1 hdeps
  have hsub := (collectLoop_sublist _ _ _ _ hcol).1
  have hord := collectLoop_linksInOrder _ (collect_linksInOrder info.fix.packs fuel) _ _ _
    empty_linksInOrder hcol
  refine ⟨by simpa using hsub, hord.1, hord.2, fun n hn => hord.1.subset hn,
    fun n hn => hord.2.subset hn⟩

set_option maxRecDepth 100000 in
/-- Witness of C14 (amended): the call for `A 1` of `diamond` on the empty root. -/
theorem C14_lists_are_ordered_sublists_witness :
    CheckDependency (AddPackage 2) (resolved (requestA false) detailsA) {} emptyWorld =
      some ({ depList := ["D", "B", "D", "C"], sLibList := ["D", "B", "D", "C"], dLibList := [] },
        afterDepsA) ∧
    (declaredNames detailsA.Dependency).Sublist ["D", "B", "D", "C"] ∧
    (["D", "B", "D", "C"] : List String).Sublist ["D", "B", "D", "C"] ∧
    ([] : List String).Sublist ["D", "B", "D", "C"] ∧
    (∀ n ∈ (["D", "B", "D", "C"] : List String), n ∈ (["D", "B", "D", "C"] : List String)) ∧
    (∀ n ∈ ([] : List String), n ∈ (["D", "B", "D", "C"] : List String)) :=
  have hdeps : CheckDependency (AddPackage 2) (resolved (requestA false) detailsA) {} emptyWorld =
      some ({ depList := ["D", "B", "D", "C"], sLibList := ["D", "B", "D", "C"], dLibList := [] },
        afterDepsA) := by
    rfl
  ⟨hdeps, C14_lists_are_ordered_sublists 2 (resolved (requestA false) detailsA) emptyWorld
    _ afterDepsA hdeps⟩

/-! ## C15 -/

theorem fetchOf_of_recurses (pack : Package) (info : PackInfo) (hr : recurses pack) :
    fetchOf pack info =
      Event.fetch (destination pack info) info.name info.details.URL info.details.Revision := by
  have hnF : pack.Type_ ≠ "Framework" := by
    rcases hr with h | h | h <;> rw [h] <;> decide
  simp [fetchOf, hnF]

/-- C16: for a resolved package of type `Lib`, `Exec` or `Interface` whose
dependencies are resolved, the name of every declaration is in the direct
list, and in the static or dynamic list by its `LinkType`, whether or not
the declaration matches a catalog entry. A declaration that matches none
makes the recursive call hand back lists and world unchanged (no fetch, no
fragment of its own), yet its name is in the lists from which the fragment
of the parent is written. -/
theorem C16_unmatched_dependency_is_still_recorded (fuel : Nat) (info : PackInfo)
    (dep : DepInfo) (w : World) (pack : Package) (details : VersionRecord)
    (dInfo : DepInfo) (w1 : World)
    (hl : lookup info.fix.packs info.name info.version = some (pack, details))
    (hr : recurses pack)
    (hdeps : CheckDependency (AddPackage fuel) (resolved info details) {} w = some (dInfo, w1)) :
    (∀ d ∈ details.Dependency,
      d.Name ∈ dInfo.depList ∧
      (d.LinkType = some "Static" → d.Name ∈ dInfo.sLibList) ∧
      (d.LinkType = some "Dynamic" → d.Name ∈ dInfo.dLibList)) ∧
    (∀ d ∈ details.Dependency, lookup info.fix.packs d.Name d.Version = none →
      ∀ dd wd, AddPackage fuel { fix := info.fix, name := d.Name, version := d.Version } dd wd =
        some (dd, wd)) ∧
    ∃ dep' w', AddPackage (fuel + 1) info dep w = some (dep', w') ∧
      (¬ (info.fix.forceUpdate = false ∧
          exist w1.disk (destination pack (resolved info details)) (info.name ++ ".json")
            info.version = true) →
        w'.log = w1.log ++
          [ Event.manifest (destination pack (resolved info details)) info.name info.version,
            Event.delete (destination pack (resolved info details) ++ [info.name]),
            fetchOf pack (resolved info details),
            Event.create (destination pack (resolved info details) ++ [info.name ++ ".mk"]),
            Event.write (destination pack (resolved info details) ++ [info.name ++ ".mk"])
              (fragmentText pack (resolved info details) dInfo) ]) := by
  have hcol : collectLoop (collect info.fix.packs fuel) details.Dependency {} = some dInfo :=
    CheckDependency_collect fuel (resolved info details) {} dInfo w w1 hdeps
  have hsub := collectLoop_sublist _ _ _ _ hcol
  refine ⟨?_, ?_, ?_⟩
  · intro d hd
    refine ⟨?_, ?_, ?_⟩
    · apply hsub.1.subset
      simp only [List.nil_append, declaredNames, List.mem_map]
      exact ⟨d, hd, rfl⟩
    · intro hS
      apply hsub.2.1.subset
      simp only [List.nil_append, staticNames, List.mem_map, List.mem_filter, decide_eq_true_eq]
      exact ⟨d, ⟨hd, hS⟩, rfl⟩
    · intro hD
      apply hsub.2.2.subset
      simp only [List.nil_append, dynamicNames, List.mem_map, List.mem_filter, decide_eq_true_eq]
      exact ⟨d, ⟨hd, hD⟩, rfl⟩
  · intro d hd hnone dd wd
    obtain ⟨x, hx⟩ := collectLoop_some_mem _ _ _ _ hcol d hd
    cases fuel with
    | zero => simp [collect] at hx
    | succ f =>
      rw [AddPackage_succ]
      have : lookup info.fix.packs d.Name d.Version = none := hnone
      simp only [this]
  · obtain ⟨dep', w', hrun, _, hinst, _⟩ :=
      visit_effects fuel info dep w pack details dInfo w1 hl hr hdeps
    exact ⟨dep', w', hrun, hinst⟩

set_option maxRecDepth 100000 in
/-- Witness of C16: `App 1` of `ghosts` declares `Ghost` static and `Phantom`
dynamic, neither of which is in the catalog. Nothing is fetched for them,
and the fragment of `App` reads `App: Ghost Phantom`, `SLIBS="Ghost "` and
`DLIBS="EasyCpp Phantom "`. -/
theorem C16_unmatched_dependency_is_still_recorded_witness :
    CheckDependency (AddPackage 1) (resolved requestApp detailsApp) {} emptyWorld =
      some ({ depList := ["Ghost", "Phantom"], sLibList := ["Ghost"], dLibList := ["Phantom"] },
        emptyWorld) ∧
    (AddPackage 2 requestApp {} emptyWorld).map (fun r => r.2.log) =
      some [ Event.manifest ["Packages"] "App" "1", Event.delete ["Packages", "App"],
             Event.fetch ["Packages"] "App" "git://app" "p1",
             Event.create ["Packages", "App.mk"],
             Event.write ["Packages", "App.mk"] appText ] ∧
    ((∀ d ∈ detailsApp.Dependency,
      d.Name ∈ ["Ghost", "Phantom"] ∧
      (d.LinkType = some "Static" → d.Name ∈ ["Ghost"]) ∧
      (d.LinkType = some "Dynamic" → d.Name ∈ ["Phantom"])) ∧
    (∀ d ∈ detailsApp.Dependency, lookup ghosts d.Name d.Version = none →
      ∀ dd wd, AddPackage 1 { fix := requestApp.fix, name := d.Name, version := d.Version }
          dd wd = some (dd, wd)) ∧
    ∃ dep' w', AddPackage 2 requestApp {} emptyWorld = some (dep', w') ∧
      (¬ (requestApp.fix.forceUpdate = false ∧
          exist emptyWorld.disk ["Packages"] "App.json" "1" = true) →
        w'.log = emptyWorld.log ++
          [ Event.manifest ["Packages"] "App" "1", Event.delete ["Packages", "App"],
            Event.fetch ["Packages"] "App" "git://app" "p1",
            Event.create ["Packages", "App.mk"],
            Event.write ["Packages", "App.mk"] appText ])) :=
  have hdeps : CheckDependency (AddPackage 1) (resolved requestApp detailsApp) {} emptyWorld =
      some ({ depList := ["Ghost", "Phantom"], sLibList := ["Ghost"], dLibList := ["Phantom"] },
        emptyWorld) := by
    rfl
  ⟨hdeps, by rfl,
    C16_unmatched_dependency_is_still_recorded 1 requestApp {} emptyWorld
      { Name := "App", Type_ := "Exec", Versions := [detailsApp] } detailsApp _ emptyWorld
      rfl (Or.inr (Or.inr rfl)) hdeps⟩

/-! ## C17 -/

/-- A node of type `Lib`, `Exec` or `Interface` whose dependencies are
resolved, with the force flag off or set. If the manifest at the destination
is missing, is a file that does not parse, or parses but records no or
another `Version`, and no directory stands at its path, then `AddPackage`
returns and the node writes the manifest, deletes the payload, fetches,
creates its fragment and writes it. -/
theorem unreadable_manifest_is_not_installed (fuel : Nat) (info : PackInfo)
    (dep : DepInfo) (w : World) (pack : Package) (details : VersionRecord)
    (dInfo : DepInfo) (w1 : World)
    (hl : lookup info.fix.packs info.name info.version = some (pack, details))
    (hr : recurses pack)
    (hdeps : CheckDependency (AddPackage fuel) (resolved info details) {} w = some (dInfo, w1))
    (_hfile : creatable w1.disk
      (destination pack (resolved info details) ++ [info.name ++ ".json"]) = true)
    (hbad :
      Find w1.disk (destination pack (resolved info details) ++ [info.name ++ ".json"]) = none ∨
      (∃ s,
        Find w1.disk (destination pack (resolved info details) ++ [info.name ++ ".json"]) =
          some (Dirent.file (Content.text s))) ∨
      (∃ fields,
        Find w1.disk (destination pack (resolved info details) ++ [info.name ++ ".json"]) =
          some (Dirent.file (Content.json fields)) ∧
        fields.lookup "Version" ≠ some info.version)) :
    ∃ dep' w', AddPackage (fuel + 1) info dep w = some (dep', w') ∧
      w'.log = w1.log ++
        [ Event.manifest (destination pack (resolved info details)) info.name info.version,
          Event.delete (destination pack (resolved info details) ++ [info.name]),
          Event.fetch (destination pack (resolved info details)) info.name
            details.URL details.Revision,
          Event.create (destination pack (resolved info details) ++ [info.name ++ ".mk"]),
          Event.write (destination pack (resolved info details) ++ [info.name ++ ".mk"])
            (fragmentText pack (resolved info details) dInfo) ] ∧
      Find w'.disk (destination pack (resolved info details) ++ [info.name ++ ".json"]) ≠
        Find w1.disk (destination pack (resolved info details) ++ [info.name ++ ".json"]) := by
  have hex : exist w1.disk (destination pack (resolved info details)) (info.name ++ ".json")
      info.version = false := by
    unfold exist
    rcases hbad with h | ⟨s, h⟩ | ⟨fields, h, hv⟩
    · rw [h]
    · rw [h]
    · rw [h]; simpa using hv
  have hnot : ¬ (info.fix.forceUpdate = false ∧
      exist w1.disk (destination pack (resolved info details)) (info.name ++ ".json")
        info.version = true) := by
    rintro ⟨_, h⟩
    rw [hex] at h
    exact Bool.noConfusion h
  obtain ⟨dep', w', hrun, _, hinst, hafter⟩ :=
    visit_effects fuel info dep w pack details dInfo w1 hl hr hdeps
  have hlog := hinst hnot
  rw [fetchOf_of_recurses pack (resolved info details) hr] at hlog
  refine ⟨dep', w', hrun, hlog, ?_⟩
  intro heq
  have := exist_congr _ _ (destination pack (resolved info details)) (info.name ++ ".json")
    info.version heq
  rw [hafter, hex] at this
  exact Bool.noConfusion this

set_option maxRecDepth 100000 in
/-- The manifest of `Bar` records `1.9` and `2.0` is requested: the hypotheses
of `unreadable_manifest_is_not_installed` hold and `Bar` is installed. -/
theorem unreadable_manifest_is_not_installed_witness :
    CheckDependency (AddPackage 0) (resolved requestBar detailsBar) {} staleBar =
      some ({}, staleBar) ∧
    creatable staleBar.disk (["Packages"] ++ ["Bar" ++ ".json"]) = true ∧
    (∃ fields,
      Find staleBar.disk (["Packages"] ++ ["Bar" ++ ".json"]) =
        some (Dirent.file (Content.json fields)) ∧
      fields.lookup "Version" ≠ some "2.0") ∧
    ∃ dep' w', AddPackage 1 requestBar {} staleBar = some (dep', w') ∧
      w'.log = staleBar.log ++
        [ Event.manifest ["Packages"] "Bar" "2.0", Event.delete ["Packages", "Bar"],
          Event.fetch ["Packages"] "Bar" "git://bar" "ba5",
          Event.create ["Packages", "Bar.mk"],
          Event.write ["Packages", "Bar.mk"] barText ] ∧
      Find w'.disk ["Packages", "Bar.json"] ≠ Find staleBar.disk ["Packages", "Bar.json"] :=
  have hdeps : CheckDependency (AddPackage 0) (resolved requestBar detailsBar) {} staleBar =
      some ({}, staleBar) := by
    rfl
  have hfile : creatable staleBar.disk (["Packages"] ++ ["Bar" ++ ".json"]) = true := by
    rfl
  have hbad : ∃ fields,
      Find staleBar.disk (["Packages"] ++ ["Bar" ++ ".json"]) =
        some (Dirent.file (Content.json fields)) ∧
      fields.lookup "Version" ≠ some "2.0" :=
    ⟨[("name", "Bar"), ("Version", "1.9")], by rfl, by decide⟩
  ⟨hdeps, hfile, hbad,
    unreadable_manifest_is_not_installed 0 requestBar {} staleBar
      { Name := "Bar", Type_ := "Lib", Versions := [detailsBar] } detailsBar {} staleBar
      rfl (Or.inr (Or.inl rfl)) hdeps hfile (Or.inr (Or.inr hbad))⟩

set_option maxRecDepth 100000 in
/-- C17: the request `Bar/2.0` on the catalog `fooBar`, force flag off, on four
disks. Where the manifest `Packages/Bar.json` is missing, is a file that does
not parse, or records the version `1.9`, a file can be created at its path
and the node is installed: manifest, delete, fetch, create, write. Where
`Packages/Bar.json` is a folder, the test of `UpdatePackage` answers "not
installed" as well (`Find` succeeds and `IsFolder` holds), so the function
does not return early and reaches `CreateFile("Bar.json")`, while a directory
stands at that path and no file can be created there. -/
theorem C17_folder_in_place_of_the_manifest :
    (∀ w ∈ [emptyWorld, garbledBar, staleBar],
      exist w.disk ["Packages"] "Bar.json" "2.0" = false ∧
      creatable w.disk ["Packages", "Bar.json"] = true ∧
      (AddPackage 1 requestBar {} w).map (fun r => r.2.log) = some barEvents) ∧
    Find folderBar.disk ["Packages", "Bar.json"] = some Dirent.folder ∧
    CheckDependency (AddPackage 0) (resolved requestBar detailsBar) {} folderBar =
      some ({}, folderBar) ∧
    exist (platformFolders (resolved requestBar detailsBar) folderBar.disk)
      (placed (resolved requestBar detailsBar)).path "Bar.json" "2.0" = false ∧
    ¬ skips (placed (resolved requestBar detailsBar))
      (platformFolders (resolved requestBar detailsBar) folderBar.disk) ∧
    creatable (platformFolders (resolved requestBar detailsBar) folderBar.disk)
      ((placed (resolved requestBar detailsBar)).path ++ ["Bar.json"]) = false := by
  refine ⟨?_, by rfl, by rfl, by rfl, by decide, by rfl⟩
  intro w hw
  simp only [List.mem_cons, List.mem_singleton, List.not_mem_nil, or_false] at hw
  rcases hw with rfl | rfl | rfl
  · exact ⟨by rfl, by rfl, by rfl⟩
  · exact ⟨by rfl, by rfl, by rfl⟩
  · exact ⟨by rfl, by rfl, by rfl⟩

/-! ## C19 -/

theorem AddText_parts (name stem : String) (dInfo : DepInfo) (isApp : Bool) :
    AddText name stem dInfo isApp =
      includeExport name ++ targetLines name dInfo ++ makeLine name
        ++ ("\t\tPKG_PATH=" ++ (stem ++ name)) ++ recipeTail name dInfo isApp := by
  simp only [AddText, includeExport, targetLines, makeLine, recipeTail, String.append_assoc]

theorem AddText_parts_spelled (name stem : String) (dInfo : DepInfo) (isApp : Bool) :
    AddText name stem dInfo isApp =
      ("export FLAGS += \\\n" ++ "  -I $(PACKAGES)/" ++ name ++ "/Inc\n\n")
        ++ targetLines name dInfo
        ++ ("\t@$(MAKE) -f $(PACKAGES)/" ++ name ++ "/Makefile \\\n")
        ++ ("\t\tPKG_PATH=" ++ (stem ++ name)) ++ recipeTail name dInfo isApp :=
  AddText_parts name stem dInfo isApp

/-- C19: a `Lib` or `Exec` version record that is installed, the `Packages`
folder being the one `Start` creates under the install root. The text of its
fragment is the include-path export `-I $(PACKAGES)/<name>/Inc`, the
`.PHONY` and target lines, the recipe line with
`$(PACKAGES)/<name>/Makefile`, the line `PKG_PATH=` with a stem followed by
the name, and the rest of the recipe. The export and the makefile line are
made of the name alone; only the stem of `PKG_PATH` and the install folder
follow `Platform`: `Packages/Platform/Linux` for `Linux`, `Packages` for
every other or no `Platform`. -/
theorem C19_include_and_makefile_ignore_platform (fuel : Nat) (info : PackInfo)
    (dep : DepInfo) (w : World) (pack : Package) (details : VersionRecord)
    (dInfo : DepInfo) (w1 : World)
    (hl : lookup info.fix.packs info.name info.version = some (pack, details))
    (ht : pack.Type_ = "Lib" ∨ pack.Type_ = "Exec")
    (hpackage : info.fix.package = info.fix.root ++ ["Packages"])
    (hdeps : CheckDependency (AddPackage fuel) (resolved info details) {} w = some (dInfo, w1))
    (hinst : ¬ skips (placed (resolved info details))
      (platformFolders (resolved info details) w1.disk)) :
    ∃ w' folder stem, AddPackage (fuel + 1) info dep w = some (dep.append dInfo, w') ∧
      Find w'.disk (info.fix.root ++ folder ++ [info.name ++ ".mk"]) =
        some (Dirent.file (Content.text
          (("export FLAGS += \\\n" ++ "  -I $(PACKAGES)/" ++ info.name ++ "/Inc\n\n")
            ++ targetLines info.name dInfo
            ++ ("\t@$(MAKE) -f $(PACKAGES)/" ++ info.name ++ "/Makefile \\\n")
            ++ ("\t\tPKG_PATH=" ++ (stem ++ info.name))
            ++ recipeTail info.name dInfo (decide (pack.Type_ = "Exec"))))) ∧
      Find w'.disk (info.fix.root ++ folder ++ [info.name]) =
        some (Dirent.checkout details.URL details.Revision) ∧
      (details.Platform = some "Linux" →
        folder = ["Packages", "Platform", "Linux"] ∧ stem = "Packages/Platform/Linux/") ∧
      (details.Platform ≠ some "Linux" → folder = ["Packages"] ∧ stem = "Packages/") := by
  have hadd := Add_install (AddPackage fuel) (resolved info details) (decide (pack.Type_ = "Exec"))
    dep w dInfo w1 hdeps hinst
  rw [← AddPackage_add fuel info dep w pack details hl ht] at hadd
  have hdisk := Add_install_disk (resolved info details)
    (platformFolders (resolved info details) w1.disk)
    (AddText info.name (platformPath (resolved info details)).2 dInfo
      (decide (pack.Type_ = "Exec")))
  by_cases hp : details.Platform = some "Linux"
  · have h1 : info.fix.root ++ ["Packages", "Platform", "Linux"] =
        (platformPath (resolved info details)).1 := by
      simp [platformPath, resolved, hp, hpackage]
    have h2 : "Packages/Platform/Linux/" = (platformPath (resolved info details)).2 := by
      simp [platformPath, resolved, hp]
    refine ⟨_, ["Packages", "Platform", "Linux"], "Packages/Platform/Linux/", hadd, ?_, ?_,
      fun _ => ⟨rfl, rfl⟩, fun h => absurd hp h⟩
    · rw [h1, h2, ← AddText_parts_spelled]; exact hdisk.2.2
    · rw [h1]; exact hdisk.2.1
  · have h1 : info.fix.root ++ ["Packages"] = (platformPath (resolved info details)).1 := by
      simp [platformPath, resolved, hp, hpackage]
    have h2 : "Packages/" = (platformPath (resolved info details)).2 := by
      simp [platformPath, resolved, hp]
    refine ⟨_, ["Packages"], "Packages/", hadd, ?_, ?_,
      fun h => absurd h hp, fun _ => ⟨rfl, rfl⟩⟩
    · rw [h1, h2, ← AddText_parts_spelled]; exact hdisk.2.2
    · rw [h1]; exact hdisk.2.1

set_option maxRecDepth 100000 in
/-- Witness of C19: `Tool 1` of `platforms` (`Platform` `Linux`) under the root
`./work`. Its fragment has `-I $(PACKAGES)/Tool/Inc` and
`$(PACKAGES)/Tool/Makefile`, without `Platform/Linux`, and
`PKG_PATH=Packages/Platform/Linux/Tool`. -/
theorem C19_include_and_makefile_ignore_platform_witness :
    requestTool.fix.package = requestTool.fix.root ++ ["Packages"] ∧
    CheckDependency (AddPackage 0) (resolved requestTool detailsTool) {} emptyWorld =
      some ({}, emptyWorld) ∧
    ¬ skips (placed (resolved requestTool detailsTool))
      (platformFolders (resolved requestTool detailsTool) emptyWorld.disk) ∧
    (AddPackage 1 requestTool {} emptyWorld).map
        (fun r => Find r.2.disk ["work", "Packages", "Platform", "Linux", "Tool.mk"]) =
      some (some (Dirent.file (Content.text toolText))) ∧
    ∃ w' folder stem, AddPackage 1 requestTool {} emptyWorld = some ({}, w') ∧
      Find w'.disk (["work"] ++ folder ++ ["Tool" ++ ".mk"]) =
        some (Dirent.file (Content.text
          ("export FLAGS += \\\n  -I $(PACKAGES)/Tool/Inc\n\n"
            ++ targetLines "Tool" {}
            ++ "\t@$(MAKE) -f $(PACKAGES)/Tool/Makefile \\\n"
            ++ ("\t\tPKG_PATH=" ++ (stem ++ "Tool"))
            ++ recipeTail "Tool" {} true))) ∧
      Find w'.disk (["work"] ++ folder ++ ["Tool"]) =
        some (Dirent.checkout "git://tool" "t1") ∧
      (detailsTool.Platform = some "Linux" →
        folder = ["Packages", "Platform", "Linux"] ∧ stem = "Packages/Platform/Linux/") ∧
      (detailsTool.Platform ≠ some "Linux" → folder = ["Packages"] ∧ stem = "Packages/") :=
  have hdeps : CheckDependency (AddPackage 0) (resolved requestTool detailsTool) {} emptyWorld =
      some ({}, emptyWorld) := by
    rfl
  have hinst : ¬ skips (placed (resolved requestTool detailsTool))
      (platformFolders (resolved requestTool detailsTool) emptyWorld.disk) := by
    decide
  ⟨rfl, hdeps, hinst, by rfl,
    C19_include_and_makefile_ignore_platform 0 requestTool {} emptyWorld
      { Name := "Tool", Type_ := "Exec", Versions := [detailsTool] } detailsTool {} emptyWorld
      rfl (Or.inr rfl) rfl hdeps hinst⟩

end PackageManager
